import Mathlib

/-!
# Certificate registry chaincode (`chaincode/smartcontract.go`)

A shallow embedding of the `SmartContract` operations over an explicit world
state, together with the part of `encoding/json` the contract relies on.

Conventions of the embedding:

* a Go `string` is a sequence of bytes (`GoString`), UTF-8 text or not: ids,
  keys, record fields and error texts are such strings, and `utf8 "..."` is
  the Go string holding a given text;
* a `[]byte` holding JSON text is the list of the characters of that text
  (`Bytes`), so the model covers world states whose values are UTF-8 text, as
  everything `json.Marshal` writes is;
* a Go `int` is a 64-bit integer (`GoInt`);
* a Go `error` result is `Option GoError` (`none` is `nil`), a `(value, error)`
  result is `Except GoError value`;
* every operation takes the world state and returns its result paired with the
  world state it leaves behind;
* `fmt.Println` calls and the deferred `Close` of the range iterator have no
  effect on results or on the world state and are left out;
* `json.Marshal` is given for the two types the contract marshals, a
  `Certificate` and a `string`; `json.Unmarshal` into a `Certificate` is a JSON
  reader followed by the type-directed decoding of the document read. The
  text of its errors is not modelled, only their kind;
* the chaincode stub is the world-state collaborator: its calls work on the
  world state or fail with a cause, and which calls fail is fixed per key.
-/

namespace Chaincode

/-! ## Data model -/

/-- A Go `string`: a sequence of bytes, which need not be valid UTF-8. A byte
is a number below 256; a number from 256 on is read as a byte that belongs to
no valid encoding. -/
abbrev GoString := List Nat

/-- The contents of a `[]byte` holding text. -/
abbrev Bytes := List Char

/-- Go `int` on a 64-bit platform. -/
abbrev GoInt := { n : Int // -9223372036854775808 ≤ n ∧ n ≤ 9223372036854775807 }

/-- The Go `error` values the contract can return. -/
inductive GoError where
  /-- An error whose `Error()` text is `msg`: `fmt.Errorf`, or an error handed
  back by the chaincode stub. -/
  | text (msg : GoString)
  /-- From `json.Unmarshal`: the input is not a JSON document (`*json.SyntaxError`). -/
  | jsonMalformed
  /-- From `json.Unmarshal`: a JSON value of kind `value` met a Go target
  `target` that cannot hold it (`*json.UnmarshalTypeError`). -/
  | jsonMismatch (value : String) (target : String)
deriving DecidableEq, Repr

/-- Go `type Artist struct`. -/
structure Artist where
  ID : GoString
  Name : GoString
  DateOfBirth : GoString
deriving DecidableEq, Repr

/-- Go `type Certificate struct`. -/
structure Certificate where
  ID : GoString
  PHOTO : GoString
  Title : GoString
  Owner : GoString
  YearOfProduction : GoInt
  Artist : Artist
deriving DecidableEq

/-- The zero value of `Artist`. -/
def Artist.zero : Artist := ⟨[], [], []⟩

/-- The zero value of `Certificate` (`var asset Certificate`). -/
def Certificate.zero : Certificate := ⟨[], [], [], [], ⟨0, by decide⟩, Artist.zero⟩

/-! ## UTF-8 -/

/-- Go `utf8.EncodeRune`: the UTF-8 bytes of a character. -/
def utf8Char (c : Char) : List Nat :=
  if c.toNat < 0x80 then [c.toNat]
  else if c.toNat < 0x800 then [0xC0 + c.toNat / 64, 0x80 + c.toNat % 64]
  else if c.toNat < 0x10000 then
    [0xE0 + c.toNat / 4096, 0x80 + c.toNat / 64 % 64, 0x80 + c.toNat % 64]
  else
    [0xF0 + c.toNat / 262144, 0x80 + c.toNat / 4096 % 64, 0x80 + c.toNat / 64 % 64,
      0x80 + c.toNat % 64]

/-- The UTF-8 bytes of a sequence of characters. -/
def utf8Chars : List Char → GoString
  | [] => []
  | c :: cs => utf8Char c ++ utf8Chars cs

/-- The Go string holding the text `t`. -/
def utf8 (t : String) : GoString := utf8Chars t.toList

/-- Is `b` a UTF-8 continuation byte? -/
def isCont (b : Nat) : Bool := decide (0x80 ≤ b) && decide (b ≤ 0xBF)

/-- Go `utf8.DecodeRune`: the character encoded at the head of the bytes and
the number of bytes it takes; `none` where Go returns `(RuneError, 1)`: an
invalid or incomplete encoding. Over-long forms, surrogates and values above
U+10FFFF are invalid, by the ranges allowed for the second byte. -/
def decodeRune : List Nat → Option (Char × Nat)
  | [] => none
  | b0 :: rest =>
    if b0 < 0x80 then some (Char.ofNat b0, 1)
    else if 0xC2 ≤ b0 ∧ b0 ≤ 0xDF then
      match rest with
      | b1 :: _ =>
        if isCont b1 then some (Char.ofNat ((b0 - 0xC0) * 64 + (b1 - 0x80)), 2) else none
      | [] => none
    else if 0xE0 ≤ b0 ∧ b0 ≤ 0xEF then
      match rest with
      | b1 :: b2 :: _ =>
        if (if b0 = 0xE0 then 0xA0 else 0x80) ≤ b1 ∧ b1 ≤ (if b0 = 0xED then 0x9F else 0xBF)
            ∧ isCont b2 then
          some (Char.ofNat ((b0 - 0xE0) * 4096 + (b1 - 0x80) * 64 + (b2 - 0x80)), 3)
        else none
      | _ => none
    else if 0xF0 ≤ b0 ∧ b0 ≤ 0xF4 then
      match rest with
      | b1 :: b2 :: b3 :: _ =>
        if (if b0 = 0xF0 then 0x90 else 0x80) ≤ b1 ∧ b1 ≤ (if b0 = 0xF4 then 0x8F else 0xBF)
            ∧ isCont b2 ∧ isCont b3 then
          some (Char.ofNat ((b0 - 0xF0) * 262144 + (b1 - 0x80) * 4096 + (b2 - 0x80) * 64
            + (b3 - 0x80)), 4)
        else none
      | _ => none
    else none

/-- The runes of a Go string, as a loop `i += size` over `utf8.DecodeRune` finds
them: `some c` for a character, `none` for a byte that starts no valid
encoding. `skip` counts bytes already consumed as part of the last rune. -/
def runesAux : Nat → List Nat → List (Option Char)
  | _, [] => []
  | skip + 1, _ :: bs => runesAux skip bs
  | 0, b :: bs =>
    match decodeRune (b :: bs) with
    | some (c, size) => some c :: runesAux (size - 1) bs
    | none => none :: runesAux 0 bs

/-- The runes of a Go string. -/
def runes (s : GoString) : List (Option Char) := runesAux 0 s

/-- The text a Go string is read as: each byte that starts no valid encoding
reads as U+FFFD. -/
def toText (s : GoString) : List Char :=
  (runes s).map (fun r => r.getD (Char.ofNat 0xFFFD))

/-- A Go string coerced to valid UTF-8, each invalid byte replaced by the
encoding of U+FFFD: what `json.Marshal` followed by `json.Unmarshal` makes of
a string. -/
def coerceUTF8 (s : GoString) : GoString := utf8Chars (toText s)

/-- Go `utf8.ValidString`: the string is valid UTF-8, every rune of it is a
character and no byte starts an invalid encoding. -/
def ValidUTF8 (s : GoString) : Prop := ∀ r ∈ runes s, r.isSome = true

instance (s : GoString) : Decidable (ValidUTF8 s) :=
  inferInstanceAs (Decidable (∀ r ∈ runes s, r.isSome = true))

/-- An `Artist` with every string coerced to valid UTF-8. -/
def Artist.coerce (a : Artist) : Artist :=
  ⟨coerceUTF8 a.ID, coerceUTF8 a.Name, coerceUTF8 a.DateOfBirth⟩

/-- A `Certificate` with every string coerced to valid UTF-8. -/
def Certificate.coerce (c : Certificate) : Certificate :=
  ⟨coerceUTF8 c.ID, coerceUTF8 c.PHOTO, coerceUTF8 c.Title, coerceUTF8 c.Owner,
    c.YearOfProduction, c.Artist.coerce⟩

/-- Every string of the record is valid UTF-8. -/
def Certificate.Valid (c : Certificate) : Prop :=
  ValidUTF8 c.ID ∧ ValidUTF8 c.PHOTO ∧ ValidUTF8 c.Title ∧ ValidUTF8 c.Owner
    ∧ ValidUTF8 c.Artist.ID ∧ ValidUTF8 c.Artist.Name ∧ ValidUTF8 c.Artist.DateOfBirth

instance (c : Certificate) : Decidable c.Valid :=
  inferInstanceAs (Decidable (ValidUTF8 c.ID ∧ ValidUTF8 c.PHOTO ∧ ValidUTF8 c.Title
    ∧ ValidUTF8 c.Owner ∧ ValidUTF8 c.Artist.ID ∧ ValidUTF8 c.Artist.Name
    ∧ ValidUTF8 c.Artist.DateOfBirth))

/-! ## `encoding/json`: encoding -/

/-- The lower-case hexadecimal digit of `n < 16`. -/
def hexDigit (n : Nat) : Char :=
  if n < 10 then Char.ofNat (48 + n) else Char.ofNat (87 + n)

/-- How `json.Marshal` writes one character of a string (HTML escaping on, as
`json.Marshal` has it): `"` and `\` get a backslash; backspace, form feed,
newline, carriage return and tab their short escape; other control characters
and `<`, `>`, `&` the form `\u00XX`; U+2028 and U+2029 the form `\u202X`;
anything else is copied. (Before Go 1.22 backspace and form feed were written
`\u0008` and `\u000c`, which read back as the same characters.) -/
def encodeChar (c : Char) : List Char :=
  if c = '"' ∨ c = '\\' then ['\\', c]
  else if c.toNat = 8 then ['\\', 'b']
  else if c.toNat = 12 then ['\\', 'f']
  else if c = '\n' then ['\\', 'n']
  else if c = '\r' then ['\\', 'r']
  else if c = '\t' then ['\\', 't']
  else if c.toNat < 32 ∨ c = '<' ∨ c = '>' ∨ c = '&' then
    ['\\', 'u', '0', '0', hexDigit (c.toNat / 16), hexDigit (c.toNat % 16)]
  else if c.toNat = 0x2028 then ['\\', 'u', '2', '0', '2', '8']
  else if c.toNat = 0x2029 then ['\\', 'u', '2', '0', '2', '9']
  else [c]

/-- The escaped body of a JSON string. -/
def encodeChars : List Char → List Char
  | [] => []
  | c :: cs => encodeChar c ++ encodeChars cs

/-- How `json.Marshal` writes one rune of a string: a character by `encodeChar`,
a byte that starts no valid encoding as the escape `\ufffd`. -/
def encodeRune : Option Char → List Char
  | some c => encodeChar c
  | none => ['\\', 'u', 'f', 'f', 'f', 'd']

/-- The escaped body of a JSON string, rune by rune. -/
def encodeRunes : List (Option Char) → List Char
  | [] => []
  | r :: rs => encodeRune r ++ encodeRunes rs

/-- A Go string as a JSON string literal. -/
def encodeString (s : GoString) : List Char :=
  '"' :: (encodeRunes (runes s) ++ ['"'])

/-- The name of a struct field (its `json` tag, a text) as a JSON string
literal. -/
def encodeName (name : String) : List Char :=
  '"' :: (encodeChars name.toList ++ ['"'])

/-- The decimal digits of a natural number, most significant first
(`fuel` bounds the number of digits). -/
def natDigits : Nat → Nat → List Char
  | 0, n => [Char.ofNat (48 + n % 10)]
  | fuel + 1, n =>
    if n < 10 then [Char.ofNat (48 + n)]
    else natDigits fuel (n / 10) ++ [Char.ofNat (48 + n % 10)]

/-- A Go `int` as a JSON number (`strconv.AppendInt(_, 10)`). -/
def encodeInt (i : Int) : List Char :=
  if i < 0 then '-' :: natDigits i.natAbs i.natAbs else natDigits i.natAbs i.natAbs

/-- The JSON object `json.Marshal` writes for an `Artist`, fields in declaration
order under their `json` tags. -/
def encodeArtist (a : Artist) : List Char :=
  '{' :: (encodeName "id" ++ ':' :: (encodeString a.ID
    ++ ',' :: (encodeName "name" ++ ':' :: (encodeString a.Name
    ++ ',' :: (encodeName "dateOfBirth" ++ ':' :: (encodeString a.DateOfBirth
    ++ ['}']))))))

/-- The JSON object `json.Marshal` writes for a `Certificate`, fields in
declaration order under their `json` tags. -/
def encodeCertificate (c : Certificate) : List Char :=
  '{' :: (encodeName "ID" ++ ':' :: (encodeString c.ID
    ++ ',' :: (encodeName "URI" ++ ':' :: (encodeString c.PHOTO
    ++ ',' :: (encodeName "title" ++ ':' :: (encodeString c.Title
    ++ ',' :: (encodeName "owner" ++ ':' :: (encodeString c.Owner
    ++ ',' :: (encodeName "appraisedValue" ++ ':' :: (encodeInt c.YearOfProduction.val
    ++ ',' :: (encodeName "artist" ++ ':' :: (encodeArtist c.Artist
    ++ ['}']))))))))))))

/-- Go `json.Marshal(asset)` for a `Certificate`; it has no failing case for
this type. -/
def MarshalCertificate (c : Certificate) : Except GoError Bytes :=
  .ok (encodeCertificate c)

/-- Go `json.Marshal(s)` for a string `s`. -/
def MarshalString (s : GoString) : Except GoError Bytes :=
  .ok (encodeString s)

/-! ## `encoding/json`: decoding -/

/-- A parsed JSON document. A number keeps its literal text, as the decoder
converts it only once the target type is known. -/
inductive JSON where
  | null
  | bool (b : Bool)
  | num (literal : List Char)
  | str (s : List Char)
  | arr (items : List JSON)
  | obj (members : List (List Char × JSON))

/-- JSON white space: space, tab, carriage return, line feed. -/
def isSpace (c : Char) : Bool :=
  c = ' ' || c = '\t' || c = '\r' || c = '\n'

/-- Drops leading white space. -/
def skipWS : List Char → List Char
  | [] => []
  | c :: cs => if isSpace c then skipWS cs else c :: cs

/-- The value of a hexadecimal digit, either case. -/
def hexVal (c : Char) : Option Nat :=
  if 48 ≤ c.toNat ∧ c.toNat ≤ 57 then some (c.toNat - 48)
  else if 97 ≤ c.toNat ∧ c.toNat ≤ 102 then some (c.toNat - 87)
  else if 65 ≤ c.toNat ∧ c.toNat ≤ 70 then some (c.toNat - 55)
  else none

/-- The number written by four hexadecimal digits (Go `getu4`, after `\u`). -/
def getu4 (a b c d : Char) : Option Nat :=
  match hexVal a, hexVal b, hexVal c, hexVal d with
  | some x, some y, some z, some w => some (((x * 16 + y) * 16 + z) * 16 + w)
  | _, _, _, _ => none

/-- Is `n` a UTF-16 surrogate code unit? -/
def isSurrogate (n : Nat) : Bool := 0xD800 ≤ n && n < 0xE000

/-- Go `utf16.DecodeRune`: the code point of a surrogate pair, U+FFFD when the
two units are not a high surrogate followed by a low one. -/
def decodeSurrogates (r1 r2 : Nat) : Char :=
  if 0xD800 ≤ r1 ∧ r1 < 0xDC00 ∧ 0xDC00 ≤ r2 ∧ r2 < 0xE000 then
    Char.ofNat ((r1 - 0xD800) * 1024 + (r2 - 0xDC00) + 0x10000)
  else Char.ofNat 0xFFFD

/-- The character a one-letter escape stands for. -/
def unescape (e : Char) : Option Char :=
  if e = '"' then some '"'
  else if e = '\\' then some '\\'
  else if e = '/' then some '/'
  else if e = 'b' then some (Char.ofNat 8)
  else if e = 'f' then some (Char.ofNat 12)
  else if e = 'n' then some '\n'
  else if e = 'r' then some '\r'
  else if e = 't' then some '\t'
  else none

/-- Puts a decoded character in front of the rest of a decoded string. -/
def consChar (c : Char) : Option (List Char × List Char) → Option (List Char × List Char)
  | none => none
  | some (s, rest) => some (c :: s, rest)

/-- Reads a JSON string whose opening quote has been consumed: the decoded
characters up to the closing quote, and the input after it. A raw control
character, an unknown escape or a missing closing quote is an error. A
`\uXXXX` escape that is half of a surrogate pair is joined with the escape
after it when that is the other half, and is U+FFFD otherwise (Go `unquote`).
`skip` counts characters already consumed as the second escape of a pair. -/
def lexStringAux : Nat → List Char → Option (List Char × List Char)
  | _, [] => none
  | skip + 1, _ :: cs => lexStringAux skip cs
  | 0, c :: cs =>
    if c = '"' then some ([], cs)
    else if c = '\\' then
      match cs with
      | [] => none
      | e :: cs1 =>
        if e = 'u' then
          match cs1 with
          | h1 :: h2 :: h3 :: h4 :: cs2 =>
            match getu4 h1 h2 h3 h4 with
            | none => none
            | some rr =>
              if isSurrogate rr then
                match cs2 with
                | b :: u :: k1 :: k2 :: k3 :: k4 :: _ =>
                  if b = '\\' ∧ u = 'u' then
                    match getu4 k1 k2 k3 k4 with
                    | some rr1 =>
                      if decodeSurrogates rr rr1 = Char.ofNat 0xFFFD then
                        consChar (Char.ofNat 0xFFFD) (lexStringAux 0 cs2)
                      else consChar (decodeSurrogates rr rr1) (lexStringAux 6 cs2)
                    | none => consChar (Char.ofNat 0xFFFD) (lexStringAux 0 cs2)
                  else consChar (Char.ofNat 0xFFFD) (lexStringAux 0 cs2)
                | _ => consChar (Char.ofNat 0xFFFD) (lexStringAux 0 cs2)
              else consChar (Char.ofNat rr) (lexStringAux 0 cs2)
          | _ => none
        else
          match unescape e with
          | none => none
          | some ch => consChar ch (lexStringAux 0 cs1)
    else if c.toNat < 32 then none
    else consChar c (lexStringAux 0 cs)

/-- Reads a JSON string whose opening quote has been consumed. -/
def lexString (s : List Char) : Option (List Char × List Char) :=
  lexStringAux 0 s

/-- Is `c` a decimal digit? -/
def isDigit (c : Char) : Bool := decide (48 ≤ c.toNat) && decide (c.toNat ≤ 57)

/-- The longest prefix of digits, and what follows it. -/
def spanDigits : List Char → List Char × List Char
  | [] => ([], [])
  | c :: cs =>
    if isDigit c then ((spanDigits cs).1.cons c, (spanDigits cs).2) else ([], c :: cs)

/-- The integer part of a JSON number: `0`, or a non-zero digit and more digits. -/
def lexIntPart : List Char → Option (List Char × List Char)
  | [] => none
  | c :: cs =>
    if c = '0' then some (['0'], cs)
    else if isDigit c then some (c :: (spanDigits cs).1, (spanDigits cs).2)
    else none

/-- The optional fraction of a JSON number: `.` and at least one digit. -/
def lexFrac : List Char → Option (List Char × List Char)
  | [] => some ([], [])
  | c :: cs =>
    if c = '.' then
      match spanDigits cs with
      | ([], _) => none
      | (d :: ds, rest) => some ('.' :: d :: ds, rest)
    else some ([], c :: cs)

/-- An optional sign in an exponent. -/
def lexSign : List Char → List Char × List Char
  | [] => ([], [])
  | c :: cs => if c = '+' ∨ c = '-' then ([c], cs) else ([], c :: cs)

/-- The optional exponent of a JSON number: `e` or `E`, an optional sign and at
least one digit. -/
def lexExp : List Char → Option (List Char × List Char)
  | [] => some ([], [])
  | c :: cs =>
    if c = 'e' ∨ c = 'E' then
      match spanDigits (lexSign cs).2 with
      | ([], _) => none
      | (d :: ds, rest) => some (c :: ((lexSign cs).1 ++ d :: ds), rest)
    else some ([], c :: cs)

/-- Reads the digits, fraction and exponent of a JSON number. -/
def lexUnsigned (s : List Char) : Option (List Char × List Char) :=
  match lexIntPart s with
  | none => none
  | some (ip, r1) =>
    match lexFrac r1 with
    | none => none
    | some (fp, r2) =>
      match lexExp r2 with
      | none => none
      | some (ep, r3) => some (ip ++ (fp ++ ep), r3)

/-- Reads a JSON number: its literal text and the input after it. -/
def lexNumber : List Char → Option (List Char × List Char)
  | [] => none
  | c :: cs =>
    if c = '-' then
      match lexUnsigned cs with
      | none => none
      | some (lit, rest) => some ('-' :: lit, rest)
    else lexUnsigned (c :: cs)

/-- If the input starts with `word`, the input after it. -/
def stripWord : List Char → List Char → Option (List Char)
  | [], s => some s
  | _ :: _, [] => none
  | w :: ws, c :: cs => if w = c then stripWord ws cs else none

/-- Puts a parsed member in front of the rest of an object. -/
def consMember (k : List Char) (v : JSON) :
    Option (List (List Char × JSON) × List Char) → Option (List (List Char × JSON) × List Char)
  | none => none
  | some (ms, rest) => some ((k, v) :: ms, rest)

/-- Puts a parsed item in front of the rest of an array. -/
def consItem (v : JSON) : Option (List JSON × List Char) → Option (List JSON × List Char)
  | none => none
  | some (vs, rest) => some (v :: vs, rest)

/-- The members of an object after its opening brace, the first key being next
in the input: `"key" : value` separated by commas, up to the closing brace.
`pv` reads one value. -/
def parseMembers (pv : List Char → Option (JSON × List Char)) :
    Nat → List Char → Option (List (List Char × JSON) × List Char)
  | 0, _ => none
  | _, [] => none
  | n + 1, c :: cs =>
    if c = '"' then
      match lexString cs with
      | none => none
      | some (k, r1) =>
        match skipWS r1 with
        | [] => none
        | colon :: r2 =>
          if colon = ':' then
            match pv (skipWS r2) with
            | none => none
            | some (v, r3) =>
              match skipWS r3 with
              | [] => none
              | sep :: r4 =>
                if sep = ',' then consMember k v (parseMembers pv n (skipWS r4))
                else if sep = '}' then some ([(k, v)], r4)
                else none
          else none
    else none

/-- The items of an array after its opening bracket, the first item being next
in the input, up to the closing bracket. `pv` reads one value. -/
def parseItems (pv : List Char → Option (JSON × List Char)) :
    Nat → List Char → Option (List JSON × List Char)
  | 0, _ => none
  | n + 1, s =>
    match pv s with
    | none => none
    | some (v, r1) =>
      match skipWS r1 with
      | [] => none
      | sep :: r2 =>
        if sep = ',' then consItem v (parseItems pv n (skipWS r2))
        else if sep = ']' then some ([v], r2)
        else none

/-- The deepest nesting of objects and arrays `encoding/json` reads
(`maxNestingDepth`); a document nested deeper is a syntax error. -/
def maxNestingDepth : Nat := 10000

/-- Reads one JSON value at the head of the input (no leading white space).
`depth` is the number of objects and arrays the value lies in; opening one
more at depth `maxNestingDepth` is an error. `fuel` bounds the recursion and
the number of members of an object or array; an input never needs more than
its length. -/
def parseValue : Nat → Nat → List Char → Option (JSON × List Char)
  | 0, _, _ => none
  | _, _, [] => none
  | fuel + 1, depth, c :: cs =>
    if c = '"' then
      match lexString cs with
      | none => none
      | some (s, rest) => some (JSON.str s, rest)
    else if c = '{' then
      if maxNestingDepth ≤ depth then none
      else
        match skipWS cs with
        | [] => none
        | d :: ds =>
          if d = '}' then some (JSON.obj [], ds)
          else
            match parseMembers (parseValue fuel (depth + 1)) fuel (d :: ds) with
            | none => none
            | some (ms, rest) => some (JSON.obj ms, rest)
    else if c = '[' then
      if maxNestingDepth ≤ depth then none
      else
        match skipWS cs with
        | [] => none
        | d :: ds =>
          if d = ']' then some (JSON.arr [], ds)
          else
            match parseItems (parseValue fuel (depth + 1)) fuel (d :: ds) with
            | none => none
            | some (vs, rest) => some (JSON.arr vs, rest)
    else if c = 't' then
      match stripWord ['r', 'u', 'e'] cs with
      | none => none
      | some rest => some (JSON.bool true, rest)
    else if c = 'f' then
      match stripWord ['a', 'l', 's', 'e'] cs with
      | none => none
      | some rest => some (JSON.bool false, rest)
    else if c = 'n' then
      match stripWord ['u', 'l', 'l'] cs with
      | none => none
      | some rest => some (JSON.null, rest)
    else
      match lexNumber (c :: cs) with
      | none => none
      | some (lit, rest) => some (JSON.num lit, rest)

/-- Reads a whole JSON document: one value, white space allowed around it and
nothing else after it. -/
def parseJSON (data : Bytes) : Option JSON :=
  match parseValue (data.length + 1) 0 (skipWS data) with
  | none => none
  | some (v, rest) =>
    match skipWS rest with
    | [] => some v
    | _ :: _ => none

/-- Go `strconv.ParseInt(_, 10, 64)` keeps a value only in the range of `int`. -/
def toGoInt (i : Int) : Option GoInt :=
  if h : -9223372036854775808 ≤ i ∧ i ≤ 9223372036854775807 then some ⟨i, h⟩ else none

/-- The number written by a list of decimal digits. -/
def digitsValue (ds : List Char) : Nat :=
  ds.foldl (fun acc c => acc * 10 + (c.toNat - 48)) 0

/-- Go `strconv.ParseInt(literal, 10, 64)` on the text of a JSON number: an
optional minus sign and digits only, within the range of `int`. -/
def parseInt64 : List Char → Option GoInt
  | [] => none
  | c :: cs =>
    if c = '-' then
      if cs ≠ [] ∧ cs.all isDigit = true then toGoInt (-(digitsValue cs : Int)) else none
    else if (c :: cs).all isDigit = true then toGoInt (digitsValue (c :: cs)) else none

/-- The name `json.UnmarshalTypeError` gives the kind of a JSON value. -/
def jsonKind : JSON → String
  | .null => "null"
  | .bool _ => "bool"
  | .num _ => "number"
  | .str _ => "string"
  | .arr _ => "array"
  | .obj _ => "object"

/-- Go `d.saveError`: the first error of a decoding run is the one returned. -/
def saveError (saved : Option GoError) (new : Option GoError) : Option GoError :=
  match saved with
  | some e => some e
  | none => new

/-- Decoding a JSON value into a `string` field holding `old`: a string is
stored as its UTF-8 bytes, `null` leaves the field alone, anything else is a type error and
leaves the field alone. -/
def decodeString (v : JSON) (old : GoString) : GoString × Option GoError :=
  match v with
  | .str s => (utf8Chars s, none)
  | .null => (old, none)
  | .bool _ => (old, some (.jsonMismatch "bool" "string"))
  | .num _ => (old, some (.jsonMismatch "number" "string"))
  | .arr _ => (old, some (.jsonMismatch "array" "string"))
  | .obj _ => (old, some (.jsonMismatch "object" "string"))

/-- Decoding a JSON value into an `int` field holding `old`: a number that is
an integer in range is stored, `null` leaves the field alone, anything else
is a type error. -/
def decodeInt (v : JSON) (old : GoInt) : GoInt × Option GoError :=
  match v with
  | .num lit =>
    match parseInt64 lit with
    | some n => (n, none)
    | none => (old, some (.jsonMismatch ("number " ++ String.mk lit) "int"))
  | .null => (old, none)
  | .bool _ => (old, some (.jsonMismatch "bool" "int"))
  | .str _ => (old, some (.jsonMismatch "string" "int"))
  | .arr _ => (old, some (.jsonMismatch "array" "int"))
  | .obj _ => (old, some (.jsonMismatch "object" "int"))

/-- The folding under which an object key is matched to a field name: ASCII
letters regardless of case, the Kelvin sign as `k`, the long s as `s`. -/
def foldChar (c : Char) : Char :=
  if 65 ≤ c.toNat ∧ c.toNat ≤ 90 then Char.ofNat (c.toNat + 32)
  else if c.toNat = 0x212A then 'k'
  else if c.toNat = 0x17F then 's'
  else c

/-- Does the object key `key` select the field whose `json` tag is `name`?
The field names of one struct here stay distinct under folding, so an exact
match and a folded match never compete. -/
def sameKey (name : String) (key : List Char) : Bool :=
  name.toList.map foldChar == key.map foldChar

/-- Stores one member of a JSON object into an `Artist`; a key that names no
field is skipped. -/
def setArtistField (acc : Artist × Option GoError) (kv : List Char × JSON) :
    Artist × Option GoError :=
  if sameKey "id" kv.1 then
    ({ acc.1 with ID := (decodeString kv.2 acc.1.ID).1 },
      saveError acc.2 (decodeString kv.2 acc.1.ID).2)
  else if sameKey "name" kv.1 then
    ({ acc.1 with Name := (decodeString kv.2 acc.1.Name).1 },
      saveError acc.2 (decodeString kv.2 acc.1.Name).2)
  else if sameKey "dateOfBirth" kv.1 then
    ({ acc.1 with DateOfBirth := (decodeString kv.2 acc.1.DateOfBirth).1 },
      saveError acc.2 (decodeString kv.2 acc.1.DateOfBirth).2)
  else acc

/-- Decoding a JSON value into an `Artist` field holding `old`. -/
def decodeArtist (v : JSON) (old : Artist) : Artist × Option GoError :=
  match v with
  | .obj ms => ms.foldl setArtistField (old, none)
  | .null => (old, none)
  | .bool _ => (old, some (.jsonMismatch "bool" "chaincode.Artist"))
  | .num _ => (old, some (.jsonMismatch "number" "chaincode.Artist"))
  | .str _ => (old, some (.jsonMismatch "string" "chaincode.Artist"))
  | .arr _ => (old, some (.jsonMismatch "array" "chaincode.Artist"))

/-- Stores one member of a JSON object into a `Certificate`; a key that names
no field is skipped. -/
def setCertificateField (acc : Certificate × Option GoError) (kv : List Char × JSON) :
    Certificate × Option GoError :=
  if sameKey "ID" kv.1 then
    ({ acc.1 with ID := (decodeString kv.2 acc.1.ID).1 },
      saveError acc.2 (decodeString kv.2 acc.1.ID).2)
  else if sameKey "URI" kv.1 then
    ({ acc.1 with PHOTO := (decodeString kv.2 acc.1.PHOTO).1 },
      saveError acc.2 (decodeString kv.2 acc.1.PHOTO).2)
  else if sameKey "title" kv.1 then
    ({ acc.1 with Title := (decodeString kv.2 acc.1.Title).1 },
      saveError acc.2 (decodeString kv.2 acc.1.Title).2)
  else if sameKey "owner" kv.1 then
    ({ acc.1 with Owner := (decodeString kv.2 acc.1.Owner).1 },
      saveError acc.2 (decodeString kv.2 acc.1.Owner).2)
  else if sameKey "appraisedValue" kv.1 then
    ({ acc.1 with YearOfProduction := (decodeInt kv.2 acc.1.YearOfProduction).1 },
      saveError acc.2 (decodeInt kv.2 acc.1.YearOfProduction).2)
  else if sameKey "artist" kv.1 then
    ({ acc.1 with Artist := (decodeArtist kv.2 acc.1.Artist).1 },
      saveError acc.2 (decodeArtist kv.2 acc.1.Artist).2)
  else acc

/-- Decoding a JSON document into a `Certificate` variable holding `old`. -/
def decodeCertificate (v : JSON) (old : Certificate) : Certificate × Option GoError :=
  match v with
  | .obj ms => ms.foldl setCertificateField (old, none)
  | .null => (old, none)
  | .bool _ => (old, some (.jsonMismatch "bool" "chaincode.Certificate"))
  | .num _ => (old, some (.jsonMismatch "number" "chaincode.Certificate"))
  | .str _ => (old, some (.jsonMismatch "string" "chaincode.Certificate"))
  | .arr _ => (old, some (.jsonMismatch "array" "chaincode.Certificate"))

/-- Go `var asset Certificate; err = json.Unmarshal(data, &asset)`: the decoded
certificate when `err` is `nil`, the error otherwise (every caller drops the
variable when there is an error). -/
def UnmarshalCertificate (data : Bytes) : Except GoError Certificate :=
  match parseJSON data with
  | none => .error .jsonMalformed
  | some v =>
    match decodeCertificate v Certificate.zero with
    | (asset, none) => .ok asset
    | (_, some err) => .error err

/-! ## The world state and the chaincode stub -/

/-- The world state: the key/value pairs currently stored, in the order a range
scan yields them. -/
abbrev WorldState := List (GoString × Bytes)

/-- The value stored at `key`, if any. -/
def lookup (key : GoString) : WorldState → Option Bytes
  | [] => none
  | (k, v) :: rest => if k = key then some v else lookup key rest

/-- The world state without `key`. -/
def remove (key : GoString) : WorldState → WorldState
  | [] => []
  | (k, v) :: rest => if k = key then remove key rest else (k, v) :: remove key rest

/-- The order of keys in a range scan: lexicographic by byte. -/
def bytesLt : List Nat → List Nat → Bool
  | _, [] => false
  | [], _ :: _ => true
  | a :: as, b :: bs =>
    if a < b then true
    else if b < a then false
    else bytesLt as bs

/-- Is key `a` before key `b` in a range scan? -/
def keyLt (a b : GoString) : Bool := bytesLt a b

/-- Adds an entry in key order. -/
def insertSorted (key : GoString) (value : Bytes) : WorldState → WorldState
  | [] => [(key, value)]
  | (k, v) :: rest =>
    if keyLt key k then (key, value) :: (k, v) :: rest
    else (k, v) :: insertSorted key value rest

/-- The world state with `value` stored at `key`, replacing what was there. -/
def store (key : GoString) (value : Bytes) (w : WorldState) : WorldState :=
  insertSorted key value (remove key w)

/-- Modelled from the spec: the world-state collaborator's failures.
`get`, `put`, `delete` and `scan` either work on the world state or fail with a
cause; which calls fail is a fixed property of the collaborator, given here by
the cause (if any) for each key, for acquiring a scan, and for the `i`-th
`Next` of a scan. -/
structure Stub where
  getStateErr : GoString → Option GoString
  putStateErr : GoString → Option GoString
  delStateErr : GoString → Option GoString
  rangeErr : Option GoString
  nextErr : Nat → Option GoString

/-- A collaborator none of whose calls fail. -/
def Stub.reliable : Stub :=
  ⟨fun _ => none, fun _ => none, fun _ => none, none, fun _ => none⟩

/-- Modelled from the spec: `get(key) -> bytes or absent-marker`. -/
def GetState (stub : Stub) (key : GoString) (w : WorldState) : Except GoString (Option Bytes) :=
  match stub.getStateErr key with
  | some cause => .error cause
  | none => .ok (lookup key w)

/-- Modelled from the spec: `put(key, value) -> success or failure`; a failed
put writes nothing. -/
def PutState (stub : Stub) (key : GoString) (value : Bytes) (w : WorldState) :
    Option GoString × WorldState :=
  match stub.putStateErr key with
  | some cause => (some cause, w)
  | none => (none, store key value w)

/-- Modelled from the spec: `delete(key) -> success or failure`; a failed
delete erases nothing. -/
def DelState (stub : Stub) (key : GoString) (w : WorldState) : Option GoString × WorldState :=
  match stub.delStateErr key with
  | some cause => (some cause, w)
  | none => (none, remove key w)

/-- Modelled from the spec: `scan(startKey, endKey) -> sequence of (key, bytes)`,
an empty bound being no bound. -/
def GetStateByRange (stub : Stub) (startKey endKey : GoString) (w : WorldState) :
    Except GoString (List (GoString × Bytes)) :=
  match stub.rangeErr with
  | some cause => .error cause
  | none =>
    .ok (w.filter (fun e =>
      (decide (startKey = []) || !keyLt e.1 startKey)
        && (decide (endKey = []) || keyLt e.1 endKey)))

/-! ## The contract -/

/-- The first seed record of `InitLedger`. -/
def seed1 : Certificate :=
  { PHOTO := utf8 "https://images.unsplash.com/photo-1571115764595-644a1f56a55c?ixid=MnwxMjA3fDB8MHxzZWFyY2h8NHx8cGFpbnRpbmd8ZW58MHx8MHx8&ixlib=rb-1.2.1&w=1000&q=80",
    ID := utf8 "8989s1gjJJHJKHJSGHJDJSAD871238S",
    Title := utf8 "original-splash-abstract",
    Owner := utf8 "Tomoko Janra",
    Artist := ⟨utf8 "id-13894047849", utf8 "Tomoko Janra", utf8 "20.11.1980"⟩,
    YearOfProduction := ⟨1962, by decide⟩ }

/-- The second seed record of `InitLedger`. -/
def seed2 : Certificate :=
  { PHOTO := utf8 "https://ii1.pepperfry.com/media/catalog/product/o/r/568x625/original-handmade-couple-together-oil-painting-on-canvas-by-gallery99-original-handmade-couple-toget-g9u0rd.jpg",
    ID := utf8 "HDFSJ52151511113GHJDJSAD8712389",
    Title := utf8 "original-handmade-couple-toget",
    Owner := utf8 "Eyas Jaber",
    Artist := ⟨utf8 "id-13894047849", utf8 "Mayer Labor", utf8 "17.11.1971"⟩,
    YearOfProduction := ⟨1977, by decide⟩ }

/-- The third seed record of `InitLedger`. -/
def seed3 : Certificate :=
  { PHOTO := utf8 "https://www.terrain.org/articles/27/fullsize/15_fs.jpg",
    ID := utf8 "34890DFASHJK148904KLOJKUKOP41IO4",
    Title := utf8 "original-piano-farm.",
    Owner := utf8 "Sebastian Michel",
    Artist := ⟨utf8 "id-13899810498", utf8 "Jubran Jubran", utf8 "17.05.1965"⟩,
    YearOfProduction := ⟨1990, by decide⟩ }

/-- The fourth seed record of `InitLedger`. -/
def seed4 : Certificate :=
  { PHOTO := utf8 "https://qph.fs.quoracdn.net/main-qimg-a7cbe92701920a2155718c76c58c7c52",
    ID := utf8 "JFKLHJKGHFAK87419FADSHJLgdf4hjaj1",
    Title := utf8 "british-guards",
    Owner := utf8 "Monde Cardino",
    Artist := ⟨utf8 "id-13899810498", utf8 "Jubran Jubran", utf8 "17.07.1960"⟩,
    YearOfProduction := ⟨2017, by decide⟩ }

/-- The seed records of `InitLedger` (`assets := []Certificate{...}`). -/
def seedAssets : List Certificate := [seed1, seed2, seed3, seed4]

/-- The loop of `InitLedger` over the assets still to be written. -/
def initLoop (stub : Stub) : List Certificate → WorldState → Option GoError × WorldState
  | [], w => (none, w)
  | asset :: rest, w =>
    match MarshalCertificate asset with
    | .error err => (some err, w)
    | .ok assetJSON =>
      let keyState := asset.ID ++ asset.Owner
      match PutState stub keyState assetJSON w with
      | (some cause, w1) => (some (.text (utf8 "failed to put to world state. " ++ cause)), w1)
      | (none, w1) => initLoop stub rest w1

/-- Go `InitLedger`: adds a base set of assets to the ledger. -/
def InitLedger (stub : Stub) (w : WorldState) : Option GoError × WorldState :=
  initLoop stub seedAssets w

/-- Go `AssetExists`: true when an asset with the given id exists in world state. -/
def AssetExists (stub : Stub) (id : GoString) (w : WorldState) : Except GoError Bool × WorldState :=
  match GetState stub id w with
  | .error cause => (.error (.text (utf8 "failed to read from world state: " ++ cause)), w)
  | .ok assetJSON => (.ok assetJSON.isSome, w)

/-- Go `CreateAsset`: issues a new asset to the world state with given details. -/
def CreateAsset (stub : Stub) (id photo title : GoString) (artist : Artist) (owner : GoString)
    (yearOfProduction : GoInt) (w : WorldState) : Option GoError × WorldState :=
  match AssetExists stub id w with
  | (.error err, w1) => (some err, w1)
  | (.ok true, w1) => (some (.text (utf8 "the asset " ++ id ++ utf8 " already exists")), w1)
  | (.ok false, w1) =>
    let asset : Certificate :=
      { ID := id, PHOTO := photo, Title := title, Artist := artist, Owner := owner,
        YearOfProduction := yearOfProduction }
    match MarshalCertificate asset with
    | .error err => (some err, w1)
    | .ok assetJSON =>
      ((PutState stub id assetJSON w1).1.map GoError.text, (PutState stub id assetJSON w1).2)

/-- Go `ReadAsset`: returns the asset stored in the world state with given id. -/
def ReadAsset (stub : Stub) (id : GoString) (w : WorldState) :
    Except GoError Certificate × WorldState :=
  match GetState stub id w with
  | .error cause => (.error (.text (utf8 "failed to read from world state: " ++ cause)), w)
  | .ok none => (.error (.text (utf8 "the asset " ++ id ++ utf8 " does not exist")), w)
  | .ok (some assetJSON) =>
    match UnmarshalCertificate assetJSON with
    | .error err => (.error err, w)
    | .ok asset => (.ok asset, w)

/-- Go `UpdateAsset`: updates an existing asset in the world state with provided
parameters. -/
def UpdateAsset (stub : Stub) (id photo title : GoString) (artist : Artist) (owner : GoString)
    (yearOfProduction : GoInt) (w : WorldState) : Option GoError × WorldState :=
  match AssetExists stub id w with
  | (.error err, w1) => (some err, w1)
  | (.ok false, w1) => (some (.text (utf8 "the asset " ++ id ++ utf8 " does not exist")), w1)
  | (.ok true, w1) =>
    let asset : Certificate :=
      { ID := id, PHOTO := photo, Title := title, Artist := artist, Owner := owner,
        YearOfProduction := yearOfProduction }
    match MarshalCertificate asset with
    | .error err => (some err, w1)
    | .ok assetJSON =>
      let keyState := id ++ asset.Owner
      ((PutState stub keyState assetJSON w1).1.map GoError.text,
        (PutState stub keyState assetJSON w1).2)

/-- Go `DeleteAsset`: deletes a given asset from the world state. -/
def DeleteAsset (stub : Stub) (id : GoString) (w : WorldState) : Option GoError × WorldState :=
  match AssetExists stub id w with
  | (.error err, w1) => (some err, w1)
  | (.ok false, w1) => (some (.text (utf8 "the asset " ++ id ++ utf8 " does not exist")), w1)
  | (.ok true, w1) => ((DelState stub id w1).1.map GoError.text, (DelState stub id w1).2)

/-- Go `TransferAsset`: updates the owner field of asset with given id in world
state. The record with the new owner, `newAsset`, is only printed; what is
marshalled and stored is the string `"string"`. -/
def TransferAsset (stub : Stub) (id newOwner : GoString) (w : WorldState) :
    Option GoError × WorldState :=
  match ReadAsset stub id w with
  | (.error err, w1) => (some err, w1)
  | (.ok asset, w1) =>
    let newAsset : Certificate := { asset with Owner := newOwner }
    match newAsset, MarshalString (utf8 "string") with
    | _, .error err => (some err, w1)
    | _, .ok assetJSON =>
      ((PutState stub id assetJSON w1).1.map GoError.text, (PutState stub id assetJSON w1).2)

/-- The loop of `GetAllAssets` over what the iterator still holds; `i` counts
the calls of `Next` made so far. -/
def collectAssets (stub : Stub) :
    Nat → List (GoString × Bytes) → List Certificate → Except GoError (List Certificate)
  | _, [], assets => .ok assets
  | i, queryResponse :: rest, assets =>
    match stub.nextErr i with
    | some cause => .error (.text cause)
    | none =>
      match UnmarshalCertificate queryResponse.2 with
      | .error err => .error err
      | .ok asset => collectAssets stub (i + 1) rest (assets ++ [asset])

/-- Go `GetAllAssets`: returns all assets found in world state. -/
def GetAllAssets (stub : Stub) (w : WorldState) : Except GoError (List Certificate) × WorldState :=
  match GetStateByRange stub [] [] w with
  | .error cause => (.error (.text cause), w)
  | .ok resultsIterator => (collectAssets stub 0 resultsIterator [], w)

/-! ## Sequences of calls -/

/-- The arguments of one `CreateAsset` call. -/
structure CreateArgs where
  id : GoString
  photo : GoString
  title : GoString
  artist : Artist
  owner : GoString
  yearOfProduction : GoInt

/-- The record a `CreateAsset` call builds from its arguments. -/
def CreateArgs.toCertificate (a : CreateArgs) : Certificate :=
  { ID := a.id, PHOTO := a.photo, Title := a.title, Artist := a.artist, Owner := a.owner,
    YearOfProduction := a.yearOfProduction }

/-- Runs `CreateAsset` on each argument tuple in turn; the world state after the
last call when every call returned no error, `none` as soon as one fails. -/
def createAll (stub : Stub) : List CreateArgs → WorldState → Option WorldState
  | [], w => some w
  | a :: rest, w =>
    match CreateAsset stub a.id a.photo a.title a.artist a.owner a.yearOfProduction w with
    | (none, w1) => createAll stub rest w1
    | (some _, _) => none

/-- The world-state entry holding the encoding of `c` under the key `keyOf c`. -/
def encodedEntry (keyOf : Certificate → GoString) (c : Certificate) : GoString × Bytes :=
  (keyOf c, encodeCertificate c)

/-- The world state after the encodings of `assets` have been stored, one after
the other, under the keys `ID + Owner`: what the writes of `InitLedger` for
`assets` leave when each of them works. -/
def afterWrites : List Certificate → WorldState → WorldState
  | [], w => w
  | asset :: rest, w =>
    afterWrites rest (store (asset.ID ++ asset.Owner) (encodeCertificate asset) w)

/-- The shape of a world state as a range scan yields it: keys in increasing
order, hence no key twice. The empty world state has it, `store` and `remove`
keep it. -/
def Ordered (w : WorldState) : Prop :=
  w.Pairwise (fun a b => keyLt a.1 b.1 = true)

instance (w : WorldState) : Decidable (Ordered w) :=
  inferInstanceAs
    (Decidable (List.Pairwise (fun (a b : GoString × Bytes) => keyLt a.1 b.1 = true) w))

/-- An asset with id `A`, as `CreateAsset` records it. -/
def assetA : Certificate :=
  ⟨utf8 "A", utf8 "photo_a", utf8 "title_a", utf8 "owner1", ⟨1962, by decide⟩,
    ⟨utf8 "id-13894047849", utf8 "Tomoko Janra", utf8 "20.11.1980"⟩⟩

/-- An asset with id `AB`, as `CreateAsset` records it. -/
def assetAB : Certificate :=
  ⟨utf8 "AB", utf8 "photo_b", utf8 "title_b", utf8 "owner1", ⟨1977, by decide⟩,
    ⟨utf8 "id-13894047849", utf8 "Mayer Labor", utf8 "17.11.1971"⟩⟩

/-- The world state after `CreateAsset` for `assetA` and then for `assetAB` on
the empty world state, no call of the collaborator failing. -/
def twoAssets : WorldState :=
  (CreateAsset Stub.reliable (utf8 "AB") (utf8 "photo_b") (utf8 "title_b")
    ⟨utf8 "id-13894047849", utf8 "Mayer Labor", utf8 "17.11.1971"⟩ (utf8 "owner1") ⟨1977, by decide⟩
    (CreateAsset Stub.reliable (utf8 "A") (utf8 "photo_a") (utf8 "title_a")
      ⟨utf8 "id-13894047849", utf8 "Tomoko Janra", utf8 "20.11.1980"⟩ (utf8 "owner1")
          ⟨1962, by decide⟩ []).2).2

/-! ## What the encoder's output parses to -/

/-- The JSON document `encodeArtist a` is the text of. -/
def artistTree (a : Artist) : JSON :=
  JSON.obj [("id".toList, JSON.str (toText a.ID)), ("name".toList, JSON.str (toText a.Name)),
    ("dateOfBirth".toList, JSON.str (toText a.DateOfBirth))]

/-- The JSON document `encodeCertificate c` is the text of. -/
def certificateTree (c : Certificate) : JSON :=
  JSON.obj [("ID".toList, JSON.str (toText c.ID)), ("URI".toList, JSON.str (toText c.PHOTO)),
    ("title".toList, JSON.str (toText c.Title)), ("owner".toList, JSON.str (toText c.Owner)),
    ("appraisedValue".toList, JSON.num (encodeInt c.YearOfProduction.val)),
    ("artist".toList, artistTree c.Artist)]

/-! ## The world state: reading after writing -/

theorem lookup_remove_self (key : GoString) (w : WorldState) :
    lookup key (remove key w) = none := by
  induction w with
  | nil => rfl
  | cons e rest ih =>
    obtain ⟨k, v⟩ := e
    by_cases h : k = key
    · simp only [remove, h, if_true]; exact ih
    · simp only [remove, h, if_false, lookup]; exact ih

theorem lookup_remove_ne {key other : GoString} (h : other ≠ key) (w : WorldState) :
    lookup other (remove key w) = lookup other w := by
  induction w with
  | nil => rfl
  | cons e rest ih =>
    obtain ⟨k, v⟩ := e
    by_cases hk : k = key
    · have hko : ¬ k = other := fun x => h (x.symm.trans hk)
      simp only [remove, hk, if_true, lookup]
      rw [if_neg (fun x => h x.symm)]
      exact ih
    · by_cases ho : k = other
      · subst ho
        simp only [remove, hk, if_false, lookup, if_true]
      · simp only [remove, hk, if_false, lookup, ho]; exact ih

theorem remove_of_lookup_none {key : GoString} {w : WorldState} (h : lookup key w = none) :
    remove key w = w := by
  induction w with
  | nil => rfl
  | cons e rest ih =>
    obtain ⟨k, v⟩ := e
    by_cases hk : k = key
    · simp [lookup, hk] at h
    · simp only [lookup, hk, if_false] at h
      simp only [remove, hk, if_false, ih h]

theorem lookup_insertSorted_self (key : GoString) (value : Bytes) (w : WorldState)
    (h : lookup key w = none) : lookup key (insertSorted key value w) = some value := by
  induction w with
  | nil => simp [insertSorted, lookup]
  | cons e rest ih =>
    obtain ⟨k, v⟩ := e
    by_cases hk : k = key
    · simp [lookup, hk] at h
    · simp only [lookup, hk, if_false] at h
      by_cases hlt : keyLt key k = true
      · simp [insertSorted, hlt, lookup]
      · simp [insertSorted, hlt, lookup, hk, ih h]

theorem lookup_insertSorted_ne {key other : GoString} (h : other ≠ key) (value : Bytes)
    (w : WorldState) : lookup other (insertSorted key value w) = lookup other w := by
  have h2 : ¬ key = other := fun x => h x.symm
  induction w with
  | nil => simp [insertSorted, lookup, h2]
  | cons e rest ih =>
    obtain ⟨k, v⟩ := e
    by_cases hlt : keyLt key k = true
    · simp [insertSorted, hlt, lookup, h2]
    · by_cases ho : k = other
      · subst ho
        simp [insertSorted, hlt, lookup]
      · simp only [insertSorted, hlt, lookup, ho, if_false]
        simpa using ih

theorem insertSorted_perm (key : GoString) (value : Bytes) (w : WorldState) :
    (insertSorted key value w).Perm ((key, value) :: w) := by
  induction w with
  | nil => simp [insertSorted]
  | cons e rest ih =>
    obtain ⟨k, v⟩ := e
    by_cases hlt : keyLt key k = true
    · simp [insertSorted, hlt]
    · simp only [insertSorted, hlt]
      exact ((List.perm_cons (k, v)).2 ih).trans (List.Perm.swap _ _ _)

theorem lookup_store_self (key : GoString) (value : Bytes) (w : WorldState) :
    lookup key (store key value w) = some value :=
  lookup_insertSorted_self key value _ (lookup_remove_self key w)

theorem lookup_store_ne {key other : GoString} (h : other ≠ key) (value : Bytes)
    (w : WorldState) : lookup other (store key value w) = lookup other w := by
  unfold store
  rw [lookup_insertSorted_ne h, lookup_remove_ne h]

/-! ## UTF-8: decoding undoes encoding -/

theorem decodeRune_utf8Char (c : Char) (rest : List Nat) :
    decodeRune (utf8Char c ++ rest) = some (c, (utf8Char c).length) := by
  have hv : c.toNat < 0xD800 ∨ (0xDFFF < c.toNat ∧ c.toNat < 0x110000) := c.valid
  have hc : Char.ofNat c.toNat = c := Char.ofNat_toNat c
  unfold utf8Char
  generalize c.toNat = n at hv hc ⊢
  split_ifs with h1 h2 h3
  · simp [decodeRune, h1, hc]
  · have e : (0xC0 + n / 64 - 0xC0) * 64 + (0x80 + n % 64 - 0x80) = n := by omega
    have a1 : ¬ 0xC0 + n / 64 < 0x80 := by omega
    have a2 : 0xC2 ≤ 0xC0 + n / 64 ∧ 0xC0 + n / 64 ≤ 0xDF := by omega
    have a3 : isCont (0x80 + n % 64) = true := by
      simp only [isCont, Bool.and_eq_true, decide_eq_true_eq]; omega
    simp only [List.cons_append, List.nil_append, decodeRune, a1, a2, a3, e, hc, if_true, if_false,
      and_self, List.length_cons, List.length_nil]
  · have e : (0xE0 + n / 4096 - 0xE0) * 4096 + (0x80 + n / 64 % 64 - 0x80) * 64
        + (0x80 + n % 64 - 0x80) = n := by omega
    have a1 : ¬ 0xE0 + n / 4096 < 0x80 := by omega
    have a2 : ¬ (0xC2 ≤ 0xE0 + n / 4096 ∧ 0xE0 + n / 4096 ≤ 0xDF) := by omega
    have a3 : 0xE0 ≤ 0xE0 + n / 4096 ∧ 0xE0 + n / 4096 ≤ 0xEF := by omega
    have a4 : (if 0xE0 + n / 4096 = 0xE0 then 0xA0 else 0x80) ≤ 0x80 + n / 64 % 64
        ∧ 0x80 + n / 64 % 64 ≤ (if 0xE0 + n / 4096 = 0xED then 0x9F else 0xBF)
        ∧ isCont (0x80 + n % 64) = true := by
      simp only [isCont, Bool.and_eq_true, decide_eq_true_eq]
      split_ifs <;> omega
    simp only [List.cons_append, List.nil_append, decodeRune, a1, a2, a3, a4, e, hc, if_true,
      if_false, and_self, List.length_cons, List.length_nil]
  · have e : (0xF0 + n / 262144 - 0xF0) * 262144 + (0x80 + n / 4096 % 64 - 0x80) * 4096
        + (0x80 + n / 64 % 64 - 0x80) * 64 + (0x80 + n % 64 - 0x80) = n := by omega
    have a1 : ¬ 0xF0 + n / 262144 < 0x80 := by omega
    have a2 : ¬ (0xC2 ≤ 0xF0 + n / 262144 ∧ 0xF0 + n / 262144 ≤ 0xDF) := by omega
    have a3 : ¬ (0xE0 ≤ 0xF0 + n / 262144 ∧ 0xF0 + n / 262144 ≤ 0xEF) := by omega
    have a5 : 0xF0 ≤ 0xF0 + n / 262144 ∧ 0xF0 + n / 262144 ≤ 0xF4 := by omega
    have a4 : (if 0xF0 + n / 262144 = 0xF0 then 0x90 else 0x80) ≤ 0x80 + n / 4096 % 64
        ∧ 0x80 + n / 4096 % 64 ≤ (if 0xF0 + n / 262144 = 0xF4 then 0x8F else 0xBF)
        ∧ isCont (0x80 + n / 64 % 64) = true ∧ isCont (0x80 + n % 64) = true := by
      simp only [isCont, Bool.and_eq_true, decide_eq_true_eq]
      split_ifs <;> omega
    simp only [List.cons_append, List.nil_append, decodeRune, a1, a2, a3, a4, a5, e, hc, if_true,
      if_false, and_self, List.length_cons, List.length_nil]

theorem utf8Char_ne_nil (c : Char) : utf8Char c ≠ [] := by
  unfold utf8Char
  split_ifs <;> simp

theorem runesAux_skip (xs rest : List Nat) :
    runesAux xs.length (xs ++ rest) = runesAux 0 rest := by
  induction xs with
  | nil => rfl
  | cons x xs ih =>
    show runesAux (xs.length + 1) (x :: (xs ++ rest)) = runesAux 0 rest
    simp only [runesAux]
    exact ih

theorem runesAux_utf8Char (c : Char) (rest : List Nat) :
    runesAux 0 (utf8Char c ++ rest) = some c :: runesAux 0 rest := by
  have hd := decodeRune_utf8Char c rest
  cases hu : utf8Char c with
  | nil => exact absurd hu (utf8Char_ne_nil c)
  | cons b bs =>
    rw [hu] at hd
    simp only [List.cons_append] at hd ⊢
    rw [runesAux.eq_def]
    simp only [hd, List.length_cons, Nat.add_sub_cancel]
    rw [runesAux_skip]

theorem runes_utf8Chars (cs : List Char) : runes (utf8Chars cs) = cs.map some := by
  unfold runes
  induction cs with
  | nil => rfl
  | cons c cs ih => simp only [utf8Chars, runesAux_utf8Char, ih, List.map_cons]

theorem toText_utf8Chars (cs : List Char) : toText (utf8Chars cs) = cs := by
  simp [toText, runes_utf8Chars, Function.comp_def]

theorem coerceUTF8_utf8Chars (cs : List Char) : coerceUTF8 (utf8Chars cs) = utf8Chars cs := by
  simp only [coerceUTF8, toText_utf8Chars]

/-- Coercing the Go string that holds a text changes nothing. -/
theorem coerceUTF8_utf8 (t : String) : coerceUTF8 (utf8 t) = utf8 t :=
  coerceUTF8_utf8Chars _

theorem coerceUTF8_idem (s : GoString) : coerceUTF8 (coerceUTF8 s) = coerceUTF8 s :=
  coerceUTF8_utf8Chars _

/-- The Go string holding a text is valid UTF-8. -/
theorem ValidUTF8_utf8 (t : String) : ValidUTF8 (utf8 t) := by
  intro r hr
  rw [utf8, runes_utf8Chars] at hr
  obtain ⟨c, -, rfl⟩ := List.mem_map.1 hr
  rfl

theorem toNat_ofNat_of_valid {n : Nat} (h : n < 0xD800 ∨ (0xDFFF < n ∧ n < 0x110000)) :
    (Char.ofNat n).toNat = n := by
  have hv : n.isValidChar := h
  simp only [Char.ofNat, hv, dite_true]
  rfl

/-- What `decodeRune` accepts is the encoding of the character it returns. -/
theorem decodeRune_some {s : List Nat} {c : Char} {size : Nat}
    (h : decodeRune s = some (c, size)) : ∃ rest, s = utf8Char c ++ rest := by
  cases s with
  | nil => simp [decodeRune] at h
  | cons b0 rest =>
    simp only [decodeRune] at h
    by_cases h1 : b0 < 0x80
    · rw [if_pos h1] at h
      simp only [Option.some.injEq, Prod.mk.injEq] at h
      obtain ⟨rfl, -⟩ := h
      have hn := @toNat_ofNat_of_valid b0 (by omega)
      exact ⟨rest, by simp only [utf8Char, hn, h1, if_true, List.cons_append, List.nil_append]⟩
    rw [if_neg h1] at h
    by_cases h2 : 0xC2 ≤ b0 ∧ b0 ≤ 0xDF
    · rw [if_pos h2] at h
      cases rest with
      | nil => simp at h
      | cons b1 r =>
        simp only at h
        by_cases hc : isCont b1 = true
        · rw [if_pos hc] at h
          simp only [Option.some.injEq, Prod.mk.injEq] at h
          obtain ⟨rfl, -⟩ := h
          simp only [isCont, Bool.and_eq_true, decide_eq_true_eq] at hc
          have hn := @toNat_ofNat_of_valid ((b0 - 0xC0) * 64 + (b1 - 0x80)) (by omega)
          refine ⟨r, ?_⟩
          unfold utf8Char
          rw [hn]
          generalize hN : (b0 - 0xC0) * 64 + (b1 - 0x80) = n
          have e0 : ¬ n < 0x80 := by omega
          have e1 : n < 0x800 := by omega
          have f0 : 0xC0 + n / 64 = b0 := by omega
          have f1 : 0x80 + n % 64 = b1 := by omega
          rw [if_neg e0, if_pos e1, f0, f1]
          rfl
        · rw [if_neg hc] at h
          cases h
    rw [if_neg h2] at h
    by_cases h3 : 0xE0 ≤ b0 ∧ b0 ≤ 0xEF
    · rw [if_pos h3] at h
      cases rest with
      | nil => simp at h
      | cons b1 r =>
        cases r with
        | nil => simp at h
        | cons b2 r =>
          simp only at h
          by_cases hc : (if b0 = 0xE0 then 0xA0 else 0x80) ≤ b1
              ∧ b1 ≤ (if b0 = 0xED then 0x9F else 0xBF) ∧ isCont b2 = true
          · rw [if_pos hc] at h
            simp only [Option.some.injEq, Prod.mk.injEq] at h
            obtain ⟨rfl, -⟩ := h
            simp only [isCont, Bool.and_eq_true, decide_eq_true_eq] at hc
            obtain ⟨c1, c2, c3, c4⟩ := hc
            have hlo : 0x80 ≤ b1 := by
              split_ifs at c1 <;> omega
            have hhi : b1 ≤ 0xBF := by
              split_ifs at c2 <;> omega
            have hE0 : b0 = 0xE0 → 0xA0 ≤ b1 := by
              intro hb; rw [if_pos hb] at c1; exact c1
            have hED : b0 = 0xED → b1 ≤ 0x9F := by
              intro hb; rw [if_pos hb] at c2; exact c2
            have hn := @toNat_ofNat_of_valid
              ((b0 - 0xE0) * 4096 + (b1 - 0x80) * 64 + (b2 - 0x80)) (by
                by_cases hb : b0 = 0xED
                · have := hED hb
                  omega
                · omega)
            refine ⟨r, ?_⟩
            unfold utf8Char
            rw [hn]
            generalize hN : (b0 - 0xE0) * 4096 + (b1 - 0x80) * 64 + (b2 - 0x80) = n
            have e0 : ¬ n < 0x80 := by
              by_cases hb : b0 = 0xE0
              · have := hE0 hb
                omega
              · omega
            have e1 : ¬ n < 0x800 := by
              by_cases hb : b0 = 0xE0
              · have := hE0 hb
                omega
              · omega
            have e2 : n < 0x10000 := by omega
            have f0 : 0xE0 + n / 4096 = b0 := by omega
            have f1 : 0x80 + n / 64 % 64 = b1 := by omega
            have f2 : 0x80 + n % 64 = b2 := by omega
            rw [if_neg e0, if_neg e1, if_pos e2, f0, f1, f2]
            rfl
          · rw [if_neg hc] at h
            cases h
    rw [if_neg h3] at h
    by_cases h4 : 0xF0 ≤ b0 ∧ b0 ≤ 0xF4
    · rw [if_pos h4] at h
      cases rest with
      | nil => simp at h
      | cons b1 r =>
        cases r with
        | nil => simp at h
        | cons b2 r =>
          cases r with
          | nil => simp at h
          | cons b3 r =>
            simp only at h
            by_cases hc : (if b0 = 0xF0 then 0x90 else 0x80) ≤ b1
                ∧ b1 ≤ (if b0 = 0xF4 then 0x8F else 0xBF) ∧ isCont b2 = true
                ∧ isCont b3 = true
            · rw [if_pos hc] at h
              simp only [Option.some.injEq, Prod.mk.injEq] at h
              obtain ⟨rfl, -⟩ := h
              simp only [isCont, Bool.and_eq_true, decide_eq_true_eq] at hc
              obtain ⟨c1, c2, ⟨c3, c4⟩, c5, c6⟩ := hc
              have hlo : 0x80 ≤ b1 := by
                split_ifs at c1 <;> omega
              have hhi : b1 ≤ 0xBF := by
                split_ifs at c2 <;> omega
              have hF0 : b0 = 0xF0 → 0x90 ≤ b1 := by
                intro hb; rw [if_pos hb] at c1; exact c1
              have hF4 : b0 = 0xF4 → b1 ≤ 0x8F := by
                intro hb; rw [if_pos hb] at c2; exact c2
              have hmax : (b0 - 0xF0) * 262144 + (b1 - 0x80) * 4096 + (b2 - 0x80) * 64
                  + (b3 - 0x80) < 0x110000 := by
                by_cases hb : b0 = 0xF4
                · have := hF4 hb
                  omega
                · omega
              have hmin : 0x10000 ≤ (b0 - 0xF0) * 262144 + (b1 - 0x80) * 4096
                  + (b2 - 0x80) * 64 + (b3 - 0x80) := by
                by_cases hb : b0 = 0xF0
                · have := hF0 hb
                  omega
                · omega
              have hn := @toNat_ofNat_of_valid
                ((b0 - 0xF0) * 262144 + (b1 - 0x80) * 4096 + (b2 - 0x80) * 64 + (b3 - 0x80))
                (by omega)
              refine ⟨r, ?_⟩
              unfold utf8Char
              rw [hn]
              generalize hN : (b0 - 0xF0) * 262144 + (b1 - 0x80) * 4096 + (b2 - 0x80) * 64
                + (b3 - 0x80) = n at hmax hmin
              have e0 : ¬ n < 0x80 := by omega
              have e1 : ¬ n < 0x800 := by omega
              have e2 : ¬ n < 0x10000 := by omega
              have f0 : 0xF0 + n / 262144 = b0 := by omega
              have f1 : 0x80 + n / 4096 % 64 = b1 := by omega
              have f2 : 0x80 + n / 64 % 64 = b2 := by omega
              have f3 : 0x80 + n % 64 = b3 := by omega
              rw [if_neg e0, if_neg e1, if_neg e2, f0, f1, f2, f3]
              rfl
            · rw [if_neg hc] at h
              cases h
    rw [if_neg h4] at h
    cases h

/-- The runes of a non-empty Go string: either the first byte starts no valid
encoding, or the string starts with the encoding of its first rune. -/
theorem runes_cons (b : Nat) (bs : List Nat) :
    runes (b :: bs) = none :: runes bs
      ∨ ∃ c rest, b :: bs = utf8Char c ++ rest ∧ runes (b :: bs) = some c :: runes rest := by
  cases hd : decodeRune (b :: bs) with
  | none =>
    left
    simp only [runes, runesAux, hd]
  | some p =>
    obtain ⟨c, size⟩ := p
    right
    obtain ⟨rest, hrest⟩ := decodeRune_some hd
    refine ⟨c, rest, hrest, ?_⟩
    rw [hrest]
    exact runesAux_utf8Char c rest

theorem utf8Char_length_pos (c : Char) : 0 < (utf8Char c).length :=
  List.length_pos.2 (utf8Char_ne_nil c)

theorem coerceUTF8_spec (n : Nat) : ∀ s : GoString, s.length ≤ n →
    s.length ≤ (coerceUTF8 s).length
      ∧ (ValidUTF8 s → coerceUTF8 s = s)
      ∧ (¬ ValidUTF8 s → s.length < (coerceUTF8 s).length) := by
  induction n with
  | zero =>
    intro s hs
    have : s = [] := List.length_eq_zero.1 (Nat.le_zero.1 hs)
    subst this
    refine ⟨Nat.le_refl _, fun _ => rfl, fun h => absurd ?_ h⟩
    intro r hr
    simp [runes, runesAux] at hr
  | succ n ih =>
    intro s hs
    cases s with
    | nil =>
      refine ⟨Nat.le_refl _, fun _ => rfl, fun h => absurd ?_ h⟩
      intro r hr
      simp [runes, runesAux] at hr
    | cons b bs =>
      rcases runes_cons b bs with hr | ⟨c, rest, hs', hr⟩
      · obtain ⟨h1, -, -⟩ := ih bs (Nat.le_of_succ_le_succ hs)
        have hc : coerceUTF8 (b :: bs) = utf8Char (Char.ofNat 0xFFFD) ++ coerceUTF8 bs := by
          simp only [coerceUTF8, toText, hr, List.map_cons, utf8Chars, Option.getD_none]
        have hl : (utf8Char (Char.ofNat 0xFFFD)).length = 3 := by decide
        have hlen : (b :: bs).length < (coerceUTF8 (b :: bs)).length := by
          rw [hc, List.length_append, hl, List.length_cons]
          omega
        refine ⟨Nat.le_of_lt hlen, fun hv => ?_, fun _ => hlen⟩
        have := hv none (by rw [hr]; exact List.mem_cons_self _ _)
        exact absurd this (by decide)
      · have hpos := utf8Char_length_pos c
        have hlen : (b :: bs).length = (utf8Char c).length + rest.length := by
          rw [hs', List.length_append]
        have hle : rest.length ≤ n := by
          have := hlen ▸ hs
          omega
        obtain ⟨h1, h2, h3⟩ := ih rest hle
        have hc : coerceUTF8 (b :: bs) = utf8Char c ++ coerceUTF8 rest := by
          simp only [coerceUTF8, toText, hr, List.map_cons, utf8Chars, Option.getD_some]
        have hv : ValidUTF8 (b :: bs) ↔ ValidUTF8 rest := by
          unfold ValidUTF8
          rw [hr]
          constructor
          · intro h r hrm
            exact h r (List.mem_cons_of_mem _ hrm)
          · intro h r hrm
            rcases List.mem_cons.1 hrm with rfl | hrm
            · rfl
            · exact h r hrm
        rw [hc, hv, List.length_append, hlen]
        refine ⟨by omega, fun h => ?_, fun h => ?_⟩
        · rw [h2 h, ← hs']
        · have := h3 h
          omega

/-- A valid string is left alone by the coercion. -/
theorem coerceUTF8_of_valid {s : GoString} (h : ValidUTF8 s) : coerceUTF8 s = s :=
  (coerceUTF8_spec s.length s (Nat.le_refl _)).2.1 h

/-- Only a valid string is left alone by the coercion. -/
theorem valid_of_coerceUTF8 {s : GoString} (h : coerceUTF8 s = s) : ValidUTF8 s := by
  by_contra hn
  have := (coerceUTF8_spec s.length s (Nat.le_refl _)).2.2 hn
  rw [h] at this
  exact Nat.lt_irrefl _ this

theorem Certificate.coerce_of_valid {c : Certificate} (h : c.Valid) : c.coerce = c := by
  obtain ⟨h1, h2, h3, h4, h5, h6, h7⟩ := h
  obtain ⟨i, p, t, o, y, ⟨ai, an, ad⟩⟩ := c
  simp only [Certificate.coerce, Artist.coerce] at *
  rw [coerceUTF8_of_valid h1, coerceUTF8_of_valid h2, coerceUTF8_of_valid h3,
    coerceUTF8_of_valid h4, coerceUTF8_of_valid h5, coerceUTF8_of_valid h6,
    coerceUTF8_of_valid h7]

theorem Certificate.valid_of_coerce {c : Certificate} (h : c.coerce = c) : c.Valid := by
  obtain ⟨i, p, t, o, y, ⟨ai, an, ad⟩⟩ := c
  simp only [Certificate.coerce, Artist.coerce, Certificate.mk.injEq, Artist.mk.injEq] at h
  obtain ⟨h1, h2, h3, h4, -, h5, h6, h7⟩ := h
  exact ⟨valid_of_coerceUTF8 h1, valid_of_coerceUTF8 h2, valid_of_coerceUTF8 h3,
    valid_of_coerceUTF8 h4, valid_of_coerceUTF8 h5, valid_of_coerceUTF8 h6,
    valid_of_coerceUTF8 h7⟩

theorem Certificate.coerce_coerce (c : Certificate) : c.coerce.coerce = c.coerce := by
  simp only [Certificate.coerce, Artist.coerce, coerceUTF8_idem]

/-! ## `encoding/json`: decoding undoes encoding -/

theorem hexVal_hexDigit (n : Nat) (h : n < 16) : hexVal (hexDigit n) = some n := by
  interval_cases n <;> rfl

theorem lexStringAux_quote (rest : List Char) :
    lexStringAux 0 ('"' :: rest) = some ([], rest) := by
  rw [lexStringAux.eq_def]; simp

theorem lexStringAux_short {e d : Char} (he : ¬ e = 'u') (hu : unescape e = some d)
    (t : List Char) : lexStringAux 0 ('\\' :: e :: t) = consChar d (lexStringAux 0 t) := by
  rw [lexStringAux.eq_def]; simp +decide [he, hu]

theorem lexStringAux_hex {h1 h2 h3 h4 : Char} {rr : Nat} (hg : getu4 h1 h2 h3 h4 = some rr)
    (hs : isSurrogate rr = false) (t : List Char) :
    lexStringAux 0 ('\\' :: 'u' :: h1 :: h2 :: h3 :: h4 :: t)
      = consChar (Char.ofNat rr) (lexStringAux 0 t) := by
  rw [lexStringAux.eq_def]; simp +decide [hg, hs]

theorem lexStringAux_raw {c : Char} (hq : ¬ c = '"') (hb : ¬ c = '\\') (hn : ¬ c.toNat < 32)
    (t : List Char) : lexStringAux 0 (c :: t) = consChar c (lexStringAux 0 t) := by
  rw [lexStringAux.eq_def]; simp [hq, hb, hn]

theorem lexStringAux_encodeChar (c : Char) (t : List Char) :
    lexStringAux 0 (encodeChar c ++ t) = consChar c (lexStringAux 0 t) := by
  unfold encodeChar
  split_ifs with h1 hb hf h2 h3 h4 h5 h6 h7
  · rcases h1 with h | h <;> subst h
    · exact lexStringAux_short (e := '"') (d := '"') (by decide) rfl t
    · exact lexStringAux_short (e := '\\') (d := '\\') (by decide) rfl t
  · have hc : Char.ofNat 8 = c := by rw [← hb, Char.ofNat_toNat]
    have := lexStringAux_short (e := 'b') (d := Char.ofNat 8) (by decide) rfl t
    rw [hc] at this
    exact this
  · have hc : Char.ofNat 12 = c := by rw [← hf, Char.ofNat_toNat]
    have := lexStringAux_short (e := 'f') (d := Char.ofNat 12) (by decide) rfl t
    rw [hc] at this
    exact this
  · subst h2; exact lexStringAux_short (e := 'n') (d := '\n') (by decide) rfl t
  · subst h3; exact lexStringAux_short (e := 'r') (d := '\r') (by decide) rfl t
  · subst h4; exact lexStringAux_short (e := 't') (d := '\t') (by decide) rfl t
  · have hlt : c.toNat < 128 := by
      rcases h5 with h | h | h | h
      · omega
      all_goals subst h; decide
    have ha : hexVal (hexDigit (c.toNat / 16)) = some (c.toNat / 16) :=
      hexVal_hexDigit _ (by omega)
    have hb : hexVal (hexDigit (c.toNat % 16)) = some (c.toNat % 16) :=
      hexVal_hexDigit _ (by omega)
    have h0 : hexVal '0' = some 0 := rfl
    have hg : getu4 '0' '0' (hexDigit (c.toNat / 16)) (hexDigit (c.toNat % 16))
        = some c.toNat := by
      simp only [getu4, h0, ha, hb]
      congr 1
      omega
    have hs : isSurrogate c.toNat = false := by
      simp only [isSurrogate, Bool.and_eq_false_imp, decide_eq_true_eq, decide_eq_false_iff_not]
      omega
    have := lexStringAux_hex hg hs t
    rw [Char.ofNat_toNat] at this
    exact this
  · have hg : getu4 '2' '0' '2' '8' = some 0x2028 := rfl
    have hc : Char.ofNat 0x2028 = c := by rw [← h6, Char.ofNat_toNat]
    have := lexStringAux_hex hg rfl t
    rw [hc] at this
    exact this
  · have hg : getu4 '2' '0' '2' '9' = some 0x2029 := rfl
    have hc : Char.ofNat 0x2029 = c := by rw [← h7, Char.ofNat_toNat]
    have := lexStringAux_hex hg rfl t
    rw [hc] at this
    exact this
  · exact lexStringAux_raw (fun h => h1 (Or.inl h)) (fun h => h1 (Or.inr h))
      (fun h => h5 (Or.inl h)) t

theorem lexStringAux_encodeRune (r : Option Char) (t : List Char) :
    lexStringAux 0 (encodeRune r ++ t)
      = consChar (r.getD (Char.ofNat 0xFFFD)) (lexStringAux 0 t) := by
  cases r with
  | some c => exact lexStringAux_encodeChar c t
  | none =>
    have hg : getu4 'f' 'f' 'f' 'd' = some 0xFFFD := rfl
    exact lexStringAux_hex hg rfl t

theorem lexString_encodeRunes (rs : List (Option Char)) (rest : List Char) :
    lexString (encodeRunes rs ++ '"' :: rest)
      = some (rs.map (fun r => r.getD (Char.ofNat 0xFFFD)), rest) := by
  unfold lexString
  induction rs with
  | nil => exact lexStringAux_quote rest
  | cons r rs ih =>
    simp only [encodeRunes, List.append_assoc]
    rw [lexStringAux_encodeRune, ih]
    rfl

theorem lexString_encodeChars (s rest : List Char) :
    lexString (encodeChars s ++ '"' :: rest) = some (s, rest) := by
  unfold lexString
  induction s with
  | nil => exact lexStringAux_quote rest
  | cons c cs ih =>
    simp only [encodeChars, List.append_assoc]
    rw [lexStringAux_encodeChar, ih]
    rfl

theorem digitChar_toNat (d : Nat) (h : d < 10) : (Char.ofNat (48 + d)).toNat = 48 + d := by
  interval_cases d <;> rfl

theorem isDigit_digitChar (d : Nat) (h : d < 10) : isDigit (Char.ofNat (48 + d)) = true := by
  interval_cases d <;> rfl

theorem digitChar_ne_zero (d : Nat) (h : d < 10) (h0 : d ≠ 0) : ¬ Char.ofNat (48 + d) = '0' := by
  interval_cases d <;> first | exact absurd rfl h0 | decide

theorem digitsValue_append (xs : List Char) (c : Char) :
    digitsValue (xs ++ [c]) = digitsValue xs * 10 + (c.toNat - 48) := by
  simp [digitsValue, List.foldl_append]

theorem natDigits_zero (f : Nat) : natDigits f 0 = ['0'] := by
  cases f <;> rfl

theorem natDigits_ne_nil (f n : Nat) : natDigits f n ≠ [] := by
  cases f with
  | zero => simp [natDigits]
  | succ f =>
    by_cases hn : n < 10
    · simp [natDigits, hn]
    · simp [natDigits, hn]

theorem natDigits_value (f : Nat) : ∀ n, n ≤ f → digitsValue (natDigits f n) = n := by
  induction f with
  | zero =>
    intro n h
    have : n = 0 := by omega
    subst this; rfl
  | succ f ih =>
    intro n h
    by_cases hn : n < 10
    · simp only [natDigits, hn, if_true]
      simp [digitsValue, digitChar_toNat n hn]
    · simp only [natDigits, hn, if_false]
      rw [digitsValue_append, ih (n / 10) (by omega), digitChar_toNat _ (Nat.mod_lt n (by decide))]
      omega

theorem natDigits_all (f : Nat) : ∀ n, n ≤ f → ∀ c ∈ natDigits f n, isDigit c = true := by
  induction f with
  | zero =>
    intro n h c hc
    have : n = 0 := by omega
    subst this
    simp only [natDigits_zero, List.mem_singleton] at hc
    subst hc; rfl
  | succ f ih =>
    intro n h c hc
    by_cases hn : n < 10
    · simp only [natDigits, hn, if_true, List.mem_singleton] at hc
      subst hc; exact isDigit_digitChar n hn
    · simp only [natDigits, hn, if_false, List.mem_append, List.mem_singleton] at hc
      rcases hc with hc | hc
      · exact ih (n / 10) (by omega) c hc
      · subst hc; exact isDigit_digitChar _ (Nat.mod_lt n (by decide))

theorem natDigits_head (f : Nat) : ∀ n, n ≤ f → n ≠ 0 →
    ∃ c tl, natDigits f n = c :: tl ∧ ¬ c = '0' := by
  induction f with
  | zero => intro n h h0; omega
  | succ f ih =>
    intro n h h0
    by_cases hn : n < 10
    · exact ⟨Char.ofNat (48 + n), [], by simp [natDigits, hn], digitChar_ne_zero n hn h0⟩
    · obtain ⟨c, tl, he, hc⟩ := ih (n / 10) (by omega) (by omega)
      exact ⟨c, tl ++ [Char.ofNat (48 + n % 10)], by simp [natDigits, hn, he], hc⟩

theorem spanDigits_append (ds : List Char) (x : Char) (rest : List Char)
    (hds : ∀ c ∈ ds, isDigit c = true) (hx : isDigit x = false) :
    spanDigits (ds ++ x :: rest) = (ds, x :: rest) := by
  induction ds with
  | nil => simp [spanDigits, hx]
  | cons d ds ih =>
    have hd : isDigit d = true := hds d (List.mem_cons_self _ _)
    have := ih (fun c hc => hds c (List.mem_cons_of_mem _ hc))
    simp [spanDigits, hd, this]

theorem lexIntPart_natDigits (n : Nat) (x : Char) (rest : List Char) (hx : isDigit x = false) :
    lexIntPart (natDigits n n ++ x :: rest) = some (natDigits n n, x :: rest) := by
  by_cases h0 : n = 0
  · subst h0; rfl
  · obtain ⟨c, tl, he, hc⟩ := natDigits_head n n (Nat.le_refl n) h0
    have hall := natDigits_all n n (Nat.le_refl n)
    rw [he] at hall ⊢
    have hd : isDigit c = true := hall c (List.mem_cons_self _ _)
    have hsp := spanDigits_append tl x rest (fun d hd => hall d (List.mem_cons_of_mem _ hd)) hx
    simp [lexIntPart, hc, hd, hsp]

theorem lexUnsigned_natDigits (n : Nat) (x : Char) (rest : List Char) (hx : isDigit x = false)
    (hdot : ¬ x = '.') (he : ¬ (x = 'e' ∨ x = 'E')) :
    lexUnsigned (natDigits n n ++ x :: rest) = some (natDigits n n, x :: rest) := by
  simp [lexUnsigned, lexIntPart_natDigits n x rest hx, lexFrac, lexExp, hdot, he]

theorem lexNumber_encodeInt (i : Int) (x : Char) (rest : List Char) (hx : isDigit x = false)
    (hdot : ¬ x = '.') (he : ¬ (x = 'e' ∨ x = 'E')) :
    lexNumber (encodeInt i ++ x :: rest) = some (encodeInt i, x :: rest) := by
  unfold encodeInt
  split_ifs with hneg
  · simp [lexNumber, lexUnsigned_natDigits _ x rest hx hdot he]
  · have hall := natDigits_all i.natAbs i.natAbs (Nat.le_refl _)
    have hu := lexUnsigned_natDigits i.natAbs x rest hx hdot he
    cases hd : natDigits i.natAbs i.natAbs with
    | nil => exact absurd hd (natDigits_ne_nil _ _)
    | cons c tl =>
      rw [hd] at hall hu
      have hc : isDigit c = true := hall c (List.mem_cons_self _ _)
      have hm : ¬ c = '-' := by
        intro h; subst h; exact absurd hc (by decide)
      simp only [List.cons_append] at hu ⊢
      simp only [lexNumber, hm, if_false]
      exact hu

theorem all_isDigit_of_forall {ds : List Char} (h : ∀ c ∈ ds, isDigit c = true) :
    ds.all isDigit = true := by
  simpa [List.all_eq_true] using h

theorem parseInt64_encodeInt (i : GoInt) : parseInt64 (encodeInt i.val) = some i := by
  obtain ⟨i, hi⟩ := i
  have hall := natDigits_all i.natAbs i.natAbs (Nat.le_refl _)
  have hval := natDigits_value i.natAbs i.natAbs (Nat.le_refl _)
  have hne := natDigits_ne_nil i.natAbs i.natAbs
  simp only [encodeInt]
  split_ifs with hneg
  · have hv : (-(digitsValue (natDigits i.natAbs i.natAbs) : Int)) = i := by
      rw [hval]; omega
    simp only [parseInt64, if_true, hne, ne_eq, not_false_eq_true,
      all_isDigit_of_forall hall, and_self, hv, toGoInt, hi, dif_pos]
  · cases hd : natDigits i.natAbs i.natAbs with
    | nil => exact absurd hd hne
    | cons c tl =>
      rw [hd] at hall hval
      have hc : isDigit c = true := hall c (List.mem_cons_self _ _)
      have hm : ¬ c = '-' := by
        intro h; subst h; exact absurd hc (by decide)
      have hv : ((digitsValue (c :: tl) : Nat) : Int) = i := by
        rw [hval]; omega
      simp only [parseInt64, hm, if_false, all_isDigit_of_forall hall, if_true, hv, toGoInt, hi,
        and_self, dif_pos]

theorem encodeInt_head (i : Int) :
    ∃ c tl, encodeInt i = c :: tl ∧ (c = '-' ∨ isDigit c = true) := by
  unfold encodeInt
  split_ifs with hneg
  · exact ⟨'-', _, rfl, Or.inl rfl⟩
  · cases hd : natDigits i.natAbs i.natAbs with
    | nil => exact absurd hd (natDigits_ne_nil _ _)
    | cons c tl =>
      have hall := natDigits_all i.natAbs i.natAbs (Nat.le_refl _)
      rw [hd] at hall
      exact ⟨c, tl, rfl, Or.inr (hall c (List.mem_cons_self _ _))⟩

theorem skipWS_cons {x : Char} (hx : isSpace x = false) (xs : List Char) :
    skipWS (x :: xs) = x :: xs := by
  simp [skipWS, hx]

theorem encodeString_append (s : GoString) (rest : List Char) :
    encodeString s ++ rest = '"' :: (encodeRunes (runes s) ++ '"' :: rest) := by
  simp [encodeString]

theorem encodeName_append (k : String) (rest : List Char) :
    encodeName k ++ rest = '"' :: (encodeChars k.toList ++ '"' :: rest) := by
  simp [encodeName]

theorem parseValue_encodeString (f d : Nat) (s : GoString) (rest : List Char) :
    parseValue (f + 1) d (encodeString s ++ rest) = some (JSON.str (toText s), rest) := by
  rw [encodeString_append, parseValue.eq_def]
  simp [lexString_encodeRunes, toText]

theorem parseValue_encodeInt (f d : Nat) (i : Int) (x : Char) (rest : List Char)
    (hx : isDigit x = false) (hdot : ¬ x = '.') (he : ¬ (x = 'e' ∨ x = 'E')) :
    parseValue (f + 1) d (encodeInt i ++ x :: rest)
      = some (JSON.num (encodeInt i), x :: rest) := by
  have hn := lexNumber_encodeInt i x rest hx hdot he
  obtain ⟨c, tl, hc, hhead⟩ := encodeInt_head i
  rw [hc] at hn ⊢
  simp only [List.cons_append] at hn ⊢
  have h1 : ¬ c = '"' := by
    rintro rfl; rcases hhead with h | h <;> exact absurd h (by decide)
  have h2 : ¬ c = '{' := by
    rintro rfl; rcases hhead with h | h <;> exact absurd h (by decide)
  have h3 : ¬ c = '[' := by
    rintro rfl; rcases hhead with h | h <;> exact absurd h (by decide)
  have h4 : ¬ c = 't' := by
    rintro rfl; rcases hhead with h | h <;> exact absurd h (by decide)
  have h5 : ¬ c = 'f' := by
    rintro rfl; rcases hhead with h | h <;> exact absurd h (by decide)
  have h6 : ¬ c = 'n' := by
    rintro rfl; rcases hhead with h | h <;> exact absurd h (by decide)
  rw [parseValue.eq_def]
  simp [h1, h2, h3, h4, h5, h6, hn]

theorem parseMembers_comma (pv : List Char → Option (JSON × List Char)) (n : Nat) (k : String)
    (val : List Char) (v : JSON) (rest : List Char)
    (hsk : skipWS (val ++ ',' :: rest) = val ++ ',' :: rest)
    (hv : pv (val ++ ',' :: rest) = some (v, ',' :: rest)) (hrest : skipWS rest = rest) :
    parseMembers pv (n + 1) (encodeName k ++ ':' :: (val ++ ',' :: rest))
      = consMember k.toList v (parseMembers pv n rest) := by
  rw [encodeName_append, parseMembers.eq_def]
  have h0 : skipWS (':' :: (val ++ ',' :: rest)) = ':' :: (val ++ ',' :: rest) :=
    skipWS_cons (by decide) _
  have h2 : skipWS (',' :: rest) = ',' :: rest := skipWS_cons (by decide) _
  simp only [lexString_encodeChars, h0, if_true, hsk, hv, h2, hrest]

theorem parseMembers_last (pv : List Char → Option (JSON × List Char)) (n : Nat) (k : String)
    (val : List Char) (v : JSON) (rest : List Char)
    (hsk : skipWS (val ++ '}' :: rest) = val ++ '}' :: rest)
    (hv : pv (val ++ '}' :: rest) = some (v, '}' :: rest)) :
    parseMembers pv (n + 1) (encodeName k ++ ':' :: (val ++ '}' :: rest))
      = some ([(k.toList, v)], rest) := by
  rw [encodeName_append, parseMembers.eq_def]
  have h0 : skipWS (':' :: (val ++ '}' :: rest)) = ':' :: (val ++ '}' :: rest) :=
    skipWS_cons (by decide) _
  have h2 : skipWS ('}' :: rest) = '}' :: rest := skipWS_cons (by decide) _
  simp only [lexString_encodeChars, h0, if_true, hsk, hv, h2]
  simp +decide

theorem skipWS_encodeString (s : GoString) (rest : List Char) :
    skipWS (encodeString s ++ rest) = encodeString s ++ rest := by
  rw [encodeString_append]; exact skipWS_cons (by decide) _

theorem skipWS_encodeName (k : String) (rest : List Char) :
    skipWS (encodeName k ++ rest) = encodeName k ++ rest := by
  rw [encodeName_append]; exact skipWS_cons (by decide) _

theorem parseValue_object (f d : Nat) (hd : d < maxNestingDepth) (k : String) (body : List Char)
    (ms : List (List Char × JSON)) (rest : List Char)
    (h : parseMembers (parseValue f (d + 1)) f (encodeName k ++ body) = some (ms, rest)) :
    parseValue (f + 1) d ('{' :: (encodeName k ++ body)) = some (JSON.obj ms, rest) := by
  rw [encodeName_append] at h ⊢
  rw [parseValue.eq_def]
  have h0 : skipWS ('"' :: (encodeChars k.toList ++ '"' :: body))
      = '"' :: (encodeChars k.toList ++ '"' :: body) := skipWS_cons (by decide) _
  have h1 : ¬ maxNestingDepth ≤ d := Nat.not_le.2 hd
  simp only [h0, h, h1]
  simp +decide

theorem parseMembers_comma_string (f d n : Nat) (k : String) (s : GoString) (rest : List Char)
    (hrest : skipWS rest = rest) :
    parseMembers (parseValue (f + 1) d) (n + 1)
        (encodeName k ++ ':' :: (encodeString s ++ ',' :: rest))
      = consMember k.toList (JSON.str (toText s))
          (parseMembers (parseValue (f + 1) d) n rest) :=
  parseMembers_comma _ n k _ _ rest (skipWS_encodeString s _)
    (parseValue_encodeString f d s _) hrest

theorem parseMembers_last_string (f d n : Nat) (k : String) (s : GoString) (rest : List Char) :
    parseMembers (parseValue (f + 1) d) (n + 1)
        (encodeName k ++ ':' :: (encodeString s ++ '}' :: rest))
      = some ([(k.toList, JSON.str (toText s))], rest) :=
  parseMembers_last _ n k _ _ rest (skipWS_encodeString s _) (parseValue_encodeString f d s _)

theorem parseValue_encodeArtist (g d : Nat) (hd : d < maxNestingDepth) (a : Artist)
    (rest : List Char) :
    parseValue (g + 4) d (encodeArtist a ++ rest) = some (artistTree a, rest) := by
  unfold encodeArtist artistTree
  simp only [List.cons_append, List.append_assoc, List.nil_append]
  apply parseValue_object _ _ hd
  rw [parseMembers_comma_string (g + 2) (d + 1) (g + 2) "id" a.ID _ (skipWS_encodeName _ _),
    parseMembers_comma_string (g + 2) (d + 1) (g + 1) "name" a.Name _ (skipWS_encodeName _ _),
    parseMembers_last_string (g + 2) (d + 1) g "dateOfBirth" a.DateOfBirth rest]
  rfl

theorem skipWS_encodeInt (i : Int) (rest : List Char) :
    skipWS (encodeInt i ++ rest) = encodeInt i ++ rest := by
  obtain ⟨c, tl, hc, hhead⟩ := encodeInt_head i
  rw [hc]
  refine skipWS_cons ?_ _
  rcases hhead with h | h
  · subst h; rfl
  · cases hs : isSpace c with
    | false => rfl
    | true =>
      simp only [isSpace, Bool.or_eq_true, decide_eq_true_eq] at hs
      rcases hs with ((h1 | h1) | h1) | h1 <;> subst h1 <;> exact absurd h (by decide)

theorem skipWS_encodeArtist (a : Artist) (rest : List Char) :
    skipWS (encodeArtist a ++ rest) = encodeArtist a ++ rest :=
  skipWS_cons (by decide) _

theorem parseValue_encodeCertificate (g d : Nat) (hd : d + 1 < maxNestingDepth)
    (c : Certificate) (rest : List Char) :
    parseValue (g + 7) d (encodeCertificate c ++ rest) = some (certificateTree c, rest) := by
  unfold encodeCertificate certificateTree
  simp only [List.cons_append, List.append_assoc, List.nil_append]
  apply parseValue_object _ _ (Nat.lt_of_succ_lt hd)
  rw [parseMembers_comma_string (g + 5) (d + 1) (g + 5) "ID" c.ID _ (skipWS_encodeName _ _),
    parseMembers_comma_string (g + 5) (d + 1) (g + 4) "URI" c.PHOTO _ (skipWS_encodeName _ _),
    parseMembers_comma_string (g + 5) (d + 1) (g + 3) "title" c.Title _ (skipWS_encodeName _ _),
    parseMembers_comma_string (g + 5) (d + 1) (g + 2) "owner" c.Owner _ (skipWS_encodeName _ _),
    parseMembers_comma (parseValue (g + 6) (d + 1)) (g + 1) "appraisedValue"
      (encodeInt c.YearOfProduction.val) (JSON.num (encodeInt c.YearOfProduction.val)) _
      (skipWS_encodeInt _ _)
      (parseValue_encodeInt (g + 5) (d + 1) _ ',' _ (by decide) (by decide) (by decide))
      (skipWS_encodeName _ _),
    parseMembers_last (parseValue (g + 6) (d + 1)) g "artist" (encodeArtist c.Artist)
      (artistTree c.Artist) rest (skipWS_encodeArtist _ _)
      (parseValue_encodeArtist (g + 2) (d + 1) hd _ _)]
  rfl

theorem encodeCertificate_length (c : Certificate) : 6 ≤ (encodeCertificate c).length := by
  simp only [encodeCertificate, encodeName, List.length_cons, List.length_append]
  omega

theorem parseJSON_encodeCertificate (c : Certificate) :
    parseJSON (encodeCertificate c) = some (certificateTree c) := by
  have hlen := encodeCertificate_length c
  obtain ⟨g, hg⟩ : ∃ g, (encodeCertificate c).length + 1 = g + 7 :=
    ⟨(encodeCertificate c).length - 6, by omega⟩
  have hsk : skipWS (encodeCertificate c) = encodeCertificate c := skipWS_cons (by decide) _
  have hp := parseValue_encodeCertificate g 0 (by decide) c []
  rw [List.append_nil] at hp
  unfold parseJSON
  rw [hg, hsk, hp]
  rfl

theorem decodeArtist_artistTree (a old : Artist) :
    decodeArtist (artistTree a) old = (a.coerce, none) := by
  simp +decide [decodeArtist, artistTree, setArtistField, decodeString, saveError, Artist.coerce,
    coerceUTF8]

theorem decodeCertificate_certificateTree (c old : Certificate) :
    decodeCertificate (certificateTree c) old = (c.coerce, none) := by
  simp +decide [decodeCertificate, certificateTree, setCertificateField, decodeString, decodeInt,
    saveError, parseInt64_encodeInt, decodeArtist_artistTree, Certificate.coerce, coerceUTF8]

/-- What decoding makes of an encoding: `json.Unmarshal` applied to what
`json.Marshal` wrote for a certificate gives the certificate with every string
coerced to valid UTF-8, whatever the strings were. -/
theorem UnmarshalCertificate_encodeCertificate (c : Certificate) :
    UnmarshalCertificate (encodeCertificate c) = .ok c.coerce := by
  simp only [UnmarshalCertificate, parseJSON_encodeCertificate,
    decodeCertificate_certificateTree]

/-- Decoding undoes encoding for a certificate whose strings are valid UTF-8. -/
theorem UnmarshalCertificate_encodeCertificate_of_valid {c : Certificate} (h : c.Valid) :
    UnmarshalCertificate (encodeCertificate c) = .ok c := by
  rw [UnmarshalCertificate_encodeCertificate, Certificate.coerce_of_valid h]

/-- A string as JSON does not decode to a certificate. -/
theorem UnmarshalCertificate_encodeString (s : GoString) :
    UnmarshalCertificate (encodeString s)
      = .error (.jsonMismatch "string" "chaincode.Certificate") := by
  have hp : parseJSON (encodeString s) = some (JSON.str (toText s)) := by
    have h := parseValue_encodeString (encodeString s).length 0 s []
    rw [List.append_nil] at h
    have hsk := skipWS_encodeString s []
    rw [List.append_nil] at hsk
    unfold parseJSON
    rw [hsk, h]
    rfl
  simp only [UnmarshalCertificate, hp, decodeCertificate]

theorem Certificate.valid_utf8 (i p t o : String) (y : GoInt) (ai an ad : String) :
    Certificate.Valid ⟨utf8 i, utf8 p, utf8 t, utf8 o, y, ⟨utf8 ai, utf8 an, utf8 ad⟩⟩ :=
  ⟨ValidUTF8_utf8 _, ValidUTF8_utf8 _, ValidUTF8_utf8 _, ValidUTF8_utf8 _, ValidUTF8_utf8 _,
    ValidUTF8_utf8 _, ValidUTF8_utf8 _⟩

/-- Decoding undoes encoding for a certificate whose strings hold texts. -/
theorem UnmarshalCertificate_encodeCertificate_utf8 (i p t o : String) (y : GoInt)
    (ai an ad : String) :
    UnmarshalCertificate
        (encodeCertificate ⟨utf8 i, utf8 p, utf8 t, utf8 o, y, ⟨utf8 ai, utf8 an, utf8 ad⟩⟩)
      = .ok ⟨utf8 i, utf8 p, utf8 t, utf8 o, y, ⟨utf8 ai, utf8 an, utf8 ad⟩⟩ :=
  UnmarshalCertificate_encodeCertificate_of_valid (Certificate.valid_utf8 i p t o y ai an ad)

theorem seed1_valid : seed1.Valid := Certificate.valid_utf8 _ _ _ _ _ _ _ _

theorem seed2_valid : seed2.Valid := Certificate.valid_utf8 _ _ _ _ _ _ _ _

theorem seed3_valid : seed3.Valid := Certificate.valid_utf8 _ _ _ _ _ _ _ _

theorem seed4_valid : seed4.Valid := Certificate.valid_utf8 _ _ _ _ _ _ _ _

theorem seedAssets_valid : ∀ seed ∈ seedAssets, seed.Valid := by
  intro seed hs
  simp only [seedAssets, List.mem_cons, List.mem_singleton, List.not_mem_nil, or_false] at hs
  rcases hs with rfl | rfl | rfl | rfl
  · exact seed1_valid
  · exact seed2_valid
  · exact seed3_valid
  · exact seed4_valid

theorem assetA_valid : assetA.Valid := Certificate.valid_utf8 _ _ _ _ _ _ _ _

theorem assetAB_valid : assetAB.Valid := Certificate.valid_utf8 _ _ _ _ _ _ _ _

theorem map_coerce_of_valid {cs : List Certificate} (h : ∀ c ∈ cs, c.Valid) :
    cs.map Certificate.coerce = cs := by
  induction cs with
  | nil => rfl
  | cons c cs ih =>
    rw [List.map_cons, Certificate.coerce_of_valid (h c (List.mem_cons_self _ _)),
      ih (fun d hd => h d (List.mem_cons_of_mem _ hd))]

/-! ## The contract: single operations -/

theorem AssetExists_eq {stub : Stub} {id : GoString} (hread : stub.getStateErr id = none)
    (w : WorldState) : AssetExists stub id w = (.ok (lookup id w).isSome, w) := by
  simp [AssetExists, GetState, hread]

theorem ReadAsset_absent {stub : Stub} {id : GoString} (hread : stub.getStateErr id = none)
    {w : WorldState} (h : lookup id w = none) :
    ReadAsset stub id w = (.error (.text (utf8 "the asset " ++ id ++ utf8 " does not exist")),
        w) := by
  simp [ReadAsset, GetState, hread, h]

theorem ReadAsset_present {stub : Stub} {id : GoString} (hread : stub.getStateErr id = none)
    {w : WorldState} {data : Bytes} (h : lookup id w = some data) :
    ReadAsset stub id w =
      (match UnmarshalCertificate data with
        | .error err => .error err
        | .ok asset => .ok asset, w) := by
  simp only [ReadAsset, GetState, hread, h]
  cases UnmarshalCertificate data <;> rfl

theorem getStateErr_of_CreateAsset {stub : Stub} {id photo title owner : GoString}
    {artist : Artist} {year : GoInt} {w : WorldState}
    (hok : (CreateAsset stub id photo title artist owner year w).1 = none) :
    stub.getStateErr id = none ∧ lookup id w = none ∧ stub.putStateErr id = none := by
  cases hr : stub.getStateErr id with
  | some cause => simp [CreateAsset, AssetExists, GetState, hr] at hok
  | none =>
    cases hl : lookup id w with
    | some data => simp [CreateAsset, AssetExists, GetState, hr, hl] at hok
    | none =>
      cases hp : stub.putStateErr id with
      | some cause =>
        simp [CreateAsset, AssetExists, GetState, hr, hl, MarshalCertificate, PutState, hp] at hok
      | none => exact ⟨rfl, rfl, rfl⟩

theorem CreateAsset_state {stub : Stub} {id photo title owner : GoString}
    {artist : Artist} {year : GoInt} {w : WorldState}
    (hok : (CreateAsset stub id photo title artist owner year w).1 = none) :
    (CreateAsset stub id photo title artist owner year w).2
      = store id (encodeCertificate ⟨id, photo, title, owner, year, artist⟩) w := by
  obtain ⟨hr, hl, hp⟩ := getStateErr_of_CreateAsset hok
  simp [CreateAsset, AssetExists, GetState, hr, hl, MarshalCertificate, PutState, hp]

/-! ## Create, read, delete, update on one key -/

theorem ReadAsset_after_CreateAsset {stub : Stub} {id photo title owner : GoString}
    {artist : Artist} {year : GoInt} {w : WorldState}
    (hok : (CreateAsset stub id photo title artist owner year w).1 = none) :
    (ReadAsset stub id (CreateAsset stub id photo title artist owner year w).2).1
      = .ok (Certificate.coerce ⟨id, photo, title, owner, year, artist⟩) := by
  obtain ⟨hr, -, -⟩ := getStateErr_of_CreateAsset hok
  rw [CreateAsset_state hok, ReadAsset_present hr (lookup_store_self _ _ _),
    UnmarshalCertificate_encodeCertificate]

/-- C3, amended: on a world state with no value at key `id`, once `CreateAsset`
has succeeded, `AssetExists(id)` returns true and `ReadAsset(id)` returns the
certificate whose fields are the arguments of the call with every string
coerced to valid UTF-8 (each byte that belongs to no valid encoding replaced
by the encoding of U+FFFD, as `json.Marshal` writes it); what `ReadAsset`
returns equals the arguments field for field exactly when every string
argument is valid UTF-8. -/
theorem createAsset_then_read (stub : Stub) (w : WorldState) (id photo title : GoString)
    (artist : Artist) (owner : GoString) (yearOfProduction : GoInt)
    (_habsent : lookup id w = none)
    (hok : (CreateAsset stub id photo title artist owner yearOfProduction w).1 = none) :
    (AssetExists stub id (CreateAsset stub id photo title artist owner yearOfProduction w).2).1
        = .ok true
      ∧ (ReadAsset stub id (CreateAsset stub id photo title artist owner yearOfProduction w).2).1
        = .ok (Certificate.coerce ⟨id, photo, title, owner, yearOfProduction, artist⟩)
      ∧ (Certificate.Valid ⟨id, photo, title, owner, yearOfProduction, artist⟩
        ↔ (ReadAsset stub id
              (CreateAsset stub id photo title artist owner yearOfProduction w).2).1
            = .ok { ID := id, PHOTO := photo, Title := title, Artist := artist, Owner := owner,
                    YearOfProduction := yearOfProduction }) := by
  obtain ⟨hr, -, -⟩ := getStateErr_of_CreateAsset hok
  refine ⟨?_, ReadAsset_after_CreateAsset hok, ?_⟩
  · rw [CreateAsset_state hok, AssetExists_eq hr, lookup_store_self]; rfl
  · rw [ReadAsset_after_CreateAsset hok]
    constructor
    · intro hv
      rw [Certificate.coerce_of_valid hv]
    · intro h
      exact Certificate.valid_of_coerce (Except.ok.inj h)

theorem createAsset_then_read_witness :
    (AssetExists Stub.reliable (utf8 "A")
        (CreateAsset Stub.reliable (utf8 "A") (utf8 "photo_uri") (utf8 "title")
          ⟨utf8 "id-13894047849", utf8 "Tomoko Janra", utf8 "20.11.1980"⟩ (utf8 "owner1")
          ⟨1962, by decide⟩ []).2).1
        = .ok true
      ∧ (ReadAsset Stub.reliable (utf8 "A")
        (CreateAsset Stub.reliable (utf8 "A") (utf8 "photo_uri") (utf8 "title")
          ⟨utf8 "id-13894047849", utf8 "Tomoko Janra", utf8 "20.11.1980"⟩ (utf8 "owner1")
          ⟨1962, by decide⟩ []).2).1
        = .ok { ID := utf8 "A", PHOTO := utf8 "photo_uri", Title := utf8 "title",
                Artist := ⟨utf8 "id-13894047849", utf8 "Tomoko Janra", utf8 "20.11.1980"⟩,
                Owner := utf8 "owner1", YearOfProduction := ⟨1962, by decide⟩ } :=
  ⟨(createAsset_then_read Stub.reliable [] (utf8 "A") (utf8 "photo_uri") (utf8 "title")
      ⟨utf8 "id-13894047849", utf8 "Tomoko Janra", utf8 "20.11.1980"⟩ (utf8 "owner1")
      ⟨1962, by decide⟩ rfl rfl).1,
    (createAsset_then_read Stub.reliable [] (utf8 "A") (utf8 "photo_uri") (utf8 "title")
      ⟨utf8 "id-13894047849", utf8 "Tomoko Janra", utf8 "20.11.1980"⟩ (utf8 "owner1")
      ⟨1962, by decide⟩ rfl rfl).2.2.1 (Certificate.valid_utf8 _ _ _ _ _ _ _ _)⟩

/-- C3, as claimed, fails: `CreateAsset` with the title `bad`, the byte `0xFF`,
`byte` succeeds on the empty world state, and `ReadAsset` then returns a
certificate whose title has the three bytes of U+FFFD in place of `0xFF`: not
the title supplied. -/
theorem createAsset_then_read_counterexample :
    lookup (utf8 "A") [] = none
      ∧ (CreateAsset Stub.reliable (utf8 "A") (utf8 "photo_uri")
          (utf8 "bad" ++ [0xFF] ++ utf8 "byte")
          ⟨utf8 "id-13894047849", utf8 "Tomoko Janra", utf8 "20.11.1980"⟩ (utf8 "owner1")
          ⟨1962, by decide⟩ []).1 = none
      ∧ (ReadAsset Stub.reliable (utf8 "A")
          (CreateAsset Stub.reliable (utf8 "A") (utf8 "photo_uri")
            (utf8 "bad" ++ [0xFF] ++ utf8 "byte")
            ⟨utf8 "id-13894047849", utf8 "Tomoko Janra", utf8 "20.11.1980"⟩ (utf8 "owner1")
            ⟨1962, by decide⟩ []).2).1
        = .ok ⟨utf8 "A", utf8 "photo_uri", utf8 "bad" ++ [0xEF, 0xBF, 0xBD] ++ utf8 "byte",
            utf8 "owner1", ⟨1962, by decide⟩,
            ⟨utf8 "id-13894047849", utf8 "Tomoko Janra", utf8 "20.11.1980"⟩⟩
      ∧ (ReadAsset Stub.reliable (utf8 "A")
          (CreateAsset Stub.reliable (utf8 "A") (utf8 "photo_uri")
            (utf8 "bad" ++ [0xFF] ++ utf8 "byte")
            ⟨utf8 "id-13894047849", utf8 "Tomoko Janra", utf8 "20.11.1980"⟩ (utf8 "owner1")
            ⟨1962, by decide⟩ []).2).1
        ≠ .ok ⟨utf8 "A", utf8 "photo_uri", utf8 "bad" ++ [0xFF] ++ utf8 "byte",
            utf8 "owner1", ⟨1962, by decide⟩,
            ⟨utf8 "id-13894047849", utf8 "Tomoko Janra", utf8 "20.11.1980"⟩⟩ := by
  have hok : (CreateAsset Stub.reliable (utf8 "A") (utf8 "photo_uri")
      (utf8 "bad" ++ [0xFF] ++ utf8 "byte")
      ⟨utf8 "id-13894047849", utf8 "Tomoko Janra", utf8 "20.11.1980"⟩ (utf8 "owner1")
      ⟨1962, by decide⟩ []).1 = none := rfl
  have ht : coerceUTF8 (utf8 "bad" ++ [0xFF] ++ utf8 "byte")
      = utf8 "bad" ++ [0xEF, 0xBF, 0xBD] ++ utf8 "byte" := by decide
  have hne : utf8 "bad" ++ [0xEF, 0xBF, 0xBD] ++ utf8 "byte"
      ≠ utf8 "bad" ++ [0xFF] ++ utf8 "byte" := by decide
  have hread := ReadAsset_after_CreateAsset hok
  simp only [Certificate.coerce, Artist.coerce, coerceUTF8_utf8, ht] at hread
  refine ⟨rfl, hok, hread, ?_⟩
  rw [hread]
  intro h
  exact hne (congrArg Certificate.Title (Except.ok.inj h))

/-- C5: when `CreateAsset(id, ...)` has succeeded, a second `CreateAsset` with
the same id, whatever its other arguments, fails with
`the asset <id> already exists` and leaves the world state as the first call
left it. -/
theorem createAsset_twice (stub : Stub) (w : WorldState) (id : GoString)
    (photo title : GoString) (artist : Artist) (owner : GoString) (yearOfProduction : GoInt)
    (photo2 title2 : GoString) (artist2 : Artist) (owner2 : GoString) (yearOfProduction2 : GoInt)
    (hok : (CreateAsset stub id photo title artist owner yearOfProduction w).1 = none) :
    CreateAsset stub id photo2 title2 artist2 owner2 yearOfProduction2
        (CreateAsset stub id photo title artist owner yearOfProduction w).2
      = (some (.text (utf8 "the asset " ++ id ++ utf8 " already exists")),
          (CreateAsset stub id photo title artist owner yearOfProduction w).2) := by
  obtain ⟨hr, -, -⟩ := getStateErr_of_CreateAsset hok
  rw [CreateAsset_state hok]
  simp [CreateAsset, AssetExists_eq hr, lookup_store_self]

theorem createAsset_twice_witness :
    CreateAsset Stub.reliable (utf8 "original-cowBoy") (utf8 "other_uri") (utf8 "other title")
        ⟨utf8 "id-1", utf8 "Mayer Labor", utf8 "17.11.1971"⟩ (utf8 "owner2") ⟨1977, by decide⟩
        (CreateAsset Stub.reliable (utf8 "original-cowBoy") (utf8 "photo_uri") (utf8 "title")
          ⟨utf8 "id-13894047849", utf8 "Tomoko Janra", utf8 "20.11.1980"⟩ (utf8 "owner1")
              ⟨1962, by decide⟩ []).2
      = (some (.text (utf8 "the asset " ++ utf8 "original-cowBoy" ++ utf8 " already exists")),
          (CreateAsset Stub.reliable (utf8 "original-cowBoy") (utf8 "photo_uri") (utf8 "title")
            ⟨utf8 "id-13894047849", utf8 "Tomoko Janra", utf8 "20.11.1980"⟩ (utf8 "owner1")
                ⟨1962, by decide⟩ []).2) :=
  createAsset_twice Stub.reliable [] (utf8 "original-cowBoy") (utf8 "photo_uri") (utf8 "title")
    ⟨utf8 "id-13894047849", utf8 "Tomoko Janra", utf8 "20.11.1980"⟩ (utf8 "owner1")
        ⟨1962, by decide⟩
    (utf8 "other_uri") (utf8 "other title") ⟨utf8 "id-1", utf8 "Mayer Labor", utf8 "17.11.1971"⟩
        (utf8 "owner2") ⟨1977, by decide⟩ rfl

/-- C6: with the collaborator's read and delete of key `id` working: if a value
is present at key `id`, `DeleteAsset(id)` succeeds, after which
`AssetExists(id)` returns false and `ReadAsset(id)` fails with
`the asset <id> does not exist`; if no value is present, `DeleteAsset(id)`
fails with `the asset <id> does not exist` and the world state is unchanged. -/
theorem deleteAsset_spec (stub : Stub) (w : WorldState) (id : GoString)
    (hread : stub.getStateErr id = none) (hdel : stub.delStateErr id = none) :
    ((lookup id w).isSome = true →
        (DeleteAsset stub id w).1 = none
        ∧ AssetExists stub id (DeleteAsset stub id w).2 = (.ok false, (DeleteAsset stub id w).2)
        ∧ (ReadAsset stub id (DeleteAsset stub id w).2).1
            = .error (.text (utf8 "the asset " ++ id ++ utf8 " does not exist")))
      ∧ (lookup id w = none →
        DeleteAsset stub id w = (some (.text
            (utf8 "the asset " ++ id ++ utf8 " does not exist")), w)) := by
  constructor
  · intro hpresent
    have hd : DeleteAsset stub id w = (none, remove id w) := by
      simp [DeleteAsset, AssetExists_eq hread, hpresent, DelState, hdel]
    rw [hd]
    refine ⟨rfl, ?_, ?_⟩
    · rw [AssetExists_eq hread, lookup_remove_self]; rfl
    · rw [ReadAsset_absent hread (lookup_remove_self id w)]
  · intro habsent
    simp [DeleteAsset, AssetExists_eq hread, habsent]

theorem deleteAsset_spec_witness :
    ((DeleteAsset Stub.reliable (utf8 "A") [(utf8 "A", ['x'])]).1 = none
        ∧ AssetExists Stub.reliable (utf8 "A")
            (DeleteAsset Stub.reliable (utf8 "A") [(utf8 "A", ['x'])]).2
            = (.ok false, (DeleteAsset Stub.reliable (utf8 "A") [(utf8 "A", ['x'])]).2)
        ∧ (ReadAsset Stub.reliable (utf8 "A")
            (DeleteAsset Stub.reliable (utf8 "A") [(utf8 "A", ['x'])]).2).1
            = .error (.text (utf8 "the asset " ++ utf8 "A" ++ utf8 " does not exist")))
      ∧ DeleteAsset Stub.reliable (utf8 "B") [(utf8 "A", ['x'])]
          = (some (.text (utf8 "the asset " ++ utf8 "B" ++ utf8 " does not exist")),
              [(utf8 "A", ['x'])]) :=
  ⟨(deleteAsset_spec Stub.reliable [(utf8 "A", ['x'])] (utf8 "A") rfl rfl).1 rfl,
    (deleteAsset_spec Stub.reliable [(utf8 "A", ['x'])] (utf8 "B") rfl rfl).2 (by decide)⟩

/-- C7: with the collaborator's read of key `id` working and no value at key
`id`, `UpdateAsset(id, ...)` fails with `the asset <id> does not exist` and
leaves the world state unchanged. -/
theorem updateAsset_absent (stub : Stub) (w : WorldState) (id photo title : GoString)
    (artist : Artist) (owner : GoString) (yearOfProduction : GoInt)
    (hread : stub.getStateErr id = none) (habsent : lookup id w = none) :
    UpdateAsset stub id photo title artist owner yearOfProduction w
      = (some (.text (utf8 "the asset " ++ id ++ utf8 " does not exist")), w) := by
  simp [UpdateAsset, AssetExists_eq hread, habsent]

theorem updateAsset_absent_witness :
    UpdateAsset Stub.reliable (utf8 "asset1") (utf8 "photo_uri") (utf8 "title")
        ⟨utf8 "id-13894047849", utf8 "Tomoko Janra", utf8 "20.11.1980"⟩ (utf8 "owner1")
            ⟨1962, by decide⟩ []
      = (some (.text (utf8 "the asset " ++ utf8 "asset1" ++ utf8 " does not exist")), []) :=
  updateAsset_absent Stub.reliable [] (utf8 "asset1") (utf8 "photo_uri") (utf8 "title")
    ⟨utf8 "id-13894047849", utf8 "Tomoko Janra", utf8 "20.11.1980"⟩ (utf8 "owner1")
        ⟨1962, by decide⟩ rfl rfl

/-- C8: with the collaborator's read of key `id` working and no value at key
`id`, `AssetExists(id)` returns false and no error, and `ReadAsset(id)` returns
no certificate and the error `the asset <id> does not exist`. -/
theorem absent_exists_read (stub : Stub) (w : WorldState) (id : GoString)
    (hread : stub.getStateErr id = none) (habsent : lookup id w = none) :
    AssetExists stub id w = (.ok false, w)
      ∧ ReadAsset stub id w
        = (.error (.text (utf8 "the asset " ++ id ++ utf8 " does not exist")), w) := by
  refine ⟨?_, ReadAsset_absent hread habsent⟩
  rw [AssetExists_eq hread, habsent]; rfl

theorem absent_exists_read_witness :
    AssetExists Stub.reliable (utf8 "asset1") [(utf8 "other", ['x'])] =
        (.ok false, [(utf8 "other", ['x'])])
      ∧ ReadAsset Stub.reliable (utf8 "asset1") [(utf8 "other", ['x'])]
        = (.error (.text (utf8 "the asset " ++ utf8 "asset1" ++ utf8 " does not exist")),
            [(utf8 "other", ['x'])]) :=
  absent_exists_read Stub.reliable [(utf8 "other", ['x'])] (utf8 "asset1") rfl (by decide)

/-! ## Transfer and update, as the code has them -/

theorem TransferAsset_eq {stub : Stub} {id : GoString} {w : WorldState} {data : Bytes}
    {asset : Certificate} (hread : stub.getStateErr id = none) (hl : lookup id w = some data)
    (hdec : UnmarshalCertificate data = .ok asset) (hput : stub.putStateErr id = none)
    (newOwner : GoString) :
    TransferAsset stub id newOwner w = (none, store id (encodeString (utf8 "string")) w) := by
  simp [TransferAsset, ReadAsset_present hread hl, hdec, MarshalString, PutState, hput]

theorem UpdateAsset_eq {stub : Stub} {id owner : GoString} {w : WorldState}
    (hread : stub.getStateErr id = none) (hl : (lookup id w).isSome = true)
    (hput : stub.putStateErr (id ++ owner) = none) (photo title : GoString) (artist : Artist)
    (yearOfProduction : GoInt) :
    UpdateAsset stub id photo title artist owner yearOfProduction w
      = (none, store (id ++ owner)
          (encodeCertificate ⟨id, photo, title, owner, yearOfProduction, artist⟩) w) := by
  simp [UpdateAsset, AssetExists_eq hread, hl, MarshalCertificate, PutState, hput]

/-- C1, on the code: after `CreateAsset("A", ..., "owner1", 1962)` on the empty
world state, `TransferAsset("A", "owner2")` returns no error, the value it
leaves at key `A` is the JSON string `"string"`, and `ReadAsset("A")` then
fails to decode instead of returning the record with owner `owner2`. -/
theorem transferAsset_scenario :
    (TransferAsset Stub.reliable (utf8 "A") (utf8 "owner2")
        (CreateAsset Stub.reliable (utf8 "A") (utf8 "photo_uri") (utf8 "title")
          ⟨utf8 "id-13894047849", utf8 "Tomoko Janra", utf8 "20.11.1980"⟩ (utf8 "owner1")
              ⟨1962, by decide⟩ []).2).1
        = none
      ∧ lookup (utf8 "A") (TransferAsset Stub.reliable (utf8 "A") (utf8 "owner2")
        (CreateAsset Stub.reliable (utf8 "A") (utf8 "photo_uri") (utf8 "title")
          ⟨utf8 "id-13894047849", utf8 "Tomoko Janra", utf8 "20.11.1980"⟩ (utf8 "owner1")
              ⟨1962, by decide⟩ []).2).2
        = some (encodeString (utf8 "string"))
      ∧ (ReadAsset Stub.reliable (utf8 "A") (TransferAsset Stub.reliable (utf8 "A") (utf8 "owner2")
        (CreateAsset Stub.reliable (utf8 "A") (utf8 "photo_uri") (utf8 "title")
          ⟨utf8 "id-13894047849", utf8 "Tomoko Janra", utf8 "20.11.1980"⟩ (utf8 "owner1")
              ⟨1962, by decide⟩ []).2).2).1
        = .error (.jsonMismatch "string" "chaincode.Certificate") := by
  have hc : (CreateAsset Stub.reliable (utf8 "A") (utf8 "photo_uri") (utf8 "title")
      ⟨utf8 "id-13894047849", utf8 "Tomoko Janra", utf8 "20.11.1980"⟩ (utf8 "owner1")
          ⟨1962, by decide⟩ []).1 = none :=
    rfl
  rw [CreateAsset_state hc,
    @TransferAsset_eq Stub.reliable _ _ _ _ rfl (lookup_store_self _ _ _)
      (UnmarshalCertificate_encodeCertificate _) rfl (utf8 "owner2")]
  refine ⟨rfl, lookup_store_self _ _ _, ?_⟩
  rw [@ReadAsset_present Stub.reliable _ rfl _ _ (lookup_store_self _ _ _),
    UnmarshalCertificate_encodeString]

/-- C2, on the code: after `CreateAsset("A", ..., "owner1", 1962)` on the empty
world state, `UpdateAsset("A", "photo2", "title2", ..., "owner2", 1999)` returns
no error and writes the new record at key `Aowner2`; `ReadAsset("A")` still
returns the record of the `CreateAsset` call, every field of it. -/
theorem updateAsset_scenario :
    (UpdateAsset Stub.reliable (utf8 "A") (utf8 "photo2") (utf8 "title2")
        ⟨utf8 "id-13899810498", utf8 "Jubran Jubran", utf8 "17.05.1965"⟩ (utf8 "owner2")
            ⟨1999, by decide⟩
        (CreateAsset Stub.reliable (utf8 "A") (utf8 "photo_uri") (utf8 "title")
          ⟨utf8 "id-13894047849", utf8 "Tomoko Janra", utf8 "20.11.1980"⟩ (utf8 "owner1")
              ⟨1962, by decide⟩ []).2).1
        = none
      ∧ lookup (utf8 "Aowner2") (UpdateAsset Stub.reliable (utf8 "A") (utf8 "photo2")
          (utf8 "title2")
        ⟨utf8 "id-13899810498", utf8 "Jubran Jubran", utf8 "17.05.1965"⟩ (utf8 "owner2")
            ⟨1999, by decide⟩
        (CreateAsset Stub.reliable (utf8 "A") (utf8 "photo_uri") (utf8 "title")
          ⟨utf8 "id-13894047849", utf8 "Tomoko Janra", utf8 "20.11.1980"⟩ (utf8 "owner1")
              ⟨1962, by decide⟩ []).2).2
        = some (encodeCertificate ⟨utf8 "A", utf8 "photo2", utf8 "title2", utf8 "owner2",
            ⟨1999, by decide⟩,
            ⟨utf8 "id-13899810498", utf8 "Jubran Jubran", utf8 "17.05.1965"⟩⟩)
      ∧ (ReadAsset Stub.reliable (utf8 "A")
          (UpdateAsset Stub.reliable (utf8 "A") (utf8 "photo2") (utf8 "title2")
        ⟨utf8 "id-13899810498", utf8 "Jubran Jubran", utf8 "17.05.1965"⟩ (utf8 "owner2")
            ⟨1999, by decide⟩
        (CreateAsset Stub.reliable (utf8 "A") (utf8 "photo_uri") (utf8 "title")
          ⟨utf8 "id-13894047849", utf8 "Tomoko Janra", utf8 "20.11.1980"⟩ (utf8 "owner1")
              ⟨1962, by decide⟩ []).2).2).1
        = .ok ⟨utf8 "A", utf8 "photo_uri", utf8 "title", utf8 "owner1", ⟨1962, by decide⟩,
            ⟨utf8 "id-13894047849", utf8 "Tomoko Janra", utf8 "20.11.1980"⟩⟩ := by
  have hc : (CreateAsset Stub.reliable (utf8 "A") (utf8 "photo_uri") (utf8 "title")
      ⟨utf8 "id-13894047849", utf8 "Tomoko Janra", utf8 "20.11.1980"⟩ (utf8 "owner1")
          ⟨1962, by decide⟩ []).1 = none :=
    rfl
  rw [CreateAsset_state hc,
    @UpdateAsset_eq Stub.reliable (utf8 "A") (utf8 "owner2") _ rfl
      (by rw [lookup_store_self]; rfl) rfl]
  refine ⟨rfl, lookup_store_self _ _ _, ?_⟩
  have hne : (utf8 "A" : GoString) ≠ (utf8 "A") ++ utf8 "owner2" := by decide
  rw [@ReadAsset_present Stub.reliable _ rfl _ _
      ((lookup_store_ne hne _ _).trans (lookup_store_self _ _ _)),
    UnmarshalCertificate_encodeCertificate_utf8]

/-! ## Seeding and enumeration -/

theorem putStateErr_of_InitLedger {stub : Stub} {w : WorldState}
    (hok : (InitLedger stub w).1 = none) :
    stub.putStateErr (seed1.ID ++ seed1.Owner) = none
      ∧ stub.putStateErr (seed2.ID ++ seed2.Owner) = none
      ∧ stub.putStateErr (seed3.ID ++ seed3.Owner) = none
      ∧ stub.putStateErr (seed4.ID ++ seed4.Owner) = none := by
  cases h1 : stub.putStateErr (seed1.ID ++ seed1.Owner) with
  | some cause =>
    simp [InitLedger, initLoop, seedAssets, MarshalCertificate, PutState, h1] at hok
  | none =>
    cases h2 : stub.putStateErr (seed2.ID ++ seed2.Owner) with
    | some cause =>
      simp [InitLedger, initLoop, seedAssets, MarshalCertificate, PutState, h1, h2] at hok
    | none =>
      cases h3 : stub.putStateErr (seed3.ID ++ seed3.Owner) with
      | some cause =>
        simp [InitLedger, initLoop, seedAssets, MarshalCertificate, PutState, h1, h2, h3] at hok
      | none =>
        cases h4 : stub.putStateErr (seed4.ID ++ seed4.Owner) with
        | some cause =>
          simp [InitLedger, initLoop, seedAssets, MarshalCertificate, PutState, h1, h2, h3,
            h4] at hok
        | none => exact ⟨rfl, rfl, rfl, rfl⟩

theorem InitLedger_state {stub : Stub} (hok : (InitLedger stub []).1 = none) :
    (InitLedger stub []).2
      = [(seed3.ID ++ seed3.Owner, encodeCertificate seed3),
          (seed1.ID ++ seed1.Owner, encodeCertificate seed1),
          (seed2.ID ++ seed2.Owner, encodeCertificate seed2),
          (seed4.ID ++ seed4.Owner, encodeCertificate seed4)] := by
  obtain ⟨h1, h2, h3, h4⟩ := putStateErr_of_InitLedger hok
  have e21 : ¬ seed1.ID ++ seed1.Owner = seed2.ID ++ seed2.Owner := by decide
  have e31 : ¬ seed1.ID ++ seed1.Owner = seed3.ID ++ seed3.Owner := by decide
  have e32 : ¬ seed2.ID ++ seed2.Owner = seed3.ID ++ seed3.Owner := by decide
  have e41 : ¬ seed1.ID ++ seed1.Owner = seed4.ID ++ seed4.Owner := by decide
  have e42 : ¬ seed2.ID ++ seed2.Owner = seed4.ID ++ seed4.Owner := by decide
  have e43 : ¬ seed3.ID ++ seed3.Owner = seed4.ID ++ seed4.Owner := by decide
  have l21 : keyLt (seed2.ID ++ seed2.Owner) (seed1.ID ++ seed1.Owner) = false := by decide
  have l31 : keyLt (seed3.ID ++ seed3.Owner) (seed1.ID ++ seed1.Owner) = true := by decide
  have l43 : keyLt (seed4.ID ++ seed4.Owner) (seed3.ID ++ seed3.Owner) = false := by decide
  have l41 : keyLt (seed4.ID ++ seed4.Owner) (seed1.ID ++ seed1.Owner) = false := by decide
  have l42 : keyLt (seed4.ID ++ seed4.Owner) (seed2.ID ++ seed2.Owner) = false := by decide
  simp only [InitLedger, initLoop, seedAssets, MarshalCertificate, PutState, h1, h2, h3, h4,
    store, remove, insertSorted, e21, e31, e32, e41, e42, e43, l21, l31, l43, l41, l42,
    if_true, if_false, Bool.false_eq_true]

/-- C4, on the code: `InitLedger` on the empty world state returns no error, and
afterwards, for each of the four seed records, `AssetExists` of the record's
id returns false and `ReadAsset` of it fails with
`the asset <id> does not exist`: the records were written at the keys
`ID + Owner`, which are not the keys `AssetExists`, `ReadAsset` and
`DeleteAsset` address. -/
theorem initLedger_seed_ids_absent :
    (InitLedger Stub.reliable []).1 = none
      ∧ ∀ seed ∈ seedAssets,
        lookup (seed.ID ++ seed.Owner) (InitLedger Stub.reliable []).2
            = some (encodeCertificate seed)
          ∧ (AssetExists Stub.reliable seed.ID (InitLedger Stub.reliable []).2).1 = .ok false
          ∧ (ReadAsset Stub.reliable seed.ID (InitLedger Stub.reliable []).2).1
            = .error (.text (utf8 "the asset " ++ seed.ID ++ utf8 " does not exist")) := by
  have hok : (InitLedger Stub.reliable []).1 = none := rfl
  refine ⟨hok, ?_⟩
  rw [InitLedger_state hok]
  have key : ∀ seed ∈ seedAssets,
      lookup (seed.ID ++ seed.Owner)
          [(seed3.ID ++ seed3.Owner, encodeCertificate seed3),
            (seed1.ID ++ seed1.Owner, encodeCertificate seed1),
            (seed2.ID ++ seed2.Owner, encodeCertificate seed2),
            (seed4.ID ++ seed4.Owner, encodeCertificate seed4)] = some (encodeCertificate seed)
        ∧ lookup seed.ID
          [(seed3.ID ++ seed3.Owner, encodeCertificate seed3),
            (seed1.ID ++ seed1.Owner, encodeCertificate seed1),
            (seed2.ID ++ seed2.Owner, encodeCertificate seed2),
            (seed4.ID ++ seed4.Owner, encodeCertificate seed4)] = none := by
    intro seed hs
    simp only [seedAssets, List.mem_cons, List.mem_singleton, List.not_mem_nil, or_false] at hs
    rcases hs with rfl | rfl | rfl | rfl <;> exact ⟨rfl, by decide⟩
  intro seed hs
  obtain ⟨hk, hid⟩ := key seed hs
  refine ⟨hk, ?_, ?_⟩
  · rw [@AssetExists_eq Stub.reliable _ rfl, hid]; rfl
  · rw [@ReadAsset_absent Stub.reliable _ rfl _ hid]

theorem collectAssets_encoded {stub : Stub} (hnext : ∀ i, stub.nextErr i = none)
    (keyOf : Certificate → GoString) :
    ∀ (cs : List Certificate) (i : Nat) (acc : List Certificate),
      collectAssets stub i (cs.map (encodedEntry keyOf)) acc
        = .ok (acc ++ cs.map Certificate.coerce) := by
  intro cs
  induction cs with
  | nil => intro i acc; simp [collectAssets]
  | cons c cs ih =>
    intro i acc
    simp only [List.map_cons, collectAssets, hnext, encodedEntry,
      UnmarshalCertificate_encodeCertificate]
    have := ih (i + 1) (acc ++ [c.coerce])
    simp only [encodedEntry] at this
    rw [this]
    simp

/-- A full scan over encoded records returns each record with its strings
coerced to valid UTF-8. -/
theorem GetAllAssets_encoded {stub : Stub} (hrange : stub.rangeErr = none)
    (hnext : ∀ i, stub.nextErr i = none) (keyOf : Certificate → GoString)
    (cs : List Certificate) :
    GetAllAssets stub (cs.map (encodedEntry keyOf))
      = (.ok (cs.map Certificate.coerce), cs.map (encodedEntry keyOf)) := by
  have h := collectAssets_encoded hnext keyOf cs 0 []
  simp [GetAllAssets, GetStateByRange, hrange, h]

/-- C10: when `InitLedger` has succeeded on the empty world state and the range
scan works, `GetAllAssets` succeeds and returns exactly four certificates,
the four seed records up to order, among them the record with ID
`8989s1gjJJHJKHJSGHJDJSAD871238S` and Owner `Tomoko Janra`. -/
theorem initLedger_then_getAllAssets (stub : Stub) (hok : (InitLedger stub []).1 = none)
    (hrange : stub.rangeErr = none) (hnext : ∀ i, stub.nextErr i = none) :
    ∃ assets, (GetAllAssets stub (InitLedger stub []).2).1 = .ok assets
      ∧ assets.length = 4
      ∧ assets.Perm seedAssets
      ∧ ∃ a ∈ assets, a.ID = utf8 "8989s1gjJJHJKHJSGHJDJSAD871238S"
          ∧ a.Owner = utf8 "Tomoko Janra" := by
  refine ⟨[seed3, seed1, seed2, seed4], ?_, rfl, ?_, seed1, by simp, rfl, rfl⟩
  · rw [InitLedger_state hok]
    have hv : ∀ c ∈ [seed3, seed1, seed2, seed4], c.Valid := by
      intro c hc
      simp only [List.mem_cons, List.mem_singleton, List.not_mem_nil, or_false] at hc
      rcases hc with rfl | rfl | rfl | rfl
      · exact seed3_valid
      · exact seed1_valid
      · exact seed2_valid
      · exact seed4_valid
    have h := GetAllAssets_encoded hrange hnext (fun c => c.ID ++ c.Owner)
      [seed3, seed1, seed2, seed4]
    rw [map_coerce_of_valid hv] at h
    exact congrArg Prod.fst h
  · exact (List.Perm.swap seed1 seed3 _).trans
      ((List.perm_cons seed1).2 (List.Perm.swap seed2 seed3 _))

theorem initLedger_then_getAllAssets_witness :
    ∃ assets, (GetAllAssets Stub.reliable (InitLedger Stub.reliable []).2).1 = .ok assets
      ∧ assets.length = 4
      ∧ assets.Perm seedAssets
      ∧ ∃ a ∈ assets, a.ID = utf8 "8989s1gjJJHJKHJSGHJDJSAD871238S"
          ∧ a.Owner = utf8 "Tomoko Janra" :=
  initLedger_then_getAllAssets Stub.reliable rfl rfl (fun _ => rfl)

theorem insertSorted_encoded (keyOf : Certificate → GoString) (c : Certificate) :
    ∀ cs : List Certificate, ∃ cs' : List Certificate, cs'.Perm (c :: cs)
      ∧ insertSorted (keyOf c) (encodeCertificate c) (cs.map (encodedEntry keyOf))
        = cs'.map (encodedEntry keyOf) := by
  intro cs
  induction cs with
  | nil => exact ⟨[c], List.Perm.refl _, rfl⟩
  | cons b cs ih =>
    obtain ⟨cs', hperm, heq⟩ := ih
    by_cases hlt : keyLt (keyOf c) (keyOf b) = true
    · exact ⟨c :: b :: cs, List.Perm.refl _, by simp [insertSorted, encodedEntry, hlt]⟩
    · refine ⟨b :: cs', ((List.perm_cons b).2 hperm).trans (List.Perm.swap _ _ _), ?_⟩
      simp only [List.map_cons, encodedEntry, insertSorted, hlt] at heq ⊢
      rw [if_neg (by simp), heq]

theorem createAll_cons (stub : Stub) (a : CreateArgs) (rest : List CreateArgs)
    (w : WorldState) :
    createAll stub (a :: rest) w =
      match (CreateAsset stub a.id a.photo a.title a.artist a.owner a.yearOfProduction w).1 with
      | none => createAll stub rest
          (CreateAsset stub a.id a.photo a.title a.artist a.owner a.yearOfProduction w).2
      | some _ => none := by
  simp only [createAll]
  rcases CreateAsset stub a.id a.photo a.title a.artist a.owner a.yearOfProduction w
    with ⟨_ | e, w1⟩ <;> rfl

theorem createAll_state (stub : Stub) :
    ∀ (calls : List CreateArgs) (cs0 : List Certificate) (w : WorldState),
      createAll stub calls (cs0.map (encodedEntry Certificate.ID)) = some w →
      ∃ cs : List Certificate, cs.Perm (calls.map CreateArgs.toCertificate ++ cs0)
        ∧ w = cs.map (encodedEntry Certificate.ID) := by
  intro calls
  induction calls with
  | nil =>
    intro cs0 w h
    simp only [createAll, Option.some.injEq] at h
    exact ⟨cs0, by simp, h.symm⟩
  | cons a rest ih =>
    intro cs0 w h
    rw [createAll_cons] at h
    cases hc : (CreateAsset stub a.id a.photo a.title a.artist a.owner a.yearOfProduction
        (cs0.map (encodedEntry Certificate.ID))).1 with
    | some err => rw [hc] at h; cases h
    | none =>
      rw [hc] at h
      obtain ⟨-, hl, -⟩ := getStateErr_of_CreateAsset hc
      have hst := CreateAsset_state hc
      rw [store, remove_of_lookup_none hl] at hst
      obtain ⟨cs1, hperm1, heq1⟩ :=
        insertSorted_encoded Certificate.ID a.toCertificate cs0
      have hst' : (CreateAsset stub a.id a.photo a.title a.artist a.owner a.yearOfProduction
          (cs0.map (encodedEntry Certificate.ID))).2 = cs1.map (encodedEntry Certificate.ID) :=
        hst.trans heq1
      rw [hst'] at h
      obtain ⟨cs, hperm, hw⟩ := ih cs1 w h
      refine ⟨cs, hperm.trans ?_, hw⟩
      simp only [List.map_cons, List.cons_append]
      exact (List.Perm.append_left _ hperm1).trans List.perm_middle

/-- C9, amended: after a sequence of `CreateAsset` calls with pairwise distinct
ids, all successful, starting from the empty world state, and with the range
scan working, `GetAllAssets` succeeds and returns as many certificates as
there were calls: up to order, the records the calls created with every
string coerced to valid UTF-8 (each byte that belongs to no valid encoding
replaced by the encoding of U+FFFD); when every string of every call is valid
UTF-8 these are, up to order, exactly the records created, field for field. -/
theorem getAllAssets_after_creates (stub : Stub) (calls : List CreateArgs) (w : WorldState)
    (_hdistinct : (calls.map CreateArgs.id).Nodup)
    (hok : createAll stub calls [] = some w)
    (hrange : stub.rangeErr = none) (hnext : ∀ i, stub.nextErr i = none) :
    ∃ assets, GetAllAssets stub w = (.ok assets, w)
      ∧ assets.length = calls.length
      ∧ assets.Perm (calls.map (fun a => a.toCertificate.coerce))
      ∧ ((∀ a ∈ calls, a.toCertificate.Valid)
        → assets.Perm (calls.map CreateArgs.toCertificate)) := by
  obtain ⟨cs, hperm, hw⟩ := createAll_state stub calls [] w hok
  rw [List.append_nil] at hperm
  have hp : (cs.map Certificate.coerce).Perm (calls.map (fun a => a.toCertificate.coerce)) := by
    have h := hperm.map Certificate.coerce
    rw [List.map_map] at h
    exact h
  refine ⟨cs.map Certificate.coerce, ?_, ?_, hp, ?_⟩
  · rw [hw]; exact GetAllAssets_encoded hrange hnext _ cs
  · rw [List.length_map, hperm.length_eq, List.length_map]
  · intro hv
    have hc : ∀ c ∈ cs, c.Valid := by
      intro c hc
      obtain ⟨a, ha, rfl⟩ := List.mem_map.1 (hperm.mem_iff.1 hc)
      exact hv a ha
    rw [map_coerce_of_valid hc]
    exact hperm

theorem getAllAssets_after_creates_witness :
    ∃ assets,
      GetAllAssets Stub.reliable
          (store (utf8 "A") (encodeCertificate ⟨utf8 "A", utf8 "photo_a", utf8 "title_a",
              utf8 "owner2", ⟨1977, by decide⟩,
                  ⟨utf8 "id-2", utf8 "Mayer Labor", utf8 "17.11.1971"⟩⟩)
            (store (utf8 "B") (encodeCertificate ⟨utf8 "B", utf8 "photo_b", utf8 "title_b",
              utf8 "owner1", ⟨1962, by decide⟩,
              ⟨utf8 "id-1", utf8 "Tomoko Janra", utf8 "20.11.1980"⟩⟩) []))
        = (.ok assets,
          store (utf8 "A") (encodeCertificate ⟨utf8 "A", utf8 "photo_a", utf8 "title_a",
              utf8 "owner2", ⟨1977, by decide⟩,
                  ⟨utf8 "id-2", utf8 "Mayer Labor", utf8 "17.11.1971"⟩⟩)
            (store (utf8 "B") (encodeCertificate ⟨utf8 "B", utf8 "photo_b", utf8 "title_b",
              utf8 "owner1", ⟨1962, by decide⟩,
              ⟨utf8 "id-1", utf8 "Tomoko Janra", utf8 "20.11.1980"⟩⟩) []))
      ∧ assets.length = 2
      ∧ assets.Perm
          [⟨utf8 "B", utf8 "photo_b", utf8 "title_b", utf8 "owner1", ⟨1962, by decide⟩,
              ⟨utf8 "id-1", utf8 "Tomoko Janra", utf8 "20.11.1980"⟩⟩,
            ⟨utf8 "A", utf8 "photo_a", utf8 "title_a", utf8 "owner2", ⟨1977, by decide⟩,
              ⟨utf8 "id-2", utf8 "Mayer Labor", utf8 "17.11.1971"⟩⟩] := by
  obtain ⟨assets, h1, h2, -, h4⟩ := getAllAssets_after_creates Stub.reliable
    [⟨utf8 "B", utf8 "photo_b", utf8 "title_b",
        ⟨utf8 "id-1", utf8 "Tomoko Janra", utf8 "20.11.1980"⟩, utf8 "owner1", ⟨1962, by decide⟩⟩,
      ⟨utf8 "A", utf8 "photo_a", utf8 "title_a",
        ⟨utf8 "id-2", utf8 "Mayer Labor", utf8 "17.11.1971"⟩, utf8 "owner2", ⟨1977, by decide⟩⟩]
    _ (by decide) rfl rfl (fun _ => rfl)
  refine ⟨assets, h1, h2, h4 ?_⟩
  intro a ha
  simp only [List.mem_cons, List.mem_singleton, List.not_mem_nil, or_false] at ha
  rcases ha with rfl | rfl <;> exact Certificate.valid_utf8 _ _ _ _ _ _ _ _

/-- C9, as claimed, fails: one `CreateAsset` call with the title `bad`, the byte
`0xFF`, `byte` succeeds on the empty world state, and `GetAllAssets` then
returns one certificate, whose title has the three bytes of U+FFFD in place of
`0xFF`: not the record created. -/
theorem getAllAssets_after_creates_counterexample :
    ∃ w, createAll Stub.reliable
          [⟨utf8 "A", utf8 "photo_uri", utf8 "bad" ++ [0xFF] ++ utf8 "byte",
            ⟨utf8 "id-13894047849", utf8 "Tomoko Janra", utf8 "20.11.1980"⟩, utf8 "owner1",
            ⟨1962, by decide⟩⟩] [] = some w
      ∧ GetAllAssets Stub.reliable w
        = (.ok [⟨utf8 "A", utf8 "photo_uri", utf8 "bad" ++ [0xEF, 0xBF, 0xBD] ++ utf8 "byte",
            utf8 "owner1", ⟨1962, by decide⟩,
            ⟨utf8 "id-13894047849", utf8 "Tomoko Janra", utf8 "20.11.1980"⟩⟩], w)
      ∧ ¬ List.Perm
          [(⟨utf8 "A", utf8 "photo_uri", utf8 "bad" ++ [0xEF, 0xBF, 0xBD] ++ utf8 "byte",
            utf8 "owner1", ⟨1962, by decide⟩,
            ⟨utf8 "id-13894047849", utf8 "Tomoko Janra", utf8 "20.11.1980"⟩⟩ : Certificate)]
          [⟨utf8 "A", utf8 "photo_uri", utf8 "bad" ++ [0xFF] ++ utf8 "byte",
            utf8 "owner1", ⟨1962, by decide⟩,
            ⟨utf8 "id-13894047849", utf8 "Tomoko Janra", utf8 "20.11.1980"⟩⟩] := by
  have ht : coerceUTF8 (utf8 "bad" ++ [0xFF] ++ utf8 "byte")
      = utf8 "bad" ++ [0xEF, 0xBF, 0xBD] ++ utf8 "byte" := by decide
  have hne : utf8 "bad" ++ [0xEF, 0xBF, 0xBD] ++ utf8 "byte"
      ≠ utf8 "bad" ++ [0xFF] ++ utf8 "byte" := by decide
  have hg := @GetAllAssets_encoded Stub.reliable rfl (fun _ => rfl) Certificate.ID
    [⟨utf8 "A", utf8 "photo_uri", utf8 "bad" ++ [0xFF] ++ utf8 "byte", utf8 "owner1",
      ⟨1962, by decide⟩, ⟨utf8 "id-13894047849", utf8 "Tomoko Janra", utf8 "20.11.1980"⟩⟩]
  simp only [List.map_cons, List.map_nil, Certificate.coerce, Artist.coerce, coerceUTF8_utf8,
    ht] at hg
  refine ⟨_, rfl, hg, ?_⟩
  intro hperm
  have h := List.perm_singleton.1 hperm
  exact hne (congrArg Certificate.Title (List.cons.inj h).1)

/-! ## The order of keys -/

theorem bytesLt_irrefl (a : List Nat) : bytesLt a a = false := by
  induction a with
  | nil => rfl
  | cons c cs ih => simp [bytesLt, ih]

theorem bytesLt_trans : ∀ (a b c : List Nat),
    bytesLt a b = true → bytesLt b c = true → bytesLt a c = true := by
  intro a
  induction a with
  | nil =>
    intro b c hab hbc
    cases b with
    | nil => simp [bytesLt] at hab
    | cons y ys =>
      cases c with
      | nil => simp [bytesLt] at hbc
      | cons z zs => simp [bytesLt]
  | cons x xs ih =>
    intro b c hab hbc
    cases b with
    | nil => simp [bytesLt] at hab
    | cons y ys =>
      cases c with
      | nil => simp [bytesLt] at hbc
      | cons z zs =>
        simp only [bytesLt] at hab hbc ⊢
        by_cases hxy : x < y
        · by_cases hyz : y < z
          · have : x < z := by omega
            simp [this]
          · by_cases hzy : z < y
            · simp [hyz, hzy] at hbc
            · have : x < z := by omega
              simp [this]
        · by_cases hyx : y < x
          · simp [hxy, hyx] at hab
          · simp only [hxy, hyx, if_false] at hab
            by_cases hyz : y < z
            · have : x < z := by omega
              simp [this]
            · by_cases hzy : z < y
              · simp [hyz, hzy] at hbc
              · simp only [hyz, hzy, if_false] at hbc
                have h1 : ¬ x < z := by omega
                have h2 : ¬ z < x := by omega
                simp only [h1, h2, if_false]
                exact ih ys zs hab hbc

theorem bytesLt_total : ∀ (a b : List Nat),
    bytesLt a b = false → bytesLt b a = false → a = b := by
  intro a
  induction a with
  | nil =>
    intro b hab _
    cases b with
    | nil => rfl
    | cons y ys => simp [bytesLt] at hab
  | cons x xs ih =>
    intro b hab hba
    cases b with
    | nil => simp [bytesLt] at hba
    | cons y ys =>
      simp only [bytesLt] at hab hba
      by_cases hxy : x < y
      · simp [hxy] at hab
      · by_cases hyx : y < x
        · simp [hyx] at hba
        · simp only [hxy, hyx, if_false] at hab hba
          have hc : x = y := by omega
          rw [hc, ih ys hab hba]

theorem keyLt_irrefl (a : GoString) : keyLt a a = false := bytesLt_irrefl _

theorem keyLt_trans {a b c : GoString} (hab : keyLt a b = true) (hbc : keyLt b c = true) :
    keyLt a c = true := bytesLt_trans _ _ _ hab hbc

theorem keyLt_total {a b : GoString} (hab : keyLt a b = false) (hba : keyLt b a = false) :
    a = b := bytesLt_total _ _ hab hba

/-! ## World states in key order -/

theorem mem_remove {key : GoString} {e : GoString × Bytes} :
    ∀ {w : WorldState}, e ∈ remove key w → e ∈ w := by
  intro w
  induction w with
  | nil => intro h; exact h
  | cons x rest ih =>
    obtain ⟨k, v⟩ := x
    intro h
    by_cases hk : k = key
    · simp only [remove, hk, if_true] at h
      exact List.mem_cons_of_mem _ (ih h)
    · simp only [remove, hk, if_false, List.mem_cons] at h
      rcases h with h | h
      · exact h ▸ List.mem_cons_self _ _
      · exact List.mem_cons_of_mem _ (ih h)

theorem Ordered_remove (key : GoString) {w : WorldState} (hw : Ordered w) :
    Ordered (remove key w) := by
  induction w with
  | nil => exact hw
  | cons x rest ih =>
    obtain ⟨k, v⟩ := x
    have hw' := List.pairwise_cons.1 hw
    by_cases hk : k = key
    · simp only [remove, hk, if_true]
      exact ih hw'.2
    · simp only [remove, hk, if_false]
      exact List.pairwise_cons.2 ⟨fun b hb => hw'.1 b (mem_remove hb), ih hw'.2⟩

theorem mem_of_lookup {key : GoString} {value : Bytes} :
    ∀ {w : WorldState}, lookup key w = some value → (key, value) ∈ w := by
  intro w
  induction w with
  | nil => intro h; simp [lookup] at h
  | cons x rest ih =>
    obtain ⟨k, v⟩ := x
    intro h
    by_cases hk : k = key
    · simp only [lookup, hk, if_true, Option.some.injEq] at h
      rw [hk, h]
      exact List.mem_cons_self _ _
    · simp only [lookup, hk, if_false] at h
      exact List.mem_cons_of_mem _ (ih h)

theorem lookup_none_of_lt {key : GoString} :
    ∀ {w : WorldState}, (∀ b ∈ w, keyLt key b.1 = true) → lookup key w = none := by
  intro w
  induction w with
  | nil => intro _; rfl
  | cons x rest ih =>
    obtain ⟨k, v⟩ := x
    intro h
    have hk : ¬ k = key := by
      intro heq
      have := h (k, v) (List.mem_cons_self _ _)
      rw [heq] at this
      simp [keyLt_irrefl] at this
    simp only [lookup, hk, if_false]
    exact ih (fun b hb => h b (List.mem_cons_of_mem _ hb))

theorem Ordered_insertSorted (key : GoString) (value : Bytes) :
    ∀ {w : WorldState}, Ordered w → lookup key w = none →
      Ordered (insertSorted key value w) := by
  intro w
  induction w with
  | nil => intro _ _; exact List.pairwise_singleton _ _
  | cons x rest ih =>
    obtain ⟨k, v⟩ := x
    intro hw hl
    have hw' := List.pairwise_cons.1 hw
    have hk : ¬ k = key := by
      intro heq; simp [lookup, heq] at hl
    simp only [lookup, hk, if_false] at hl
    by_cases hlt : keyLt key k = true
    · simp only [insertSorted, hlt, if_true]
      refine List.pairwise_cons.2 ⟨?_, hw⟩
      intro b hb
      rcases List.mem_cons.1 hb with hb | hb
      · rw [hb]; exact hlt
      · exact keyLt_trans hlt (hw'.1 b hb)
    · simp only [insertSorted, hlt]
      refine List.pairwise_cons.2 ⟨?_, ih hw'.2 hl⟩
      intro b hb
      have hb' := (insertSorted_perm key value rest).mem_iff.1 hb
      rcases List.mem_cons.1 hb' with hb' | hb'
      · rw [hb']
        cases hkk : keyLt k key with
        | true => rfl
        | false =>
          have hf : keyLt key k = false := by
            cases h : keyLt key k with
            | true => exact absurd h hlt
            | false => rfl
          exact absurd (keyLt_total hkk hf) hk
      · exact hw'.1 b hb'

theorem Ordered_store (key : GoString) (value : Bytes) {w : WorldState} (hw : Ordered w) :
    Ordered (store key value w) :=
  Ordered_insertSorted key value (Ordered_remove key hw) (lookup_remove_self key w)

theorem store_of_lookup {key : GoString} {value : Bytes} :
    ∀ {w : WorldState}, Ordered w → lookup key w = some value → store key value w = w := by
  intro w
  induction w with
  | nil => intro _ h; simp [lookup] at h
  | cons x rest ih =>
    obtain ⟨k, v⟩ := x
    intro hw hl
    have hw' := List.pairwise_cons.1 hw
    by_cases hk : k = key
    · subst hk
      simp only [lookup, if_true, Option.some.injEq] at hl
      subst hl
      have hnone : lookup k rest = none := lookup_none_of_lt hw'.1
      simp only [store, remove, if_true, remove_of_lookup_none hnone]
      cases rest with
      | nil => rfl
      | cons y ys =>
        have := hw'.1 y (List.mem_cons_self _ _)
        simp only [insertSorted, this, if_true]
    · simp only [lookup, hk, if_false] at hl
      have hlt : keyLt k key = true := hw'.1 _ (mem_of_lookup hl)
      have hnlt : ¬ keyLt key k = true := by
        intro h
        have := keyLt_trans hlt h
        simp [keyLt_irrefl] at this
      have ih' := ih hw'.2 hl
      simp only [store] at ih' ⊢
      simp only [remove, hk, if_false, insertSorted, hnlt, ih']
      simp

/-! ## The writes of `InitLedger` -/

theorem initLoop_ok (stub : Stub) :
    ∀ (cs : List Certificate) (w : WorldState),
      (∀ c ∈ cs, stub.putStateErr (c.ID ++ c.Owner) = none) →
      initLoop stub cs w = (none, afterWrites cs w) := by
  intro cs
  induction cs with
  | nil => intro w _; rfl
  | cons c rest ih =>
    intro w h
    have hc := h c (List.mem_cons_self _ _)
    simp only [initLoop, MarshalCertificate, PutState, hc, afterWrites]
    exact ih _ (fun d hd => h d (List.mem_cons_of_mem _ hd))

theorem initLoop_fail_at (stub : Stub) {a : Certificate} {e : GoString}
    (ha : stub.putStateErr (a.ID ++ a.Owner) = some e) :
    ∀ (cs : List Certificate) (k : Nat) (w : WorldState), cs[k]? = some a →
      (∀ c ∈ cs.take k, stub.putStateErr (c.ID ++ c.Owner) = none) →
      initLoop stub cs w
        = (some (.text (utf8 "failed to put to world state. " ++ e)), afterWrites (cs.take k) w)
            := by
  intro cs
  induction cs with
  | nil => intro k w hget _; simp at hget
  | cons c rest ih =>
    intro k w hget hpre
    cases k with
    | zero =>
      simp only [List.getElem?_cons_zero, Option.some.injEq] at hget
      subst hget
      simp only [initLoop, MarshalCertificate, PutState, ha, List.take_zero, afterWrites]
    | succ k =>
      simp only [List.getElem?_cons_succ] at hget
      simp only [List.take_succ_cons] at hpre ⊢
      have hc := hpre c (List.mem_cons_self _ _)
      simp only [initLoop, MarshalCertificate, PutState, hc, afterWrites]
      exact ih k _ hget (fun d hd => hpre d (List.mem_cons_of_mem _ hd))

theorem lookup_afterWrites_of_not_mem {key : GoString} :
    ∀ (cs : List Certificate) (w : WorldState), (∀ c ∈ cs, key ≠ c.ID ++ c.Owner) →
      lookup key (afterWrites cs w) = lookup key w := by
  intro cs
  induction cs with
  | nil => intro w _; rfl
  | cons c rest ih =>
    intro w h
    simp only [afterWrites]
    rw [ih _ (fun d hd => h d (List.mem_cons_of_mem _ hd)),
      lookup_store_ne (h c (List.mem_cons_self _ _))]

theorem lookup_afterWrites_of_mem :
    ∀ (cs : List Certificate) (w : WorldState),
      (cs.map (fun c => c.ID ++ c.Owner)).Nodup →
      ∀ c ∈ cs, lookup (c.ID ++ c.Owner) (afterWrites cs w) = some (encodeCertificate c) := by
  intro cs
  induction cs with
  | nil => intro w _ c hc; simp at hc
  | cons d rest ih =>
    intro w hnd c hc
    simp only [List.map_cons, List.nodup_cons, List.mem_map, not_exists, not_and] at hnd
    simp only [afterWrites]
    rcases List.mem_cons.1 hc with hc | hc
    · subst hc
      rw [lookup_afterWrites_of_not_mem rest _ (fun x hx heq => hnd.1 x hx heq.symm),
        lookup_store_self]
    · exact ih _ hnd.2 c hc

theorem Ordered_afterWrites :
    ∀ (cs : List Certificate) {w : WorldState}, Ordered w → Ordered (afterWrites cs w) := by
  intro cs
  induction cs with
  | nil => intro w hw; exact hw
  | cons c rest ih => intro w hw; exact ih (Ordered_store _ _ hw)

theorem afterWrites_of_lookup :
    ∀ (cs : List Certificate) {w : WorldState}, Ordered w →
      (∀ c ∈ cs, lookup (c.ID ++ c.Owner) w = some (encodeCertificate c)) →
      afterWrites cs w = w := by
  intro cs
  induction cs with
  | nil => intro w _ _; rfl
  | cons c rest ih =>
    intro w hw h
    simp only [afterWrites]
    rw [store_of_lookup hw (h c (List.mem_cons_self _ _))]
    exact ih hw (fun d hd => h d (List.mem_cons_of_mem _ hd))

theorem seedKeys_nodup : (seedAssets.map (fun c => c.ID ++ c.Owner)).Nodup := by
  decide

theorem take_drop_keys_ne {cs : List Certificate}
    (hnd : (cs.map (fun c => c.ID ++ c.Owner)).Nodup) (k : Nat) :
    ∀ c ∈ cs.drop k, ∀ d ∈ cs.take k, c.ID ++ c.Owner ≠ d.ID ++ d.Owner := by
  intro c hc d hd heq
  rw [← List.take_append_drop k cs, List.map_append] at hnd
  have hdis := (List.nodup_append.1 hnd).2.2
  exact hdis (List.mem_map.2 ⟨d, hd, rfl⟩) (List.mem_map.2 ⟨c, hc, heq⟩)

/-- C11: `InitLedger` returns no error when every seed write works. When the write
of the seed at position `k` (counted from 0) is the first to fail, with cause
`e`, it returns the error `failed to put to world state. <e>` and leaves the
world state that the writes of the seeds before `k` alone produce, whatever
the remaining writes would have done: the seeds before `k` are in it, and the
keys of the seed at `k` and of those after it hold what they held before. -/
theorem initLedger_write_outcomes (stub : Stub) (w : WorldState) :
    ((∀ c ∈ seedAssets, stub.putStateErr (c.ID ++ c.Owner) = none) →
        InitLedger stub w = (none, afterWrites seedAssets w))
      ∧ ∀ (k : Nat) (a : Certificate) (e : GoString), seedAssets[k]? = some a →
        (∀ c ∈ seedAssets.take k, stub.putStateErr (c.ID ++ c.Owner) = none) →
        stub.putStateErr (a.ID ++ a.Owner) = some e →
        InitLedger stub w
            = (some (.text (utf8 "failed to put to world state. " ++ e)),
                afterWrites (seedAssets.take k) w)
          ∧ (∀ c ∈ seedAssets.take k,
              lookup (c.ID ++ c.Owner) (InitLedger stub w).2 = some (encodeCertificate c))
          ∧ (∀ c ∈ seedAssets.drop k,
              lookup (c.ID ++ c.Owner) (InitLedger stub w).2 = lookup (c.ID ++ c.Owner) w) := by
  refine ⟨fun h => initLoop_ok stub seedAssets w h, ?_⟩
  intro k a e hget hpre ha
  have hrun : InitLedger stub w
      = (some (.text (utf8 "failed to put to world state. " ++ e)),
          afterWrites (seedAssets.take k) w) :=
    initLoop_fail_at stub ha seedAssets k w hget hpre
  refine ⟨hrun, ?_, ?_⟩
  · intro c hc
    rw [hrun]
    have hnd : ((seedAssets.take k).map (fun c => c.ID ++ c.Owner)).Nodup := by
      exact seedKeys_nodup.sublist ((List.take_sublist _ _).map _)
    exact lookup_afterWrites_of_mem _ w hnd c hc
  · intro c hc
    rw [hrun]
    exact lookup_afterWrites_of_not_mem _ w (take_drop_keys_ne seedKeys_nodup k c hc)

theorem initLedger_write_outcomes_witness :
    InitLedger ⟨fun _ => none,
        fun key => if key = seed3.ID ++ seed3.Owner then some (utf8 "failed inserting key") else
            none,
        fun _ => none, none, fun _ => none⟩ []
      = (some (.text (utf8 "failed to put to world state. " ++ utf8 "failed inserting key")),
          afterWrites [seed1, seed2] []) :=
  ((initLedger_write_outcomes ⟨fun _ => none,
      fun key => if key = seed3.ID ++ seed3.Owner then some (utf8 "failed inserting key") else none,
      fun _ => none, none, fun _ => none⟩ []).2 2 seed3 (utf8 "failed inserting key") rfl
    (by decide) (by decide)).1

theorem seedKeys_eq :
    seed1.ID ++ seed1.Owner = utf8 "8989s1gjJJHJKHJSGHJDJSAD871238STomoko Janra"
      ∧ seed2.ID ++ seed2.Owner = utf8 "HDFSJ52151511113GHJDJSAD8712389Eyas Jaber"
      ∧ seed3.ID ++ seed3.Owner = utf8 "34890DFASHJK148904KLOJKUKOP41IO4Sebastian Michel"
      ∧ seed4.ID ++ seed4.Owner = utf8 "JFKLHJKGHFAK87419FADSHJLgdf4hjaj1Monde Cardino" := by
  decide

/-- C17: with every seed write working, `InitLedger` succeeds on any world state
and leaves the key `8989s1gjJJHJKHJSGHJDJSAD871238STomoko Janra` holding the
encoding of the first seed, `HDFSJ52151511113GHJDJSAD8712389Eyas Jaber` that of
the second, `34890DFASHJK148904KLOJKUKOP41IO4Sebastian Michel` that of the
third and `JFKLHJKGHFAK87419FADSHJLgdf4hjaj1Monde Cardino` that of the fourth,
whatever was stored there before; these four keys are the keys `ID + Owner` of
the seed records, and every other key is left unchanged. Running `InitLedger`
a second time leaves every key holding what it held after the first run, and
on a world state in key order the second run returns the same result and the
very same world state as the first. -/
theorem initLedger_overwrites_idempotent (stub : Stub) (w : WorldState)
    (hput : ∀ c ∈ seedAssets, stub.putStateErr (c.ID ++ c.Owner) = none) :
    (InitLedger stub w).1 = none
      ∧ lookup (utf8 "8989s1gjJJHJKHJSGHJDJSAD871238STomoko Janra") (InitLedger stub w).2
          = some (encodeCertificate seed1)
      ∧ lookup (utf8 "HDFSJ52151511113GHJDJSAD8712389Eyas Jaber") (InitLedger stub w).2
          = some (encodeCertificate seed2)
      ∧ lookup (utf8 "34890DFASHJK148904KLOJKUKOP41IO4Sebastian Michel") (InitLedger stub w).2
          = some (encodeCertificate seed3)
      ∧ lookup (utf8 "JFKLHJKGHFAK87419FADSHJLgdf4hjaj1Monde Cardino") (InitLedger stub w).2
          = some (encodeCertificate seed4)
      ∧ seedAssets.map (fun c => c.ID ++ c.Owner)
          = [utf8 "8989s1gjJJHJKHJSGHJDJSAD871238STomoko Janra",
              utf8 "HDFSJ52151511113GHJDJSAD8712389Eyas Jaber",
              utf8 "34890DFASHJK148904KLOJKUKOP41IO4Sebastian Michel",
              utf8 "JFKLHJKGHFAK87419FADSHJLgdf4hjaj1Monde Cardino"]
      ∧ (∀ c ∈ seedAssets,
          lookup (c.ID ++ c.Owner) (InitLedger stub w).2 = some (encodeCertificate c))
      ∧ (∀ key, key ≠ utf8 "8989s1gjJJHJKHJSGHJDJSAD871238STomoko Janra" →
          key ≠ utf8 "HDFSJ52151511113GHJDJSAD8712389Eyas Jaber" →
          key ≠ utf8 "34890DFASHJK148904KLOJKUKOP41IO4Sebastian Michel" →
          key ≠ utf8 "JFKLHJKGHFAK87419FADSHJLgdf4hjaj1Monde Cardino" →
          lookup key (InitLedger stub w).2 = lookup key w)
      ∧ (∀ key, lookup key (InitLedger stub (InitLedger stub w).2).2
          = lookup key (InitLedger stub w).2)
      ∧ (Ordered w → InitLedger stub (InitLedger stub w).2 = InitLedger stub w) := by
  have hrun : ∀ w', InitLedger stub w' = (none, afterWrites seedAssets w') :=
    fun w' => initLoop_ok stub seedAssets w' hput
  obtain ⟨k1, k2, k3, k4⟩ := seedKeys_eq
  have hmem := lookup_afterWrites_of_mem seedAssets w seedKeys_nodup
  have h1 := hmem seed1 (by simp [seedAssets])
  have h2 := hmem seed2 (by simp [seedAssets])
  have h3 := hmem seed3 (by simp [seedAssets])
  have h4 := hmem seed4 (by simp [seedAssets])
  rw [k1] at h1
  rw [k2] at h2
  rw [k3] at h3
  rw [k4] at h4
  rw [hrun w]
  refine ⟨rfl, h1, h2, h3, h4, ?_, hmem, ?_, ?_, ?_⟩
  · simp only [seedAssets, List.map_cons, List.map_nil, k1, k2, k3, k4]
  · intro key n1 n2 n3 n4
    refine lookup_afterWrites_of_not_mem _ w ?_
    intro c hc
    simp only [seedAssets, List.mem_cons, List.mem_singleton, List.not_mem_nil,
      or_false] at hc
    rcases hc with rfl | rfl | rfl | rfl
    · rw [k1]; exact n1
    · rw [k2]; exact n2
    · rw [k3]; exact n3
    · rw [k4]; exact n4
  · intro key
    rw [hrun (afterWrites seedAssets w)]
    by_cases h : ∃ c ∈ seedAssets, key = c.ID ++ c.Owner
    · obtain ⟨c, hc, rfl⟩ := h
      rw [lookup_afterWrites_of_mem _ _ seedKeys_nodup c hc,
        lookup_afterWrites_of_mem _ _ seedKeys_nodup c hc]
    · have h' : ∀ c ∈ seedAssets, key ≠ c.ID ++ c.Owner :=
        fun c hc heq => h ⟨c, hc, heq⟩
      rw [lookup_afterWrites_of_not_mem _ _ h']
  · intro hw
    rw [hrun (afterWrites seedAssets w),
      afterWrites_of_lookup seedAssets (Ordered_afterWrites seedAssets hw)
        (lookup_afterWrites_of_mem _ w seedKeys_nodup)]

theorem initLedger_overwrites_idempotent_witness :
    lookup (utf8 "8989s1gjJJHJKHJSGHJDJSAD871238STomoko Janra")
        [(utf8 "8989s1gjJJHJKHJSGHJDJSAD871238STomoko Janra", ['o', 'l', 'd']),
          (utf8 "zebra", ['x'])]
        = some ['o', 'l', 'd']
      ∧ lookup (utf8 "8989s1gjJJHJKHJSGHJDJSAD871238STomoko Janra")
          (InitLedger Stub.reliable
            [(utf8 "8989s1gjJJHJKHJSGHJDJSAD871238STomoko Janra", ['o', 'l', 'd']),
              (utf8 "zebra", ['x'])]).2
        = some (encodeCertificate seed1)
      ∧ lookup (utf8 "JFKLHJKGHFAK87419FADSHJLgdf4hjaj1Monde Cardino")
          (InitLedger Stub.reliable
            [(utf8 "8989s1gjJJHJKHJSGHJDJSAD871238STomoko Janra", ['o', 'l', 'd']),
              (utf8 "zebra", ['x'])]).2
        = some (encodeCertificate seed4)
      ∧ lookup (utf8 "zebra")
          (InitLedger Stub.reliable
            [(utf8 "8989s1gjJJHJKHJSGHJDJSAD871238STomoko Janra", ['o', 'l', 'd']),
              (utf8 "zebra", ['x'])]).2
        = some ['x']
      ∧ InitLedger Stub.reliable
          (InitLedger Stub.reliable
            [(utf8 "8989s1gjJJHJKHJSGHJDJSAD871238STomoko Janra", ['o', 'l', 'd']),
              (utf8 "zebra", ['x'])]).2
        = InitLedger Stub.reliable
            [(utf8 "8989s1gjJJHJKHJSGHJDJSAD871238STomoko Janra", ['o', 'l', 'd']),
              (utf8 "zebra", ['x'])] :=
  ⟨by decide,
    (initLedger_overwrites_idempotent Stub.reliable
      [(utf8 "8989s1gjJJHJKHJSGHJDJSAD871238STomoko Janra", ['o', 'l', 'd']),
        (utf8 "zebra", ['x'])] (fun _ _ => rfl)).2.1,
    (initLedger_overwrites_idempotent Stub.reliable
      [(utf8 "8989s1gjJJHJKHJSGHJDJSAD871238STomoko Janra", ['o', 'l', 'd']),
        (utf8 "zebra", ['x'])] (fun _ _ => rfl)).2.2.2.2.1,
    ((initLedger_overwrites_idempotent Stub.reliable
      [(utf8 "8989s1gjJJHJKHJSGHJDJSAD871238STomoko Janra", ['o', 'l', 'd']),
        (utf8 "zebra", ['x'])] (fun _ _ => rfl)).2.2.2.2.2.2.2.1 (utf8 "zebra")
      (by decide) (by decide) (by decide) (by decide)).trans (by decide),
    (initLedger_overwrites_idempotent Stub.reliable
      [(utf8 "8989s1gjJJHJKHJSGHJDJSAD871238STomoko Janra", ['o', 'l', 'd']),
        (utf8 "zebra", ['x'])] (fun _ _ => rfl)).2.2.2.2.2.2.2.2.2 (by decide)⟩

/-! ## Enumeration over arbitrary stored values -/

theorem GetStateByRange_all {stub : Stub} {w : WorldState} {scan : List (GoString × Bytes)}
    (h : GetStateByRange stub [] [] w = .ok scan) : scan = w ∧ stub.rangeErr = none := by
  cases hr : stub.rangeErr with
  | some cause => simp [GetStateByRange, hr] at h
  | none =>
    simp [GetStateByRange, hr] at h
    exact ⟨h.symm, rfl⟩

theorem GetAllAssets_of_scan {stub : Stub} {w : WorldState} {scan : List (GoString × Bytes)}
    (h : GetStateByRange stub [] [] w = .ok scan) :
    GetAllAssets stub w = (collectAssets stub 0 scan [], w) := by
  simp only [GetAllAssets, h]

theorem collectAssets_decoded {stub : Stub} (hnext : ∀ i, stub.nextErr i = none) :
    ∀ (es : List (GoString × Bytes)) (cs : List Certificate),
      List.Forall₂ (fun e c => UnmarshalCertificate e.2 = .ok c) es cs →
      ∀ (i : Nat) (acc : List Certificate), collectAssets stub i es acc = .ok (acc ++ cs) := by
  intro es cs h
  induction h with
  | nil => intro i acc; simp [collectAssets]
  | cons hd _ ih =>
    intro i acc
    simp only [collectAssets, hnext, hd]
    rw [ih]
    simp

theorem collectAssets_first_bad {stub : Stub} (hnext : ∀ i, stub.nextErr i = none) :
    ∀ (es : List (GoString × Bytes)),
      (∃ e ∈ es, ∃ err, UnmarshalCertificate e.2 = .error err) →
      ∀ (i : Nat) (acc : List Certificate),
        ∃ e ∈ es, ∃ err, UnmarshalCertificate e.2 = .error err
          ∧ collectAssets stub i es acc = .error err := by
  intro es
  induction es with
  | nil => intro h; obtain ⟨e, he, -⟩ := h; simp at he
  | cons x rest ih =>
    intro h i acc
    cases hx : UnmarshalCertificate x.2 with
    | error err =>
      exact ⟨x, List.mem_cons_self _ _, err, hx, by simp only [collectAssets, hnext, hx]⟩
    | ok c =>
      have hrest : ∃ e ∈ rest, ∃ err, UnmarshalCertificate e.2 = .error err := by
        obtain ⟨e, he, err, herr⟩ := h
        rcases List.mem_cons.1 he with he | he
        · subst he; rw [hx] at herr; cases herr
        · exact ⟨e, he, err, herr⟩
      obtain ⟨e, he, err, herr, hrun⟩ := ih hrest (i + 1) (acc ++ [c])
      exact ⟨e, List.mem_cons_of_mem _ he, err, herr,
        by simp only [collectAssets, hnext, hx, hrun]⟩

theorem collectAssets_fails (stub : Stub) :
    ∀ (es : List (GoString × Bytes)),
      (∃ e ∈ es, ∃ err, UnmarshalCertificate e.2 = .error err) →
      ∀ (i : Nat) (acc : List Certificate), ∃ err, collectAssets stub i es acc = .error err := by
  intro es
  induction es with
  | nil => intro h; obtain ⟨e, he, -⟩ := h; simp at he
  | cons x rest ih =>
    intro h i acc
    cases hn : stub.nextErr i with
    | some cause => exact ⟨.text cause, by simp only [collectAssets, hn]⟩
    | none =>
      cases hx : UnmarshalCertificate x.2 with
      | error err => exact ⟨err, by simp only [collectAssets, hn, hx]⟩
      | ok c =>
        have hrest : ∃ e ∈ rest, ∃ err, UnmarshalCertificate e.2 = .error err := by
          obtain ⟨e, he, err, herr⟩ := h
          rcases List.mem_cons.1 he with he | he
          · subst he; rw [hx] at herr; cases herr
          · exact ⟨e, he, err, herr⟩
        obtain ⟨err, hrun⟩ := ih hrest (i + 1) (acc ++ [c])
        exact ⟨err, by simp only [collectAssets, hn, hx, hrun]⟩

/-- C12: with the iterator working, for the sequence `scan` of pairs the
full-range scan produces: if every value decodes, `GetAllAssets` returns the
decoded certificates in the order of `scan` (the list related to `scan`
position by position); if some value does not decode, `GetAllAssets` returns
no list but the decoding error of a record of `scan`. -/
theorem getAllAssets_scan_order (stub : Stub) (w : WorldState) (scan : List (GoString × Bytes))
    (hscan : GetStateByRange stub [] [] w = .ok scan) (hnext : ∀ i, stub.nextErr i = none) :
    (∀ certs : List Certificate,
        List.Forall₂ (fun e c => UnmarshalCertificate e.2 = .ok c) scan certs →
        (GetAllAssets stub w).1 = .ok certs)
      ∧ ((∃ e ∈ scan, ∃ err, UnmarshalCertificate e.2 = .error err) →
        ∃ e ∈ scan, ∃ err, UnmarshalCertificate e.2 = .error err
          ∧ (GetAllAssets stub w).1 = .error err) := by
  rw [GetAllAssets_of_scan hscan]
  constructor
  · intro certs h
    have := collectAssets_decoded hnext scan certs h 0 []
    simpa using this
  · intro h
    exact collectAssets_first_bad hnext scan h 0 []

theorem getAllAssets_scan_order_witness :
    (GetAllAssets Stub.reliable
        [(utf8 "A", encodeCertificate seed1), (utf8 "B", encodeCertificate seed2)]).1
        = .ok [seed1, seed2]
      ∧ ∃ e ∈ [(utf8 "A", encodeCertificate seed1), (utf8 "B", encodeString (utf8 "string"))],
        ∃ err, UnmarshalCertificate e.2 = .error err
          ∧ (GetAllAssets Stub.reliable
              [(utf8 "A", encodeCertificate seed1), (utf8 "B", encodeString (utf8 "string"))]).1
                  = .error err :=
  ⟨(getAllAssets_scan_order Stub.reliable
      [(utf8 "A", encodeCertificate seed1), (utf8 "B", encodeCertificate seed2)]
      [(utf8 "A", encodeCertificate seed1), (utf8 "B", encodeCertificate seed2)] rfl
          (fun _ => rfl)).1
      [seed1, seed2]
      (List.Forall₂.cons (UnmarshalCertificate_encodeCertificate_of_valid seed1_valid)
        (List.Forall₂.cons (UnmarshalCertificate_encodeCertificate_of_valid seed2_valid)
            List.Forall₂.nil)),
    (getAllAssets_scan_order Stub.reliable
      [(utf8 "A", encodeCertificate seed1), (utf8 "B", encodeString (utf8 "string"))]
      [(utf8 "A", encodeCertificate seed1), (utf8 "B", encodeString (utf8 "string"))] rfl
          (fun _ => rfl)).2
      ⟨(utf8 "B", encodeString (utf8 "string")), by simp, _, UnmarshalCertificate_encodeString
          (utf8 "string")⟩⟩

/-! ## Failures of the read, and what each operation may touch -/

theorem AssetExists_state (stub : Stub) (id : GoString) (w : WorldState) :
    (AssetExists stub id w).2 = w := by
  unfold AssetExists
  cases GetState stub id w <;> rfl

theorem ReadAsset_state (stub : Stub) (id : GoString) (w : WorldState) :
    (ReadAsset stub id w).2 = w := by
  unfold ReadAsset
  split
  · rfl
  · rfl
  · split <;> rfl

theorem GetAllAssets_state (stub : Stub) (w : WorldState) : (GetAllAssets stub w).2 = w := by
  unfold GetAllAssets
  cases GetStateByRange stub [] [] w <;> rfl

theorem ReadAsset_congr (stub : Stub) (id : GoString) {w1 w2 : WorldState}
    (h : lookup id w1 = lookup id w2) : (ReadAsset stub id w1).1 = (ReadAsset stub id w2).1 := by
  unfold ReadAsset GetState
  rw [h]
  cases stub.getStateErr id with
  | some cause => rfl
  | none =>
    cases lookup id w2 with
    | none => rfl
    | some data =>
      simp only []
      split <;> rfl

theorem getStateErr_of_ReadAsset {stub : Stub} {id : GoString} {w : WorldState}
    {asset : Certificate} (h : (ReadAsset stub id w).1 = .ok asset) :
    stub.getStateErr id = none
      ∧ ∃ data, lookup id w = some data ∧ UnmarshalCertificate data = .ok asset := by
  cases hr : stub.getStateErr id with
  | some cause => simp [ReadAsset, GetState, hr] at h
  | none =>
    cases hl : lookup id w with
    | none => simp [ReadAsset, GetState, hr, hl] at h
    | some data =>
      refine ⟨rfl, data, rfl, ?_⟩
      rw [ReadAsset_present hr hl] at h
      cases hd : UnmarshalCertificate data with
      | error err => rw [hd] at h; cases h
      | ok c => rw [hd] at h; exact h

theorem TransferAsset_of_read_error {stub : Stub} {id : GoString} {w : WorldState}
    {err : GoError} (h : (ReadAsset stub id w).1 = .error err) (newOwner : GoString) :
    TransferAsset stub id newOwner w = (some err, w) := by
  have hpair : ReadAsset stub id w = (.error err, w) :=
    Prod.ext h (ReadAsset_state stub id w)
  simp only [TransferAsset, hpair]

theorem TransferAsset_of_read_ok {stub : Stub} {id : GoString} {w : WorldState}
    {asset : Certificate} (h : (ReadAsset stub id w).1 = .ok asset) (newOwner : GoString) :
    TransferAsset stub id newOwner w
      = ((PutState stub id (encodeString (utf8 "string")) w).1.map GoError.text,
          (PutState stub id (encodeString (utf8 "string")) w).2) := by
  have hpair : ReadAsset stub id w = (.ok asset, w) :=
    Prod.ext h (ReadAsset_state stub id w)
  simp only [TransferAsset, hpair, MarshalString]

theorem PutState_state_cases (stub : Stub) (key : GoString) (value : Bytes) (w : WorldState) :
    (PutState stub key value w).2 = w ∨ (PutState stub key value w).2 = store key value w := by
  unfold PutState
  cases stub.putStateErr key with
  | some cause => exact Or.inl rfl
  | none => exact Or.inr rfl

theorem lookup_PutState_ne {key other : GoString} (h : other ≠ key) (stub : Stub)
    (value : Bytes) (w : WorldState) :
    lookup other (PutState stub key value w).2 = lookup other w := by
  rcases PutState_state_cases stub key value w with h1 | h1 <;> rw [h1]
  exact lookup_store_ne h value w

theorem lookup_DelState_ne {key other : GoString} (h : other ≠ key) (stub : Stub)
    (w : WorldState) : lookup other (DelState stub key w).2 = lookup other w := by
  unfold DelState
  cases stub.delStateErr key with
  | some cause => rfl
  | none => exact lookup_remove_ne h w

/-- C13: when the collaborator's read of key `id` fails with cause `e`,
`AssetExists`, `ReadAsset`, `CreateAsset`, `UpdateAsset`, `DeleteAsset` and
`TransferAsset` on `id` each return the error
`failed to read from world state: <e>` and leave the world state as it was. -/
theorem read_failure_propagates (stub : Stub) (w : WorldState) (id e : GoString)
    (photo title : GoString) (artist : Artist) (owner : GoString) (yearOfProduction : GoInt)
    (newOwner : GoString) (hfail : stub.getStateErr id = some e) :
    AssetExists stub id w = (.error (.text (utf8 "failed to read from world state: " ++ e)), w)
      ∧ ReadAsset stub id w = (.error (.text (utf8 "failed to read from world state: " ++ e)), w)
      ∧ CreateAsset stub id photo title artist owner yearOfProduction w
        = (some (.text (utf8 "failed to read from world state: " ++ e)), w)
      ∧ UpdateAsset stub id photo title artist owner yearOfProduction w
        = (some (.text (utf8 "failed to read from world state: " ++ e)), w)
      ∧ DeleteAsset stub id w = (some (.text (utf8 "failed to read from world state: " ++ e)), w)
      ∧ TransferAsset stub id newOwner w
        = (some (.text (utf8 "failed to read from world state: " ++ e)), w) := by
  have hex : AssetExists stub id w
      = (.error (.text (utf8 "failed to read from world state: " ++ e)), w) := by
    simp only [AssetExists, GetState, hfail]
  have hrd : ReadAsset stub id w
      = (.error (.text (utf8 "failed to read from world state: " ++ e)), w) := by
    simp only [ReadAsset, GetState, hfail]
  refine ⟨hex, hrd, ?_, ?_, ?_, ?_⟩
  · simp only [CreateAsset, hex]
  · simp only [UpdateAsset, hex]
  · simp only [DeleteAsset, hex]
  · simp only [TransferAsset, hrd]

theorem read_failure_propagates_witness :
    AssetExists ⟨fun _ => some (utf8 "unable to retrieve asset"), fun _ => none, fun _ => none,
        none,
        fun _ => none⟩ (utf8 "id") [(utf8 "id", ['x'])]
        = (.error (.text (utf8 "failed to read from world state: " ++ utf8
            "unable to retrieve asset")),
            [(utf8 "id", ['x'])])
      ∧ CreateAsset ⟨fun _ => some (utf8 "unable to retrieve asset"), fun _ => none, fun _ => none,
          none, fun _ => none⟩ (utf8 "id") (utf8 "photo_uri") (utf8 "title")
          ⟨utf8 "id-13894047849", utf8 "Tomoko Janra", utf8 "20.11.1980"⟩ (utf8 "owner1")
              ⟨1962, by decide⟩
          [(utf8 "id", ['x'])]
        = (some (.text (utf8 "failed to read from world state: " ++ utf8
            "unable to retrieve asset")),
            [(utf8 "id", ['x'])]) :=
  ⟨(read_failure_propagates ⟨fun _ => some (utf8 "unable to retrieve asset"), fun _ => none,
      fun _ => none, none, fun _ => none⟩ [(utf8 "id", ['x'])] (utf8 "id")
          (utf8 "unable to retrieve asset")
      (utf8 "photo_uri") (utf8 "title")
          ⟨utf8 "id-13894047849", utf8 "Tomoko Janra", utf8 "20.11.1980"⟩ (utf8 "owner1")
      ⟨1962, by decide⟩ (utf8 "owner2") rfl).1,
    (read_failure_propagates ⟨fun _ => some (utf8 "unable to retrieve asset"), fun _ => none,
      fun _ => none, none, fun _ => none⟩ [(utf8 "id", ['x'])] (utf8 "id")
          (utf8 "unable to retrieve asset")
      (utf8 "photo_uri") (utf8 "title")
          ⟨utf8 "id-13894047849", utf8 "Tomoko Janra", utf8 "20.11.1980"⟩ (utf8 "owner1")
      ⟨1962, by decide⟩ (utf8 "owner2") rfl).2.2.1⟩

/-- C14: whenever `ReadAsset(id)` fails on a world state, with whatever error
(key absent, read failure, stored bytes that do not decode),
`TransferAsset(id, newOwner)` returns exactly that error and leaves the world
state unchanged. -/
theorem transferAsset_propagates_read_error (stub : Stub) (w : WorldState)
    (id newOwner : GoString) (err : GoError) (hread : (ReadAsset stub id w).1 = .error err) :
    TransferAsset stub id newOwner w = (some err, w) :=
  TransferAsset_of_read_error hread newOwner

theorem transferAsset_propagates_read_error_witness :
    TransferAsset Stub.reliable (utf8 "asset1") (utf8 "owner2") []
        = (some (.text (utf8 "the asset " ++ utf8 "asset1" ++ utf8 " does not exist")), [])
      ∧ TransferAsset ⟨fun _ => some (utf8 "unable to retrieve asset"), fun _ => none, fun _ =>
          none,
          none, fun _ => none⟩ [] [] []
        = (some (.text (utf8 "failed to read from world state: " ++ utf8
            "unable to retrieve asset")), [])
      ∧ TransferAsset Stub.reliable (utf8 "A") (utf8 "owner2")
          [(utf8 "A", encodeString (utf8 "string"))]
        = (some (.jsonMismatch "string" "chaincode.Certificate"),
            [(utf8 "A", encodeString (utf8 "string"))]) :=
  ⟨transferAsset_propagates_read_error Stub.reliable [] (utf8 "asset1") (utf8 "owner2") _ rfl,
    transferAsset_propagates_read_error ⟨fun _ => some (utf8 "unable to retrieve asset"),
      fun _ => none, fun _ => none, none, fun _ => none⟩ [] [] [] _ rfl,
    transferAsset_propagates_read_error Stub.reliable [(utf8 "A", encodeString (utf8 "string"))]
        (utf8 "A")
      (utf8 "owner2") _
      (by rw [@ReadAsset_present Stub.reliable (utf8 "A") rfl
          [(utf8 "A", encodeString (utf8 "string"))]
            (encodeString (utf8 "string")) (by simp [lookup]),
          UnmarshalCertificate_encodeString])⟩

/-- C15: when the collaborator's read of key `id` works, `AssetExists(id)`
returns no error, and true exactly when some value is stored at key `id`,
whatever the value; `AssetExists(id)` returns an error only when that read
fails. -/
theorem assetExists_presence (stub : Stub) (w : WorldState) (id : GoString) :
    (stub.getStateErr id = none →
        AssetExists stub id w = (.ok (lookup id w).isSome, w)
          ∧ ((AssetExists stub id w).1 = .ok true ↔ ∃ v, lookup id w = some v))
      ∧ (∀ err, (AssetExists stub id w).1 = .error err →
        ∃ cause, stub.getStateErr id = some cause
          ∧ err = .text (utf8 "failed to read from world state: " ++ cause)) := by
  constructor
  · intro hread
    refine ⟨AssetExists_eq hread w, ?_⟩
    rw [AssetExists_eq hread w]
    cases lookup id w with
    | none => simp
    | some v => simp
  · intro err h
    cases hr : stub.getStateErr id with
    | none => rw [AssetExists_eq hr w] at h; cases h
    | some cause =>
      simp only [AssetExists, GetState, hr, Except.error.injEq] at h
      exact ⟨cause, rfl, h.symm⟩

theorem assetExists_presence_witness :
    (AssetExists Stub.reliable (utf8 "empty") [(utf8 "empty", []), (utf8 "junk", ['n', 'o'])]
        = (.ok true, [(utf8 "empty", []), (utf8 "junk", ['n', 'o'])])
      ∧ AssetExists Stub.reliable (utf8 "junk") [(utf8 "empty", []), (utf8 "junk", ['n', 'o'])]
        = (.ok true, [(utf8 "empty", []), (utf8 "junk", ['n', 'o'])]))
      ∧ AssetExists Stub.reliable (utf8 "other") [(utf8 "empty", []), (utf8 "junk", ['n', 'o'])]
        = (.ok false, [(utf8 "empty", []), (utf8 "junk", ['n', 'o'])]) :=
  ⟨⟨((assetExists_presence Stub.reliable [(utf8 "empty", []), (utf8 "junk", ['n', 'o'])]
      (utf8 "empty")).1
      rfl).1,
    ((assetExists_presence Stub.reliable [(utf8 "empty", []), (utf8 "junk", ['n', 'o'])]
        (utf8 "junk")).1
      rfl).1⟩,
    ((assetExists_presence Stub.reliable [(utf8 "empty", []), (utf8 "junk", ['n', 'o'])]
        (utf8 "other")).1
      rfl).1⟩

/-! ## The key `UpdateAsset` writes, and what `TransferAsset` leaves -/

theorem append_ne_self {id owner : GoString} (h : owner ≠ []) : id ++ owner ≠ id := by
  intro heq
  exact h (List.append_right_eq_self.1 heq)

theorem of_UpdateAsset_ok {stub : Stub} {id photo title owner : GoString} {artist : Artist}
    {year : GoInt} {w : WorldState}
    (hok : (UpdateAsset stub id photo title artist owner year w).1 = none) :
    stub.getStateErr id = none ∧ (lookup id w).isSome = true
      ∧ stub.putStateErr (id ++ owner) = none := by
  cases hr : stub.getStateErr id with
  | some cause => simp [UpdateAsset, AssetExists, GetState, hr] at hok
  | none =>
    cases hl : lookup id w with
    | none => simp [UpdateAsset, AssetExists, GetState, hr, hl] at hok
    | some data =>
      cases hp : stub.putStateErr (id ++ owner) with
      | some cause =>
        simp [UpdateAsset, AssetExists, GetState, hr, hl, MarshalCertificate, PutState, hp]
          at hok
      | none => exact ⟨rfl, rfl, rfl⟩

/-- C16: on a world state holding a value `v` at key `id`, after a successful
`UpdateAsset(id, ..., owner, ...)` with a non-empty `owner`: the key
`id ++ owner` is not `id` and holds the encoding of the new record, key `id`
still holds `v`, and `ReadAsset(id)` returns what it returned before the
update. -/
theorem updateAsset_orphans_original (stub : Stub) (w : WorldState) (id photo title : GoString)
    (artist : Artist) (owner : GoString) (yearOfProduction : GoInt) (v : Bytes)
    (hv : lookup id w = some v) (howner : owner ≠ [])
    (hok : (UpdateAsset stub id photo title artist owner yearOfProduction w).1 = none) :
    id ++ owner ≠ id
      ∧ lookup (id ++ owner) (UpdateAsset stub id photo title artist owner yearOfProduction w).2
        = some (encodeCertificate ⟨id, photo, title, owner, yearOfProduction, artist⟩)
      ∧ lookup id (UpdateAsset stub id photo title artist owner yearOfProduction w).2 = some v
      ∧ (ReadAsset stub id (UpdateAsset stub id photo title artist owner yearOfProduction w).2).1
        = (ReadAsset stub id w).1 := by
  obtain ⟨hr, hl, hp⟩ := of_UpdateAsset_ok hok
  have hne : id ≠ id ++ owner := fun h => append_ne_self howner h.symm
  rw [UpdateAsset_eq hr hl hp]
  have hkeep : lookup id (store (id ++ owner)
      (encodeCertificate ⟨id, photo, title, owner, yearOfProduction, artist⟩) w) = lookup id w :=
    lookup_store_ne hne _ _
  exact ⟨append_ne_self howner, lookup_store_self _ _ _, hkeep.trans hv,
    ReadAsset_congr stub id hkeep⟩

theorem updateAsset_orphans_original_witness :
    (utf8 "A") ++ utf8 "owner2" ≠ (utf8 "A")
      ∧ lookup (utf8 "A" ++ utf8 "owner2")
          (UpdateAsset Stub.reliable (utf8 "A") (utf8 "photo2") (utf8 "title2")
            ⟨utf8 "id-13899810498", utf8 "Jubran Jubran", utf8 "17.05.1965"⟩ (utf8 "owner2")
                ⟨1999, by decide⟩
            [(utf8 "A", encodeCertificate seed1)]).2
        = some (encodeCertificate ⟨utf8 "A", utf8 "photo2", utf8 "title2", utf8 "owner2",
            ⟨1999, by decide⟩,
            ⟨utf8 "id-13899810498", utf8 "Jubran Jubran", utf8 "17.05.1965"⟩⟩)
      ∧ lookup (utf8 "A")
          (UpdateAsset Stub.reliable (utf8 "A") (utf8 "photo2") (utf8 "title2")
            ⟨utf8 "id-13899810498", utf8 "Jubran Jubran", utf8 "17.05.1965"⟩ (utf8 "owner2")
                ⟨1999, by decide⟩
            [(utf8 "A", encodeCertificate seed1)]).2
        = some (encodeCertificate seed1)
      ∧ (ReadAsset Stub.reliable (utf8 "A")
          (UpdateAsset Stub.reliable (utf8 "A") (utf8 "photo2") (utf8 "title2")
            ⟨utf8 "id-13899810498", utf8 "Jubran Jubran", utf8 "17.05.1965"⟩ (utf8 "owner2")
                ⟨1999, by decide⟩
            [(utf8 "A", encodeCertificate seed1)]).2).1
        = (ReadAsset Stub.reliable (utf8 "A") [(utf8 "A", encodeCertificate seed1)]).1 :=
  updateAsset_orphans_original Stub.reliable [(utf8 "A", encodeCertificate seed1)] (utf8 "A")
      (utf8 "photo2")
    (utf8 "title2") ⟨utf8 "id-13899810498", utf8 "Jubran Jubran", utf8 "17.05.1965"⟩
        (utf8 "owner2") ⟨1999, by decide⟩
    (encodeCertificate seed1) (by simp [lookup]) (by decide) rfl

theorem twoAssets_eq :
    twoAssets
      = store (utf8 "AB") (encodeCertificate assetAB)
          (store (utf8 "A") (encodeCertificate assetA) []) := by
  have h1 : (CreateAsset Stub.reliable (utf8 "A") (utf8 "photo_a") (utf8 "title_a")
      ⟨utf8 "id-13894047849", utf8 "Tomoko Janra", utf8 "20.11.1980"⟩ (utf8 "owner1")
          ⟨1962, by decide⟩ []).1 = none :=
    rfl
  have h2 : (CreateAsset Stub.reliable (utf8 "AB") (utf8 "photo_b") (utf8 "title_b")
      ⟨utf8 "id-13894047849", utf8 "Mayer Labor", utf8 "17.11.1971"⟩ (utf8 "owner1")
          ⟨1977, by decide⟩
      (store (utf8 "A") (encodeCertificate assetA) [])).1 = none := rfl
  unfold twoAssets
  rw [CreateAsset_state h1]
  exact CreateAsset_state h2

/-- C18: `UpdateAsset` can overwrite another live asset. On the world state
holding the assets `A` and `AB` (each readable, with that ID),
`UpdateAsset("A", ..., owner "B", ...)` succeeds; afterwards `ReadAsset("AB")`
returns a certificate whose ID is `A`, the record of `AB` being gone, and
`ReadAsset("A")` returns what it did before. -/
theorem updateAsset_overwrites_other :
    ∃ (w : WorldState) (a b owner : GoString) (ca cb : Certificate),
      a ≠ b ∧ a ++ owner = b
        ∧ (ReadAsset Stub.reliable a w).1 = .ok ca ∧ ca.ID = a
        ∧ (ReadAsset Stub.reliable b w).1 = .ok cb ∧ cb.ID = b
        ∧ (UpdateAsset Stub.reliable a (utf8 "photo2") (utf8 "title2")
            ⟨utf8 "id-13899810498", utf8 "Jubran Jubran", utf8 "17.05.1965"⟩ owner
                ⟨1999, by decide⟩ w).1 = none
        ∧ (∃ c, (ReadAsset Stub.reliable b
              (UpdateAsset Stub.reliable a (utf8 "photo2") (utf8 "title2")
                ⟨utf8 "id-13899810498", utf8 "Jubran Jubran", utf8 "17.05.1965"⟩ owner
                    ⟨1999, by decide⟩
                w).2).1 = .ok c
            ∧ c.ID = a ∧ c ≠ cb)
        ∧ (ReadAsset Stub.reliable a
              (UpdateAsset Stub.reliable a (utf8 "photo2") (utf8 "title2")
                ⟨utf8 "id-13899810498", utf8 "Jubran Jubran", utf8 "17.05.1965"⟩ owner
                    ⟨1999, by decide⟩
                w).2).1 = .ok ca := by
  have hA : lookup (utf8 "A") twoAssets = some (encodeCertificate assetA) := by
    rw [twoAssets_eq]
    exact (lookup_store_ne (by decide) _ _).trans (lookup_store_self _ _ _)
  have hAB : lookup (utf8 "AB") twoAssets = some (encodeCertificate assetAB) := by
    rw [twoAssets_eq]
    exact lookup_store_self _ _ _
  have hUpd := @UpdateAsset_eq Stub.reliable (utf8 "A") (utf8 "B") twoAssets rfl
      (by rw [hA]; rfl) rfl
    (utf8 "photo2") (utf8 "title2")
        ⟨utf8 "id-13899810498", utf8 "Jubran Jubran", utf8 "17.05.1965"⟩ ⟨1999, by decide⟩
  refine ⟨twoAssets, utf8 "A", utf8 "AB", utf8 "B", assetA, assetAB, by decide, by decide, ?_,
      rfl, ?_, rfl,
    ?_, ?_, ?_⟩
  · rw [@ReadAsset_present Stub.reliable (utf8 "A") rfl _ _ hA,
      UnmarshalCertificate_encodeCertificate_of_valid assetA_valid]
  · rw [@ReadAsset_present Stub.reliable (utf8 "AB") rfl _ _ hAB,
      UnmarshalCertificate_encodeCertificate_of_valid assetAB_valid]
  · rw [hUpd]
  · rw [hUpd]
    refine ⟨⟨utf8 "A", utf8 "photo2", utf8 "title2", utf8 "B", ⟨1999, by decide⟩,
      ⟨utf8 "id-13899810498", utf8 "Jubran Jubran", utf8 "17.05.1965"⟩⟩, ?_, rfl, by decide⟩
    rw [@ReadAsset_present Stub.reliable (utf8 "AB") rfl _ _
        (lookup_store_self (utf8 "A" ++ utf8 "B") _ _),
      UnmarshalCertificate_encodeCertificate_utf8]
  · rw [hUpd]
    rw [@ReadAsset_present Stub.reliable (utf8 "A") rfl _ _
        ((lookup_store_ne (by decide) _ _).trans hA),
      UnmarshalCertificate_encodeCertificate_of_valid assetA_valid]

theorem GetAllAssets_fails_of_bad (stub : Stub) {w : WorldState}
    (h : ∃ e ∈ w, ∃ err, UnmarshalCertificate e.2 = .error err) :
    ∃ err, (GetAllAssets stub w).1 = .error err := by
  cases hs : GetStateByRange stub [] [] w with
  | error cause => exact ⟨.text cause, by simp only [GetAllAssets, hs]⟩
  | ok scan =>
    obtain ⟨hw, -⟩ := GetStateByRange_all hs
    subst hw
    rw [GetAllAssets_of_scan hs]
    exact collectAssets_fails stub scan h 0 []

theorem of_TransferAsset_ok {stub : Stub} {id newOwner : GoString} {w : WorldState}
    (hok : (TransferAsset stub id newOwner w).1 = none) :
    stub.getStateErr id = none
      ∧ (TransferAsset stub id newOwner w).2 = store id (encodeString (utf8 "string")) w := by
  cases hr : (ReadAsset stub id w).1 with
  | error err =>
    rw [TransferAsset_of_read_error hr newOwner] at hok
    cases hok
  | ok asset =>
    obtain ⟨hg, -⟩ := getStateErr_of_ReadAsset hr
    rw [TransferAsset_of_read_ok hr newOwner] at hok ⊢
    cases hp : stub.putStateErr id with
    | some cause => simp [PutState, hp] at hok
    | none => exact ⟨hg, by simp only [PutState, hp]⟩

/-- C19: after a successful `TransferAsset(id, newOwner)`, on any world state and
for any `newOwner`, the value at key `id` is the JSON encoding of the string
`"string"`, `AssetExists(id)` returns true, and `GetAllAssets` returns an
error; when the range scan itself works, that error is the decoding error of
a stored record. -/
theorem transferAsset_leaves_placeholder (stub : Stub) (w : WorldState) (id newOwner : GoString)
    (hok : (TransferAsset stub id newOwner w).1 = none) :
    lookup id (TransferAsset stub id newOwner w).2 = some (encodeString (utf8 "string"))
      ∧ (AssetExists stub id (TransferAsset stub id newOwner w).2).1 = .ok true
      ∧ (∃ err, (GetAllAssets stub (TransferAsset stub id newOwner w).2).1 = .error err)
      ∧ (stub.rangeErr = none → (∀ i, stub.nextErr i = none) →
          ∃ e ∈ (TransferAsset stub id newOwner w).2, ∃ err,
            UnmarshalCertificate e.2 = .error err
              ∧ (GetAllAssets stub (TransferAsset stub id newOwner w).2).1 = .error err) := by
  obtain ⟨hg, hst⟩ := of_TransferAsset_ok hok
  rw [hst]
  have hl : lookup id (store id (encodeString (utf8 "string")) w) = some
      (encodeString (utf8 "string")) :=
    lookup_store_self _ _ _
  have hbad : ∃ e ∈ store id (encodeString (utf8 "string")) w, ∃ err,
      UnmarshalCertificate e.2 = .error err :=
    ⟨(id, encodeString (utf8 "string")), mem_of_lookup hl, _, UnmarshalCertificate_encodeString _⟩
  refine ⟨hl, ?_, GetAllAssets_fails_of_bad stub hbad, ?_⟩
  · rw [AssetExists_eq hg, hl]; rfl
  · intro hrange hnext
    have hscan : GetStateByRange stub [] [] (store id (encodeString (utf8 "string")) w)
        = .ok (store id (encodeString (utf8 "string")) w) := by
      simp [GetStateByRange, hrange]
    rw [GetAllAssets_of_scan hscan]
    exact collectAssets_first_bad hnext _ hbad 0 []

theorem transferAsset_leaves_placeholder_witness :
    lookup (utf8 "A") (TransferAsset Stub.reliable (utf8 "A") (utf8 "owner2")
        [(utf8 "A", encodeCertificate seed1), (utf8 "B", encodeCertificate seed2)]).2
        = some (encodeString (utf8 "string"))
      ∧ (AssetExists Stub.reliable (utf8 "A")
          (TransferAsset Stub.reliable (utf8 "A") (utf8 "owner2")
        [(utf8 "A", encodeCertificate seed1), (utf8 "B", encodeCertificate seed2)]).2).1 = .ok true
      ∧ ∃ err, (GetAllAssets Stub.reliable (TransferAsset Stub.reliable (utf8 "A") (utf8 "owner2")
        [(utf8 "A", encodeCertificate seed1), (utf8 "B", encodeCertificate seed2)]).2).1 =
            .error err :=
  have h := transferAsset_leaves_placeholder Stub.reliable
    [(utf8 "A", encodeCertificate seed1), (utf8 "B", encodeCertificate seed2)] (utf8 "A")
        (utf8 "owner2")
    (by rw [@TransferAsset_eq Stub.reliable (utf8 "A") _ (encodeCertificate seed1) seed1 rfl
          (by simp [lookup]) (UnmarshalCertificate_encodeCertificate_of_valid seed1_valid) rfl
              (utf8 "owner2")])
  ⟨h.1, h.2.1, h.2.2.1⟩

theorem AssetExists_pair (stub : Stub) (id : GoString) (w : WorldState) :
    AssetExists stub id w = ((AssetExists stub id w).1, w) :=
  Prod.ext rfl (AssetExists_state stub id w)

theorem lookup_CreateAsset_ne {key id : GoString} (h : key ≠ id) (stub : Stub)
    (photo title : GoString) (artist : Artist) (owner : GoString) (year : GoInt) (w : WorldState) :
    lookup key (CreateAsset stub id photo title artist owner year w).2 = lookup key w := by
  unfold CreateAsset
  rw [AssetExists_pair]
  cases (AssetExists stub id w).1 with
  | error err => rfl
  | ok b =>
    cases b with
    | true => rfl
    | false =>
      simp only [MarshalCertificate]
      exact lookup_PutState_ne h stub _ w

theorem lookup_UpdateAsset_ne {key id owner : GoString} (h : key ≠ id ++ owner) (stub : Stub)
    (photo title : GoString) (artist : Artist) (year : GoInt) (w : WorldState) :
    lookup key (UpdateAsset stub id photo title artist owner year w).2 = lookup key w := by
  unfold UpdateAsset
  rw [AssetExists_pair]
  cases (AssetExists stub id w).1 with
  | error err => rfl
  | ok b =>
    cases b with
    | false => rfl
    | true =>
      simp only [MarshalCertificate]
      exact lookup_PutState_ne h stub _ w

theorem lookup_DeleteAsset_ne {key id : GoString} (h : key ≠ id) (stub : Stub)
    (w : WorldState) : lookup key (DeleteAsset stub id w).2 = lookup key w := by
  unfold DeleteAsset
  rw [AssetExists_pair]
  cases (AssetExists stub id w).1 with
  | error err => rfl
  | ok b =>
    cases b with
    | false => rfl
    | true => exact lookup_DelState_ne h stub w

theorem lookup_TransferAsset_ne {key id : GoString} (h : key ≠ id) (stub : Stub)
    (newOwner : GoString) (w : WorldState) :
    lookup key (TransferAsset stub id newOwner w).2 = lookup key w := by
  cases hr : (ReadAsset stub id w).1 with
  | error err => rw [TransferAsset_of_read_error hr newOwner]
  | ok asset =>
    rw [TransferAsset_of_read_ok hr newOwner]
    exact lookup_PutState_ne h stub _ w

/-- C20: whatever its outcome, a `CreateAsset`, `DeleteAsset` or `TransferAsset`
call on `id` leaves the value at every key other than `id` unchanged, an
`UpdateAsset` call on `id` with `owner` leaves the value at every key other
than `id ++ owner` unchanged, and `AssetExists`, `ReadAsset` and
`GetAllAssets` leave the whole world state unchanged. -/
theorem operations_frame (stub : Stub) (w : WorldState) (id photo title : GoString)
    (artist : Artist) (owner : GoString) (yearOfProduction : GoInt) (newOwner key : GoString) :
    (key ≠ id →
        lookup key (CreateAsset stub id photo title artist owner yearOfProduction w).2
            = lookup key w
          ∧ lookup key (DeleteAsset stub id w).2 = lookup key w
          ∧ lookup key (TransferAsset stub id newOwner w).2 = lookup key w)
      ∧ (key ≠ id ++ owner →
        lookup key (UpdateAsset stub id photo title artist owner yearOfProduction w).2
          = lookup key w)
      ∧ (AssetExists stub id w).2 = w
      ∧ (ReadAsset stub id w).2 = w
      ∧ (GetAllAssets stub w).2 = w :=
  ⟨fun h => ⟨lookup_CreateAsset_ne h stub photo title artist owner yearOfProduction w,
      lookup_DeleteAsset_ne h stub w, lookup_TransferAsset_ne h stub newOwner w⟩,
    fun h => lookup_UpdateAsset_ne h stub photo title artist yearOfProduction w,
    AssetExists_state stub id w, ReadAsset_state stub id w, GetAllAssets_state stub w⟩

theorem operations_frame_witness :
    (lookup (utf8 "AB") (CreateAsset Stub.reliable (utf8 "C") (utf8 "photo_c") (utf8 "title_c")
          ⟨utf8 "id-13899810498", utf8 "Jubran Jubran", utf8 "17.05.1965"⟩ (utf8 "owner3")
              ⟨1990, by decide⟩
          twoAssets).2 = lookup (utf8 "AB") twoAssets
        ∧ lookup (utf8 "AB") (DeleteAsset Stub.reliable (utf8 "A") twoAssets).2 = lookup
            (utf8 "AB") twoAssets
        ∧ lookup (utf8 "AB") (TransferAsset Stub.reliable (utf8 "A") (utf8 "owner2") twoAssets).2
          = lookup (utf8 "AB") twoAssets)
      ∧ lookup (utf8 "A") (UpdateAsset Stub.reliable (utf8 "A") (utf8 "photo2") (utf8 "title2")
          ⟨utf8 "id-13899810498", utf8 "Jubran Jubran", utf8 "17.05.1965"⟩ (utf8 "owner2")
              ⟨1999, by decide⟩
          twoAssets).2 = lookup (utf8 "A") twoAssets :=
  ⟨⟨((operations_frame Stub.reliable twoAssets (utf8 "C") (utf8 "photo_c") (utf8 "title_c")
        ⟨utf8 "id-13899810498", utf8 "Jubran Jubran", utf8 "17.05.1965"⟩ (utf8 "owner3")
            ⟨1990, by decide⟩ (utf8 "owner2")
        (utf8 "AB")).1 (by decide)).1,
      ((operations_frame Stub.reliable twoAssets (utf8 "A") (utf8 "photo2") (utf8 "title2")
        ⟨utf8 "id-13899810498", utf8 "Jubran Jubran", utf8 "17.05.1965"⟩ (utf8 "owner2")
            ⟨1999, by decide⟩ (utf8 "owner2")
        (utf8 "AB")).1 (by decide)).2⟩,
    (operations_frame Stub.reliable twoAssets (utf8 "A") (utf8 "photo2") (utf8 "title2")
      ⟨utf8 "id-13899810498", utf8 "Jubran Jubran", utf8 "17.05.1965"⟩ (utf8 "owner2")
          ⟨1999, by decide⟩ (utf8 "owner2")
      (utf8 "A")).2.1 (by decide)⟩

end Chaincode
